import Mathlib

/-!
# Transaction parsing and summary aggregation

A shallow embedding of `internal/domain` (`transaction.go`, `summary.go`,
`errors.go`), of `ProcessFile` and `validateHeader` of
`internal/infrastructure/file/csv_reader.go`, of `SendSummary` and `sendEmail`
of `internal/infrastructure/email/smtp_sender.go` and of
`ProcessTransactionFile` and `WatchAndProcess` of
`internal/services/processor.go`, together with the library functions those
files call: `github.com/shopspring/decimal` (the `Decimal` type with `Add`,
`Sub`, `Abs`, `Cmp`, `Div`, `NewFromString`), `strconv.Atoi`,
`strings.TrimSpace`, `time.Parse` / `Time.Format` for the layouts the domain
code uses, the field count check of `Reader.Read` of `encoding/csv`, and
`errors.Is` / `fmt.Errorf`.

Conventions of the embedding:
* Go strings are Lean strings (sequences of characters); the number and date
  parsers accept ASCII characters only, as the byte-wise Go code does;
* `*big.Int` is `Int`; the `int32` exponent of a decimal is an `Int` (the
  operations used here only compare exponents and take their differences);
* a Go panic is the value `none` of an `Option`;
* a `(value, error)` result of the domain is an `Except`;
* the csv reader is the sequence of results of its `Read` calls, the context is
  what each check of `ctx.Done()` observes, and the collaborators of the
  services are functions; calls made and records left unread are returned with
  the result;
* a run of the loop of `WatchAndProcess` is the finite sequence of the cases
  its `select` statements have taken so far.
-/

set_option autoImplicit false

/-! ## shopspring/decimal -/

/-- The decimal number `value * 10 ^ exp` (Go: `value *big.Int`, `exp int32`;
a nil `value` reads as 0). -/
structure Decimal where
  value : Int
  exp : Int
  deriving DecidableEq, Repr

namespace Decimal

/-- Number of decimal places kept by `Div` (`decimal.DivisionPrecision`). -/
def DivisionPrecision : Int := 16

/-- Go `decimal.New(value, exp)`. -/
def New (value : Int) (exp : Int) : Decimal := ⟨value, exp⟩

/-- Go `decimal.Zero`, declared as `New(0, 1)`. -/
def Zero : Decimal := New 0 1

/-- The zero value `decimal.Decimal{}` of the Go struct (what `var d decimal.Decimal`
and a missing map entry give): nil value, exponent 0. -/
def zeroValue : Decimal := ⟨0, 0⟩

/-- Go `decimal.NewFromInt`. -/
def NewFromInt (value : Int) : Decimal := ⟨value, 0⟩

/-- Go `Decimal.rescale`: the same number at exponent `exp` (truncating when
`exp` is larger than the current exponent). -/
def rescale (d : Decimal) (exp : Int) : Decimal :=
  if d.exp = exp then d
  else
    let diff : Nat := (exp - d.exp).natAbs
    let expScale : Int := 10 ^ diff
    if exp > d.exp then ⟨d.value.tdiv expScale, exp⟩
    else ⟨d.value * expScale, exp⟩

/-- Go `decimal.RescalePair`: both numbers at the smaller of the two exponents. -/
def RescalePair (d1 d2 : Decimal) : Decimal × Decimal :=
  if d1.exp < d2.exp then (d1, d2.rescale d1.exp)
  else if d1.exp > d2.exp then (d1.rescale d2.exp, d2)
  else (d1, d2)

/-- Go `Decimal.Add`. -/
def Add (d d2 : Decimal) : Decimal :=
  let p := RescalePair d d2
  ⟨p.1.value + p.2.value, p.1.exp⟩

/-- Go `Decimal.Sub`. -/
def Sub (d d2 : Decimal) : Decimal :=
  let p := RescalePair d d2
  ⟨p.1.value - p.2.value, p.1.exp⟩

/-- Go `Decimal.Sign`: -1, 0 or 1. -/
def Sign (d : Decimal) : Int := d.value.sign

/-- Go `Decimal.IsNegative`. -/
def IsNegative (d : Decimal) : Bool := decide (d.Sign < 0)

/-- Go `Decimal.IsZero`. -/
def IsZero (d : Decimal) : Bool := decide (d.Sign = 0)

/-- Go `Decimal.Abs`. -/
def Abs (d : Decimal) : Decimal :=
  if !d.IsNegative then d else ⟨(d.value.natAbs : Int), d.exp⟩

/-- Go `big.Int.Cmp`. -/
def bigCmp (a b : Int) : Int := if a < b then -1 else if a = b then 0 else 1

/-- Go `Decimal.Cmp`. -/
def Cmp (d d2 : Decimal) : Int :=
  if d.exp = d2.exp then bigCmp d.value d2.value
  else
    let p := RescalePair d d2
    bigCmp p.1.value p.2.value

/-- Go `Decimal.Equal`: numeric equality. -/
def Equal (d d2 : Decimal) : Bool := decide (d.Cmp d2 = 0)

/-- Go `Decimal.QuoRem`: truncated quotient at `precision` decimal places and
the remainder; `none` is the panic "decimal division by 0". The exponents being
unbounded integers here, the check that `e` fits an int32 is not part of the
model. -/
def QuoRem (d d2 : Decimal) (precision : Int) : Option (Decimal × Decimal) :=
  if d2.value.sign = 0 then none
  else
    let scale := -precision
    let e := d.exp - d2.exp - scale
    let aa : Int := if e < 0 then d.value else d.value * 10 ^ e.toNat
    let bb : Int := if e < 0 then d2.value * 10 ^ (-e).toNat else d2.value
    let scalerest : Int := if e < 0 then d.exp else scale + d2.exp
    some (⟨aa.tdiv bb, scale⟩, ⟨aa.tmod bb, scalerest⟩)

/-- Go `Decimal.DivRound`: the quotient rounded half away from zero at
`precision` decimal places. -/
def DivRound (d d2 : Decimal) (precision : Int) : Option Decimal :=
  match d.QuoRem d2 precision with
  | none => none
  | some (q, r) =>
    let rv2 : Int := Int.ofNat r.value.natAbs * 2
    let r2 : Decimal := ⟨rv2, r.exp + precision⟩
    let c := r2.Cmp d2.Abs
    if c < 0 then some q
    else if d.value.sign * d2.value.sign < 0 then some (q.Sub (New 1 (-precision)))
    else some (q.Add (New 1 (-precision)))

/-- Go `Decimal.Div`: `DivRound` at `DivisionPrecision` places. -/
def Div (d d2 : Decimal) : Option Decimal := d.DivRound d2 DivisionPrecision

/-- The rational number a decimal denotes. -/
def toRat (d : Decimal) : ℚ := (d.value : ℚ) * (10 : ℚ) ^ d.exp

end Decimal

/-! ## time: calendar dates and the layout "January 2006" -/

/-- Go `time.Month`, restricted to the values a `time.Time` reports. -/
inductive Month where
  | January | February | March | April | May | June
  | July | August | September | October | November | December
  deriving DecidableEq, Repr

/-- Go `Month.String` (the entries of `longMonthNames`). -/
def Month.String : Month → String
  | .January => "January" | .February => "February" | .March => "March"
  | .April => "April" | .May => "May" | .June => "June"
  | .July => "July" | .August => "August" | .September => "September"
  | .October => "October" | .November => "November" | .December => "December"

/-- A `time.Time` as the calendar date `t.Date()` reports (the domain never
reads the time of day). -/
structure Time where
  year : Int
  month : Month
  day : Nat
  deriving DecidableEq, Repr

/-- The decimal digit characters of a natural number, most significant first
(one digit "0" for zero). -/
def decimalDigits (u : Nat) : List Char := Nat.toDigits 10 u

/-- Go `time.appendInt(b, x, width)`: the decimal form of `x`, a minus sign
first when negative, padded with leading zeros to `width` digits. -/
def appendInt (x : Int) (width : Nat) : List Char :=
  let u : Nat := x.natAbs
  let ds := decimalDigits u
  (if x < 0 then ['-'] else []) ++ List.replicate (width - ds.length) '0' ++ ds

/-- Go `t.Format("January 2006")`: full month name, a space, the year on at
least four digits. -/
def Time.FormatJanuary2006 (t : Time) : String :=
  t.month.String ++ " " ++ String.mk (appendInt t.year 4)

/-! ## domain/transaction.go -/

/-- Go `TransactionType` (an int) with its two declared constants, the only values
the repository stores in a Transaction: `parseAmount` and the test files use
Credit and Debit, and the database reader skips any other type. -/
inductive TransactionType where
  | Credit
  | Debit
  deriving DecidableEq, Repr

/-- Go `Transaction`; the field `Type` is written `Type_`. -/
structure Transaction where
  ID : Int
  Date : Time
  Amount : Decimal
  Type_ : TransactionType
  deriving DecidableEq, Repr

namespace Transaction

def IsCredit (t : Transaction) : Bool := decide (t.Type_ = TransactionType.Credit)

def IsDebit (t : Transaction) : Bool := decide (t.Type_ = TransactionType.Debit)

def AbsoluteAmount (t : Transaction) : Decimal := t.Amount.Abs

def MonthYear (t : Transaction) : String := t.Date.FormatJanuary2006

end Transaction

/-! ## Go maps with string keys -/

/-- The entry of key `k`, if any (Go `v, ok := m[k]`). A map is the list of its
entries; only the first entry of a key is ever read or written. -/
def mapLookup {V : Type} : List (String × V) → String → Option V
  | [], _ => none
  | (k', v) :: rest, k => if k' = k then some v else mapLookup rest k

/-- Go `m[k]` as an expression: the entry, or the zero value of the value type. -/
def mapIndex {V : Type} (zero : V) (m : List (String × V)) (k : String) : V :=
  (mapLookup m k).getD zero

/-- Go `m[k] = v`. -/
def mapAssign {V : Type} : List (String × V) → String → V → List (String × V)
  | [], k, v => [(k, v)]
  | (k', v') :: rest, k, v =>
    if k' = k then (k, v) :: rest else (k', v') :: mapAssign rest k v

/-! ## domain/summary.go -/

structure Summary where
  TotalBalance : Decimal
  MonthlyTransactions : List (String × Int)
  MonthlyCredits : List (String × Decimal)
  MonthlyDebits : List (String × Decimal)
  AverageCredit : Decimal
  AverageDebit : Decimal
  deriving DecidableEq, Repr

/-- The variables the loop of `NewSummary` updates. -/
structure SummaryLoop where
  summary : Summary
  totalCredits : Decimal
  totalDebits : Decimal
  creditCount : Int
  debitCount : Int
  deriving DecidableEq, Repr

/-- One iteration of the `for _, transaction := range transactions` loop. -/
def summaryStep (s : SummaryLoop) (transaction : Transaction) : SummaryLoop :=
  let monthYear := transaction.MonthYear
  let summary : Summary :=
    { s.summary with
      MonthlyTransactions :=
        mapAssign s.summary.MonthlyTransactions monthYear
          (mapIndex 0 s.summary.MonthlyTransactions monthYear + 1) }
  if transaction.IsCredit then
    { summary :=
        { summary with
          TotalBalance := summary.TotalBalance.Add transaction.Amount
          MonthlyCredits :=
            mapAssign summary.MonthlyCredits monthYear
              ((mapIndex Decimal.zeroValue summary.MonthlyCredits monthYear).Add
                transaction.Amount) }
      totalCredits := s.totalCredits.Add transaction.Amount
      totalDebits := s.totalDebits
      creditCount := s.creditCount + 1
      debitCount := s.debitCount }
  else
    { summary :=
        { summary with
          TotalBalance := summary.TotalBalance.Sub transaction.Amount
          MonthlyDebits :=
            mapAssign summary.MonthlyDebits monthYear
              ((mapIndex Decimal.zeroValue summary.MonthlyDebits monthYear).Add
                transaction.Amount) }
      totalCredits := s.totalCredits
      totalDebits := s.totalDebits.Add transaction.Amount
      creditCount := s.creditCount
      debitCount := s.debitCount + 1 }

/-- The summary `NewSummary` starts from. -/
def emptySummary : Summary :=
  { TotalBalance := Decimal.Zero
    MonthlyTransactions := []
    MonthlyCredits := []
    MonthlyDebits := []
    AverageCredit := Decimal.Zero
    AverageDebit := Decimal.Zero }

/-- The loop of `NewSummary` run over the whole list. -/
def summaryLoop (transactions : List Transaction) : SummaryLoop :=
  transactions.foldl summaryStep
    { summary := emptySummary
      totalCredits := Decimal.zeroValue
      totalDebits := Decimal.zeroValue
      creditCount := 0
      debitCount := 0 }

/-- The `if creditCount > 0 { summary.AverageCredit = totalCredits.Div(...) }`
statement of `NewSummary` (`none` when `Div` panics). -/
def setAverageCredit (s : SummaryLoop) (summary : Summary) : Option Summary :=
  if s.creditCount > 0 then
    match s.totalCredits.Div (Decimal.NewFromInt s.creditCount) with
    | none => none
    | some q => some { summary with AverageCredit := q }
  else some summary

/-- The `if debitCount > 0 { summary.AverageDebit = totalDebits.Div(...) }`
statement of `NewSummary` (`none` when `Div` panics). -/
def setAverageDebit (s : SummaryLoop) (summary : Summary) : Option Summary :=
  if s.debitCount > 0 then
    match s.totalDebits.Div (Decimal.NewFromInt s.debitCount) with
    | none => none
    | some q => some { summary with AverageDebit := q }
  else some summary

/-- Go `NewSummary`; `none` stands for a panic (a division by zero). -/
def NewSummary (transactions : List Transaction) : Option Summary :=
  if transactions.length = 0 then some emptySummary
  else
    let s := summaryLoop transactions
    match setAverageCredit s s.summary with
    | none => none
    | some summary => setAverageDebit s summary

/-- Go `Summary.HasTransactions`. -/
def Summary.HasTransactions (s : Summary) : Bool :=
  let total : Int := s.MonthlyTransactions.foldl (fun total kv => total + kv.2) 0
  decide (total > 0)

/-! ## strconv, strings -/

/-- Whether a character is one of the bytes '0' to '9'. -/
def isDigitChar (c : Char) : Bool := decide (48 ≤ c.toNat ∧ c.toNat ≤ 57)

/-- The value `c - '0'` of a digit character. -/
def digitValue (c : Char) : Nat := c.toNat - 48

/-- The number written by a string made of decimal digits only; `none` when the
string is empty or has another character. -/
def parseDigits (s : List Char) : Option Nat :=
  if s.isEmpty || !s.all isDigitChar then none
  else some (s.foldl (fun n c => n * 10 + digitValue c) 0)

/-- An optional sign `+` or `-` followed by decimal digits: the syntax shared by
`strconv.ParseInt(s, 10, _)` and `big.Int.SetString(s, 10)`. -/
def parseSignedDigits (s : List Char) : Option Int :=
  match s with
  | '-' :: rest => (parseDigits rest).map (fun (n : Nat) => -(n : Int))
  | '+' :: rest => (parseDigits rest).map (fun (n : Nat) => (n : Int))
  | _ => (parseDigits s).map (fun (n : Nat) => (n : Int))

/-- Go `strconv.ParseInt(s, 10, bitSize)`: `none` on a syntax or range error. -/
def ParseInt (s : List Char) (bitSize : Nat) : Option Int :=
  match parseSignedDigits s with
  | none => none
  | some v =>
    if -(2 : Int) ^ (bitSize - 1) ≤ v ∧ v ≤ (2 : Int) ^ (bitSize - 1) - 1 then some v
    else none

/-- Go `strconv.Atoi` on a 64-bit platform: `none` when it returns an error. -/
def Atoi (s : String) : Option Int := ParseInt s.toList 64

/-- Go `unicode.IsSpace`. -/
def isSpace (c : Char) : Bool :=
  let n := c.toNat
  decide (n = 9 ∨ n = 10 ∨ n = 11 ∨ n = 12 ∨ n = 13 ∨ n = 32 ∨ n = 0x85 ∨ n = 0xA0
    ∨ n = 0x1680 ∨ (0x2000 ≤ n ∧ n ≤ 0x200A) ∨ n = 0x2028 ∨ n = 0x2029 ∨ n = 0x202F
    ∨ n = 0x205F ∨ n = 0x3000)

/-- Go `strings.TrimSpace`: leading and trailing white space removed. -/
def TrimSpace (s : List Char) : List Char :=
  ((s.dropWhile isSpace).reverse.dropWhile isSpace).reverse

namespace Decimal

/-- Go `decimal.NewFromString`; `none` when it returns an error. The text may
carry a sign, one decimal point and an exponent part after `e` or `E`. Lengths
are counted in characters; a text with a character outside ASCII is rejected
here as in Go. -/
def NewFromString (value : List Char) : Option Decimal :=
  -- eIndex := strings.IndexAny(value, "Ee"): the text is cut at the first e or E
  let notE : Char → Bool := fun c => !(c == 'E' || c == 'e')
  let expPart : Option (List Char × Int) :=
    match value.dropWhile notE with
    | [] => some (value, 0)
    | _ :: expText =>
      match ParseInt expText 32 with
      | none => none
      | some expInt => some (value.takeWhile notE, expInt)
  match expPart with
  | none => none
  | some (value, exp) =>
    -- more than one '.' is an error; pIndex is the position of the only one
    if value.count '.' > 1 then none
    else
      let intString := value.filter (fun c => c != '.')
      let exp : Int :=
        match value.dropWhile (fun c => c != '.') with
        | [] => exp
        | _ :: fraction => exp - (fraction.length : Int)
      match parseSignedDigits intString with
      | none => none
      | some dValue =>
        if exp < -(2 : Int) ^ 31 ∨ exp > (2 : Int) ^ 31 - 1 then none
        else some ⟨dValue, exp⟩

end Decimal

/-! ## time.Parse for the layouts of parseDate -/

/-- The layout elements (`std...` constants of package time) that occur in the
layouts "1/2", "1/2/06", "1/2/2006" and "2006-01-02". -/
inductive Std where
  | stdNumMonth
  | stdZeroMonth
  | stdDay
  | stdZeroDay
  | stdYear
  | stdLongYear
  deriving DecidableEq, Repr

/-- Go `isLeap` (the remainders are only compared with 0, so truncated and
Euclidean remainder agree). -/
def isLeap (year : Int) : Bool :=
  decide (year % 4 = 0 ∧ (year % 100 ≠ 0 ∨ year % 400 = 0))

/-- The month `Month(n)` for `n` from 1 to 12. -/
def Month.ofInt (n : Int) : Option Month :=
  if n = 1 then some .January else if n = 2 then some .February
  else if n = 3 then some .March else if n = 4 then some .April
  else if n = 5 then some .May else if n = 6 then some .June
  else if n = 7 then some .July else if n = 8 then some .August
  else if n = 9 then some .September else if n = 10 then some .October
  else if n = 11 then some .November else if n = 12 then some .December
  else none

/-- The month after `m`, and whether the year advances. -/
def Month.next : Month → Month × Bool
  | .January => (.February, false) | .February => (.March, false)
  | .March => (.April, false) | .April => (.May, false) | .May => (.June, false)
  | .June => (.July, false) | .July => (.August, false)
  | .August => (.September, false) | .September => (.October, false)
  | .October => (.November, false) | .November => (.December, false)
  | .December => (.January, true)

/-- Go `daysIn`. -/
def daysIn (m : Month) (year : Int) : Nat :=
  match m with
  | .February => if isLeap year then 29 else 28
  | .April | .June | .September | .November => 30
  | _ => 31

/-- Go `time.Date(year, month, day, 0, 0, 0, 0, time.UTC)` for `day ≥ 1`: a day
past the end of the month is carried over into the following months
("October 32 converts to November 1"). `fuel` bounds the number of carries. -/
def dateCarry : Nat → Int → Month → Nat → Time
  | 0, year, month, day => ⟨year, month, day⟩
  | fuel + 1, year, month, day =>
    if day ≤ daysIn month year then ⟨year, month, day⟩
    else
      dateCarry fuel (if month.next.2 then year + 1 else year) month.next.1
        (day - daysIn month year)

/-- Go `time.Date(year, month, day, 0, 0, 0, 0, time.UTC)` for `day ≥ 1`. -/
def Date (year : Int) (month : Month) (day : Nat) : Time :=
  dateCarry day year month day

/-- Go `getnum`: a one- or two-digit number at the head of `s` (two digits
required when `fixed`), and the rest of `s`. -/
def getnum (s : List Char) (fixed : Bool) : Option (Int × List Char) :=
  match s with
  | [] => none
  | c0 :: rest =>
    if !isDigitChar c0 then none
    else
      match rest with
      | [] => if fixed then none else some ((digitValue c0 : Int), rest)
      | c1 :: rest1 =>
        if !isDigitChar c1 then
          if fixed then none else some ((digitValue c0 : Int), rest)
        else some ((digitValue c0 * 10 + digitValue c1 : Nat), rest1)

/-- Go `atoi` of package time: an optional sign and then digits only (the sign
alone and the empty text read as 0). -/
def timeAtoi (s : List Char) : Option Int :=
  let neg := match s with | '-' :: _ => true | _ => false
  let s1 := match s with | '-' :: rest => rest | '+' :: rest => rest | _ => s
  if !s1.all isDigitChar then none
  else
    let x : Int := (s1.foldl (fun n c => n * 10 + digitValue c) 0 : Nat)
    some (if neg then -x else x)

/-- Go `skip(value, prefix)` for a literal prefix without spaces (the layouts of
parseDate have none): `value` must start with `prefix`. -/
def skip : List Char → List Char → Option (List Char)
  | value, [] => some value
  | [], _ :: _ => none
  | v :: value, p :: pre => if v = p then skip value pre else none

/-- The date fields `time.Parse` collects. -/
structure ParseFields where
  year : Int
  month : Int
  day : Int
  deriving DecidableEq, Repr

/-- One round of the loop of `time.Parse`: skip the literal `pre`, then read
the element `std` from the value. `none` is a parse error. -/
def parseChunk (f : ParseFields) (value : List Char) (pre : List Char) (std : Std) :
    Option (ParseFields × List Char) :=
  match skip value pre with
  | none => none
  | some value =>
    match std with
    | .stdYear =>
      if value.length < 2 then none
      else
        match timeAtoi (value.take 2) with
        | none => none
        | some year =>
          some ({ f with year := if year ≥ 69 then year + 1900 else year + 2000 },
            value.drop 2)
    | .stdLongYear =>
      if value.length < 4 || !(value.head?.map isDigitChar).getD false then none
      else
        match timeAtoi (value.take 4) with
        | none => none
        | some year => some ({ f with year := year }, value.drop 4)
    | .stdNumMonth | .stdZeroMonth =>
      match getnum value (decide (std = .stdZeroMonth)) with
      | none => none
      | some (month, value) =>
        if month ≤ 0 ∨ 12 < month then none else some ({ f with month := month }, value)
    | .stdDay | .stdZeroDay =>
      match getnum value (decide (std = .stdZeroDay)) with
      | none => none
      | some (day, value) => some ({ f with day := day }, value)

/-- The loop of `time.Parse` over the elements of a layout. -/
def parseChunks : ParseFields → List Char → List (List Char × Std) →
    Option (ParseFields × List Char)
  | f, value, [] => some (f, value)
  | f, value, (pre, std) :: layout =>
    match parseChunk f value pre std with
    | none => none
    | some (f1, value1) => parseChunks f1 value1 layout

/-- Go `time.Parse(layout, value)` for a layout given as its elements, each
with the literal text before it, and nothing after the last element. The
result is in UTC; `none` when Parse returns an error. -/
def timeParse (layout : List (List Char × Std)) (value : List Char) : Option Time :=
  match parseChunks ⟨0, -1, -1⟩ value layout with
  | none => none
  | some (f, rest) =>
    -- text left after the layout is used up: "extra text"
    if rest.length ≠ 0 then none
    else
      let month := if f.month < 0 then 1 else f.month
      let day := if f.day < 0 then 1 else f.day
      match Month.ofInt month with
      | none => none
      | some m =>
        if day < 1 ∨ day > (daysIn m f.year : Int) then none
        else some (Date f.year m day.toNat)

/-! ## domain/errors.go -/

inductive DomainError where
  | ErrInvalidTransaction
  | ErrInvalidAmount
  | ErrInvalidDate
  | ErrInvalidTransactionID
  | ErrFileNotFound
  | ErrInvalidFileFormat
  | ErrEmailDeliveryFailed
  | ErrDatabaseConnection
  deriving DecidableEq, Repr

deriving instance DecidableEq for Except

/-! ## domain/transaction.go: parsing -/

/-- The layouts `"1/2"`, `"1/2/06"`, `"1/2/2006"`, `"2006-01-02"` of parseDate, in
its order, each cut into its elements as `nextStdChunk` does. -/
def formats : List (List (List Char × Std)) :=
  [ [([], .stdNumMonth), (['/'], .stdDay)],
    [([], .stdNumMonth), (['/'], .stdDay), (['/'], .stdYear)],
    [([], .stdNumMonth), (['/'], .stdDay), (['/'], .stdLongYear)],
    [([], .stdLongYear), (['-'], .stdZeroMonth), (['-'], .stdZeroDay)] ]

/-- The `for _, format := range formats` loop of parseDate; `now` is the value
of `time.Now()`. -/
def parseDateLoop (now : Time) (dateStr : List Char) :
    List (List (List Char × Std)) → Except DomainError Time
  | [] => .error .ErrInvalidDate
  | format :: rest =>
    match timeParse format dateStr with
    | some t =>
      -- If year is missing, assume current year
      if t.year = 0 then .ok (Date now.year t.month t.day) else .ok t
    | none => parseDateLoop now dateStr rest

/-- Go `parseDate`; `now` is the value of `time.Now()`. -/
def parseDate (now : Time) (dateStr : String) : Except DomainError Time :=
  parseDateLoop now dateStr.toList formats

/-- Go `parseAmount`. -/
def parseAmount (amountStr : String) : Except DomainError (Decimal × TransactionType) :=
  let amountStr := TrimSpace amountStr.toList
  if amountStr.isEmpty then .error .ErrInvalidAmount
  else
    let signed : Option (TransactionType × List Char) :=
      match amountStr with
      | '+' :: rest => some (.Credit, rest)
      | '-' :: rest => some (.Debit, rest)
      | _ => none
    match signed with
    | none => .error .ErrInvalidAmount
    | some (transactionType, amountStr) =>
      match Decimal.NewFromString amountStr with
      | none => .error .ErrInvalidAmount
      | some amount => .ok (amount.Abs, transactionType)

/-- Go `NewTransaction`; `now` is the value of `time.Now()`. -/
def NewTransaction (now : Time) (id date amount : String) :
    Except DomainError Transaction :=
  match Atoi id with
  | none => .error .ErrInvalidTransactionID
  | some transactionID =>
    match parseDate now date with
    | .error _ => .error .ErrInvalidDate
    | .ok parsedDate =>
      match parseAmount amount with
      | .error _ => .error .ErrInvalidAmount
      | .ok (parsedAmount, transactionType) =>
        .ok { ID := transactionID, Date := parsedDate, Amount := parsedAmount,
              Type_ := transactionType }

/-! ## Data of the test files -/

/-- The five transactions of `TestNewSummary`. -/
def testTransactions : List Transaction :=
  [ ⟨1, ⟨2024, .July, 15⟩, ⟨605, -1⟩, .Credit⟩,
    ⟨2, ⟨2024, .July, 28⟩, ⟨103, -1⟩, .Debit⟩,
    ⟨3, ⟨2024, .August, 2⟩, ⟨2046, -2⟩, .Debit⟩,
    ⟨4, ⟨2024, .August, 13⟩, ⟨10, 0⟩, .Credit⟩,
    ⟨5, ⟨2024, .July, 18⟩, ⟨1525, -2⟩, .Credit⟩ ]

/-! # Auxiliary definitions for the statements -/

/-- The Credit transactions of a list. -/
def creditsOf (txs : List Transaction) : List Transaction := txs.filter (fun t => t.IsCredit)

/-- The Debit transactions of a list. -/
def debitsOf (txs : List Transaction) : List Transaction := txs.filter (fun t => t.IsDebit)

/-- The exact (rational) sum of the Amounts of a list of transactions. -/
def sumAmounts (txs : List Transaction) : ℚ := (txs.map (fun t => t.Amount.toRat)).sum

/-- The transactions of a list whose month label is `k`. -/
def withLabel (k : String) (txs : List Transaction) : List Transaction :=
  txs.filter (fun t => decide (t.MonthYear = k))

/-- The sum of the values of a map, as the loop of `HasTransactions` computes it. -/
def mapTotal (m : List (String × Int)) : Int := m.foldl (fun total kv => total + kv.2) 0

namespace Decimal

/-- The scaled dividend of `d.Div (NewFromInt n)`. -/
def divA (d : Decimal) : Int :=
  if d.exp + 16 < 0 then d.value else d.value * 10 ^ (d.exp + 16).toNat

/-- The scaled divisor of `d.Div (NewFromInt n)`. -/
def divB (d : Decimal) (n : Int) : Int :=
  if d.exp + 16 < 0 then n * 10 ^ (-(d.exp + 16)).toNat else n

/-- The integer quotient rounded half away from zero, for a positive divisor. -/
def roundQuot (A B : Int) : Int :=
  if Int.ofNat (A.tmod B).natAbs * 2 < B then A.tdiv B
  else if A < 0 then A.tdiv B - 1 else A.tdiv B + 1

end Decimal

/-- What `NewSummary` stores as an average: the rounded quotient when the count
is positive, `decimal.Zero` otherwise. -/
def averageOf (total : Decimal) (count : Int) : Decimal :=
  if 0 < count then ⟨Decimal.roundQuot (Decimal.divA total) (Decimal.divB total count), -16⟩
  else Decimal.Zero

/-- The summary `NewSummary` returns for the five transactions of `TestNewSummary`. -/
def testSummary : Summary :=
  { TotalBalance := ⟨5499, -2⟩
    MonthlyTransactions := [("July 2024", 3), ("August 2024", 2)]
    MonthlyCredits := [("July 2024", ⟨7575, -2⟩), ("August 2024", ⟨10, 0⟩)]
    MonthlyDebits := [("July 2024", ⟨103, -1⟩), ("August 2024", ⟨2046, -2⟩)]
    AverageCredit := ⟨285833333333333333, -16⟩
    AverageDebit := ⟨153800000000000000, -16⟩ }

/-- The two transactions of `TestNewSummaryOnlyCredits`. -/
def testOnlyCredits : List Transaction :=
  [ ⟨1, ⟨2024, .July, 15⟩, ⟨50, 0⟩, .Credit⟩,
    ⟨2, ⟨2024, .July, 20⟩, ⟨30, 0⟩, .Credit⟩ ]

/-- The two transactions of `TestNewSummaryOnlyDebits`. -/
def testOnlyDebits : List Transaction :=
  [ ⟨1, ⟨2024, .July, 15⟩, ⟨25, 0⟩, .Debit⟩,
    ⟨2, ⟨2024, .July, 20⟩, ⟨15, 0⟩, .Debit⟩ ]

namespace Decimal

/-- `Add` for sign 1 and `Sub` for sign -1. -/
def addSigned (sign : Int) (x a : Decimal) : Decimal :=
  ⟨x.value * 10 ^ (x.exp - min x.exp a.exp).toNat
    + sign * (a.value * 10 ^ (a.exp - min x.exp a.exp).toNat), min x.exp a.exp⟩

end Decimal

/-- Two loop states that hold the same values: equal decimals and counters, and
maps with the same entries. -/
def SummaryLoop.Same (a b : SummaryLoop) : Prop :=
  a.summary.TotalBalance = b.summary.TotalBalance ∧
  (∀ k, mapLookup a.summary.MonthlyTransactions k = mapLookup b.summary.MonthlyTransactions k) ∧
  (∀ k, mapLookup a.summary.MonthlyCredits k = mapLookup b.summary.MonthlyCredits k) ∧
  (∀ k, mapLookup a.summary.MonthlyDebits k = mapLookup b.summary.MonthlyDebits k) ∧
  a.summary.AverageCredit = b.summary.AverageCredit ∧
  a.summary.AverageDebit = b.summary.AverageDebit ∧
  a.totalCredits = b.totalCredits ∧ a.totalDebits = b.totalDebits ∧
  a.creditCount = b.creditCount ∧ a.debitCount = b.debitCount

/-- The number a list of digit characters writes. -/
def digitsValue (cs : List Char) : Nat := cs.foldl (fun n c => n * 10 + digitValue c) 0

/-- The unsigned part of `appendInt x width`. -/
def paddedDigits (u : Nat) (width : Nat) : List Char :=
  List.replicate (width - (decimalDigits u).length) '0' ++ decimalDigits u

/-- The characters a text accepted by `NewFromString` is made of. -/
def isNumeralChar (c : Char) : Bool :=
  isDigitChar c || c == '+' || c == '-' || c == '.' || c == 'e' || c == 'E'

/-- The value of `time.Now()` used in the examples: 5 March 2024. -/
def exampleNow : Time := ⟨2024, .March, 5⟩

/-! ## Go error values -/

/-- The two errors a cancelled context reports (`context.Canceled`,
`context.DeadlineExceeded`). -/
inductive ContextError where
  | Canceled
  | DeadlineExceeded
  deriving DecidableEq, Repr

/-- A Go `error` value, as far as the services tell errors apart. -/
inductive GoError where
  /-- One of the variables of domain/errors.go. -/
  | sentinel (e : DomainError)
  /-- The value of `ctx.Err()` of a cancelled context. -/
  | context (e : ContextError)
  /-- The value `io.EOF`. -/
  | EOF
  /-- An error value made by a library (os, encoding/csv, net/smtp, database/sql). -/
  | external (description : String)
  /-- The result of `fmt.Errorf(format, ...)` with no `%w` verb: it wraps nothing. -/
  | errorf (format : String)
  /-- The result of `fmt.Errorf(format, ...)` whose `%w` operand is `inner`. -/
  | wrap (format : String) (inner : GoError)
  deriving DecidableEq, Repr

/-- Go `errors.Is(err, target)` for a target that is a variable (a domain error,
a context error, `io.EOF` or a library error): `err` is the target or wraps it. -/
def GoError.Is : GoError → GoError → Bool
  | .wrap _ inner, target => inner.Is target
  | .errorf _, _ => false
  | err, target => decide (err = target)

/-! ## infrastructure/file/csv_reader.go -/

/-- What one call of `reader.Read()` of encoding/csv gives before the end of the
file: a record, or an error (a parse error, or `csv.ErrFieldCount` for a record
that has not `FieldsPerRecord` fields). -/
inductive ReadResult where
  | record (fields : List String)
  | err (e : GoError)
  deriving DecidableEq, Repr

/-- Go `validateHeader`. -/
def validateHeader (header expected : List String) : Bool :=
  if header.length ≠ expected.length then false
  else (header.zip expected).all (fun he => decide (String.mk (TrimSpace he.1.toList) = he.2))

/-- The `expectedHeaders` of ProcessFile. -/
def expectedHeaders : List String := ["Id", "Date", "Transaction"]

/-- What `ProcessFile` returns, with the records the reader still holds when it
returns (the calls of `reader.Read()` not made). -/
structure FileResult where
  transactions : List Transaction
  err : Option GoError
  unread : List ReadResult
  deriving DecidableEq, Repr

/-- One data record handled by the loop of ProcessFile: the transaction it adds,
if any. Records without three fields and records `NewTransaction` rejects are
skipped. -/
def recordTransaction (now : Time) (record : List String) : Option Transaction :=
  match record with
  | [id, date, amount] =>
    match NewTransaction now id date amount with
    | .ok transaction => some transaction
    | .error _ => none
  | _ => none

/-- The `for` loop of ProcessFile. `ctx k` is the state of the context at check
number `k` (counted from 0): `none` while `ctx.Done()` is open, the value of
`ctx.Err()` once it is closed. `reader` holds the records not read yet, the end
of the list being `io.EOF`; `transactions` is the slice built so far. Every
round starts with the check of the context, then reads. -/
def processLoop (now : Time) (ctx : Nat → Option ContextError) :
    Nat → List ReadResult → List Transaction → FileResult
  | k, [], transactions =>
    match ctx k with
    | some e => ⟨[], some (.context e), []⟩
    | none => ⟨transactions, none, []⟩
  | k, r :: reader, transactions =>
    match ctx k with
    | some e => ⟨[], some (.context e), r :: reader⟩
    | none =>
      match r with
      | .err _ => processLoop now ctx (k + 1) reader transactions
      | .record record =>
        if record.length ≠ 3 then processLoop now ctx (k + 1) reader transactions
        else
          match recordTransaction now record with
          | none => processLoop now ctx (k + 1) reader transactions
          | some transaction =>
            processLoop now ctx (k + 1) reader (transactions ++ [transaction])

/-- Go `csvFileProcessor.ProcessFile`. `file` is the result of `os.Open`: an
error, or the sequence of results the csv reader gives for the file. -/
def ProcessFile (now : Time) (ctx : Nat → Option ContextError)
    (file : Except GoError (List ReadResult)) : FileResult :=
  match file with
  | .error e => ⟨[], some (.wrap "opening file %s: %w" e), []⟩
  | .ok [] => ⟨[], some (.wrap "reading header from %s: %w" .EOF), []⟩
  | .ok (.err e :: reader) => ⟨[], some (.wrap "reading header from %s: %w" e), reader⟩
  | .ok (.record header :: reader) =>
    if !validateHeader header expectedHeaders then
      ⟨[], some (.errorf "invalid CSV header in %s, expected %v, got %v"), reader⟩
    else processLoop now ctx 0 reader []

/-! ## encoding/csv: the field count of a record -/

/-- The variable `csv.ErrFieldCount` of encoding/csv. -/
def ErrFieldCount : GoError := .external "wrong number of fields"

/-- A `*csv.ParseError` whose field `Err` is `err`. Its method `Unwrap` returns
`Err`, so `errors.Is` looks through it as through the result of a `%w`. -/
def ParseError (err : GoError) : GoError := .wrap "record on line %d: %v" err

/-- The end of `Reader.readRecord` of encoding/csv, which gives the result of
`Read`, for a record `dst` parsed without error: with `FieldsPerRecord > 0` a
record that has another number of fields comes with a ParseError for
ErrFieldCount, and ProcessFile, which sets `FieldsPerRecord = 3`, looks at the
error first. -/
def readRecord (FieldsPerRecord : Nat) (dst : List String) : ReadResult :=
  if FieldsPerRecord > 0 then
    if dst.length ≠ FieldsPerRecord then .err (ParseError ErrFieldCount) else .record dst
  else .record dst

/-! ## services/processor.go -/

/-- A call of a collaborator made by the TransactionProcessor. -/
inductive Call where
  | ProcessFile (filePath : String)
  | Calculate (transactions : List Transaction)
  | SaveTransactions (transactions : List Transaction)
  | SendSummary (recipient : String) (summary : Summary)
  deriving DecidableEq, Repr

/-- Go `TransactionProcessor`: its collaborators, each given by what its method
returns (the logger is left out). `dataStore` is `none` for a nil DataStore. -/
structure TransactionProcessor where
  fileProcessor : String → List Transaction × Option GoError
  emailService : String → Summary → Option GoError
  calculator : List Transaction → Summary
  dataStore : Option (List Transaction → Option GoError)

/-- Go `TransactionProcessor.ProcessTransactionFile`: the error it returns
(`none` for nil) and the calls it made on its collaborators, in order. -/
def ProcessTransactionFile (p : TransactionProcessor) (filePath recipientEmail : String) :
    Option GoError × List Call :=
  let (transactions, err) := p.fileProcessor filePath
  let calls := [Call.ProcessFile filePath]
  match err with
  | some e => (some (.wrap "processing file %s: %w" e), calls)
  | none =>
    if transactions.length = 0 then
      (some (.errorf "no transactions found in file %s"), calls)
    else
      let summary := p.calculator transactions
      let calls := calls ++ [Call.Calculate transactions]
      let calls :=
        match p.dataStore with
        | some _ => calls ++ [Call.SaveTransactions transactions]
        | none => calls
      match p.emailService recipientEmail summary with
      | some e =>
        (some (.wrap "sending email to %s: %w" e),
          calls ++ [Call.SendSummary recipientEmail summary])
      | none => (none, calls ++ [Call.SendSummary recipientEmail summary])

/-- The text `s` writes the integer `i` in base 10, as a Go `int` (64 bits): an
optional sign `+` or `-`, then one or more digits `0` to `9`, the number written
lying between `-2 ^ 63` and `2 ^ 63 - 1`. -/
def writesInt (s : List Char) (i : Int) : Prop :=
  ∃ digits : List Char, digits ≠ [] ∧ (∀ c ∈ digits, isDigitChar c = true) ∧
    (((s = digits ∨ s = '+' :: digits) ∧ i = (digitsValue digits : Int)) ∨
      (s = '-' :: digits ∧ i = -(digitsValue digits : Int))) ∧
    -(2 : Int) ^ 63 ≤ i ∧ i ≤ (2 : Int) ^ 63 - 1

/-- The transaction one result of `reader.Read()` contributes to ProcessFile: the
one `NewTransaction` makes of a record of three fields, nothing for a record it
rejects, for a record without three fields, and for a read error. -/
def acceptedRow (now : Time) : ReadResult → Option Transaction
  | .record fields => recordTransaction now fields
  | .err _ => none

/-- A processor whose file contributes no transaction, for the examples. -/
def emptyFileProcessor : TransactionProcessor :=
  { fileProcessor := fun _ => ([], none)
    emailService := fun _ _ => none
    calculator := fun _ => emptySummary
    dataStore := some (fun _ => none) }

/-! ## infrastructure/email/smtp_sender.go -/

/-- Go `smtpEmailService.sendEmail`; `sendMail` is what `smtp.SendMail` returns
(`none` for nil). -/
def sendEmail (sendMail : Option GoError) : Option GoError :=
  match sendMail with
  | some _ => some (.sentinel .ErrEmailDeliveryFailed)
  | none => none

/-- Go `smtpEmailService.SendSummary`. `renderTemplate` is `RenderTemplate`,
`sendMail recipient htmlBody` is what `smtp.SendMail` returns for the message
made of the recipient and the rendered body. -/
def SendSummary (renderTemplate : Summary → Except GoError String)
    (sendMail : String → String → Option GoError) (recipient : String) (summary : Summary) :
    Option GoError :=
  match renderTemplate summary with
  | .error err => some (.wrap "rendering email template: %w" err)
  | .ok htmlBody =>
    match sendEmail (sendMail recipient htmlBody) with
    | some err => some (.wrap "sending email to %s: %w" err)
    | none => none

/-! ## services/processor.go: WatchAndProcess -/

/-- What one `select` of the loop of WatchAndProcess takes: the case
`<-ctx.Done()`, with the value of `ctx.Err()`, or a file path received from the
channel of the watcher. -/
inductive WatchEvent where
  | done (e : ContextError)
  | file (filePath : String)
  deriving DecidableEq, Repr

/-- Where a run of WatchAndProcess stands: still in its loop, waiting in
`select`, or returned with an error (WatchAndProcess never returns nil). -/
inductive WatchOutcome where
  | running
  | returned (err : GoError)
  deriving DecidableEq, Repr

/-- The `for { select { ... } }` loop of WatchAndProcess over the cases its
selects take, in order; `calls` are the calls made so far. When the cases are
used up the loop is waiting in `select`. -/
def watchLoop (p : TransactionProcessor) (recipientEmail : String) :
    List WatchEvent → List Call → WatchOutcome × List Call
  | [], calls => (.running, calls)
  | .done e :: _, calls => (.returned (.context e), calls)
  | .file filePath :: events, calls =>
    -- the error of ProcessTransactionFile is logged, nothing else
    watchLoop p recipientEmail events
      (calls ++ (ProcessTransactionFile p filePath recipientEmail).2)

/-- Go `TransactionProcessor.WatchAndProcess`. `watch` is what
`fileProcessor.WatchDirectory` returns: an error, or the channel, given by the
cases the selects of the loop take. -/
def WatchAndProcess (p : TransactionProcessor) (recipientEmail : String)
    (watch : Except GoError (List WatchEvent)) : WatchOutcome × List Call :=
  match watch with
  | .error err => (.returned (.wrap "watching directory %s: %w" err), [])
  | .ok events => watchLoop p recipientEmail events []

/-! ## Definitions for the statements on the services and the summary maps -/

/-- The number of calls of SendSummary in a list of calls. -/
def countSendSummary (calls : List Call) : Nat :=
  (calls.filter (fun c => match c with | .SendSummary _ _ => true | _ => false)).length

/-- The keys of a map. -/
def mapKeys {V : Type} (m : List (String × V)) : List String := m.map (fun kv => kv.1)

/-- The exact sum, over the keys `k` of a map of decimals, of `m[k]`. -/
def mapSum (m : List (String × Decimal)) : ℚ :=
  ((mapKeys m).map (fun k => (mapIndex Decimal.zeroValue m k).toRat)).sum

/-- The exact sum of the values of the entries of a map of decimals. -/
def entrySum (m : List (String × Decimal)) : ℚ := (m.map (fun kv => kv.2.toRat)).sum

/-- A processor whose file has the five transactions of `TestNewSummary`, whose
DataStore fails and whose EmailService succeeds. -/
def failingStoreProcessor : TransactionProcessor :=
  { fileProcessor := fun _ => (testTransactions, none)
    emailService := fun _ _ => none
    calculator := fun _ => testSummary
    dataStore := some (fun _ => some (.sentinel .ErrDatabaseConnection)) }

/-- A processor whose file has the five transactions of `TestNewSummary` and
whose EmailService is the SMTP one with a failing `smtp.SendMail`. -/
def failingMailProcessor : TransactionProcessor :=
  { fileProcessor := fun _ => (testTransactions, none)
    emailService :=
      SendSummary (fun _ => .ok "<html></html>") (fun _ _ => some (.external "dial tcp: refused"))
    calculator := fun _ => testSummary
    dataStore := none }

/-- A processor whose file cannot be opened. -/
def failingFileProcessor : TransactionProcessor :=
  { fileProcessor := fun _ =>
      ([], some (.wrap "opening file %s: %w" (.external "no such file or directory")))
    emailService := fun _ _ => none
    calculator := fun _ => emptySummary
    dataStore := some (fun _ => none) }

/-- The five rows of the end-to-end example, as id, date and amount texts. -/
def exampleRows : List (String × String × String) :=
  [ ("1", "7/15", "+60.5"), ("2", "7/28", "-10.3"), ("3", "8/2", "-20.46"),
    ("4", "8/13", "+10"), ("5", "7/18", "+15.25") ]

/-- The transactions `NewTransaction` makes of rows, the rejected ones left out. -/
def parseRows (now : Time) (rows : List (String × String × String)) : List Transaction :=
  rows.filterMap (fun r => recordTransaction now [r.1, r.2.1, r.2.2])

/-- The label `MonthYear()` gives the dates of a month of a year. -/
def monthLabel (month : Month) (year : Int) : String :=
  (Time.mk year month 1).FormatJanuary2006

/-- The five transactions of the end-to-end example with their dates in `year`. -/
def exampleTransactions (year : Int) : List Transaction :=
  [ ⟨1, ⟨year, .July, 15⟩, ⟨605, -1⟩, .Credit⟩,
    ⟨2, ⟨year, .July, 28⟩, ⟨103, -1⟩, .Debit⟩,
    ⟨3, ⟨year, .August, 2⟩, ⟨2046, -2⟩, .Debit⟩,
    ⟨4, ⟨year, .August, 13⟩, ⟨10, 0⟩, .Credit⟩,
    ⟨5, ⟨year, .July, 18⟩, ⟨1525, -2⟩, .Credit⟩ ]

/-- The calls WatchAndProcess makes for the files it is notified of, in order:
those of one ProcessTransactionFile after the other. -/
def processedCalls (p : TransactionProcessor) (recipientEmail : String) :
    List String → List Call
  | [] => []
  | filePath :: files =>
    (ProcessTransactionFile p filePath recipientEmail).2 ++ processedCalls p recipientEmail files

/-! # Theorems -/

namespace Decimal

theorem ten_pow_toNat_cast (n : Int) (h : 0 ≤ n) :
    (((10 : Int) ^ n.toNat : Int) : ℚ) = (10 : ℚ) ^ n := by
  obtain ⟨m, rfl⟩ := Int.eq_ofNat_of_zero_le h
  simp

theorem rescale_of_le (d : Decimal) (exp : Int) (h : exp ≤ d.exp) :
    d.rescale exp = ⟨d.value * 10 ^ (d.exp - exp).toNat, exp⟩ := by
  unfold rescale
  by_cases h1 : d.exp = exp
  · subst h1; simp
  · have h2 : ¬ exp > d.exp := by omega
    have h4 : (exp - d.exp).natAbs = (d.exp - exp).toNat := by omega
    simp only [h1, h2, if_false, h4]

/-- Closed form of `Add`: both values are scaled to the smaller exponent. -/
theorem Add_eq (a b : Decimal) :
    a.Add b = ⟨a.value * 10 ^ (a.exp - min a.exp b.exp).toNat
      + b.value * 10 ^ (b.exp - min a.exp b.exp).toNat, min a.exp b.exp⟩ := by
  unfold Add RescalePair
  by_cases h1 : a.exp < b.exp
  · have hm : min a.exp b.exp = a.exp := min_eq_left (le_of_lt h1)
    simp only [h1, if_true, hm, rescale_of_le b a.exp (le_of_lt h1)]
    simp
  · by_cases h2 : a.exp > b.exp
    · have hm : min a.exp b.exp = b.exp := min_eq_right (le_of_lt h2)
      simp only [h1, h2, if_true, if_false, hm, rescale_of_le a b.exp (le_of_lt h2)]
      simp
    · have h3 : a.exp = b.exp := by omega
      simp [h1, h2, h3]

theorem Sub_eq (a b : Decimal) :
    a.Sub b = ⟨a.value * 10 ^ (a.exp - min a.exp b.exp).toNat
      - b.value * 10 ^ (b.exp - min a.exp b.exp).toNat, min a.exp b.exp⟩ := by
  unfold Sub RescalePair
  by_cases h1 : a.exp < b.exp
  · have hm : min a.exp b.exp = a.exp := min_eq_left (le_of_lt h1)
    simp only [h1, if_true, hm, rescale_of_le b a.exp (le_of_lt h1)]
    simp
  · by_cases h2 : a.exp > b.exp
    · have hm : min a.exp b.exp = b.exp := min_eq_right (le_of_lt h2)
      simp only [h1, h2, if_true, if_false, hm, rescale_of_le a b.exp (le_of_lt h2)]
      simp
    · have h3 : a.exp = b.exp := by omega
      simp [h1, h2, h3]

theorem scaled_toRat (v e m : Int) (h : m ≤ e) :
    ((v * 10 ^ (e - m).toNat : Int) : ℚ) * (10 : ℚ) ^ m = (v : ℚ) * (10 : ℚ) ^ e := by
  have := ten_pow_toNat_cast (e - m) (by omega)
  push_cast at this ⊢
  rw [this, mul_assoc, ← zpow_add₀ (by norm_num)]
  simp

theorem toRat_Add (a b : Decimal) : (a.Add b).toRat = a.toRat + b.toRat := by
  rw [Add_eq]
  simp only [toRat]
  rw [← scaled_toRat a.value a.exp (min a.exp b.exp) (min_le_left _ _),
    ← scaled_toRat b.value b.exp (min a.exp b.exp) (min_le_right _ _)]
  push_cast
  ring

theorem toRat_Sub (a b : Decimal) : (a.Sub b).toRat = a.toRat - b.toRat := by
  rw [Sub_eq]
  simp only [toRat]
  rw [← scaled_toRat a.value a.exp (min a.exp b.exp) (min_le_left _ _),
    ← scaled_toRat b.value b.exp (min a.exp b.exp) (min_le_right _ _)]
  push_cast
  ring

theorem toRat_Zero : Zero.toRat = 0 := by simp [Zero, New, toRat]

theorem toRat_zeroValue : zeroValue.toRat = 0 := by simp [zeroValue, toRat]

/-- `Equal` is equality of the numbers denoted. -/
theorem bigCmp_eq_zero (x y : Int) : bigCmp x y = 0 ↔ x = y := by
  unfold bigCmp
  by_cases h1 : x < y
  · simp only [h1, if_true]; constructor
    · intro h; exact absurd h (by decide)
    · intro h; omega
  · by_cases h2 : x = y
    · simp [h2]
    · simp [h1, h2]

theorem RescalePair_values (a b : Decimal) :
    (RescalePair a b).1.value = a.value * 10 ^ (a.exp - min a.exp b.exp).toNat ∧
    (RescalePair a b).2.value = b.value * 10 ^ (b.exp - min a.exp b.exp).toNat := by
  unfold RescalePair
  by_cases h1 : a.exp < b.exp
  · have hm : min a.exp b.exp = a.exp := min_eq_left (le_of_lt h1)
    simp only [h1, if_true, hm, rescale_of_le b a.exp (le_of_lt h1)]
    simp
  · by_cases h2 : a.exp > b.exp
    · have hm : min a.exp b.exp = b.exp := min_eq_right (le_of_lt h2)
      simp only [h1, h2, if_true, if_false, hm, rescale_of_le a b.exp (le_of_lt h2)]
      simp
    · have h3 : a.exp = b.exp := by omega
      simp [h1, h2, h3]

theorem Cmp_eq (a b : Decimal) :
    a.Cmp b = bigCmp (a.value * 10 ^ (a.exp - min a.exp b.exp).toNat)
      (b.value * 10 ^ (b.exp - min a.exp b.exp).toNat) := by
  unfold Cmp
  by_cases h : a.exp = b.exp
  · simp [h]
  · simp only [h, if_false]
    rw [(RescalePair_values a b).1, (RescalePair_values a b).2]

/-- `Equal` is equality of the numbers denoted. -/
theorem Equal_iff_toRat (a b : Decimal) : a.Equal b = true ↔ a.toRat = b.toRat := by
  unfold Equal
  rw [decide_eq_true_iff, Cmp_eq, bigCmp_eq_zero]
  simp only [toRat]
  rw [← scaled_toRat a.value a.exp (min a.exp b.exp) (min_le_left _ _),
    ← scaled_toRat b.value b.exp (min a.exp b.exp) (min_le_right _ _)]
  have h10 : (10 : ℚ) ^ (min a.exp b.exp) ≠ 0 := zpow_ne_zero _ (by norm_num)
  constructor
  · intro h; rw [h]
  · intro h
    have := mul_right_cancel₀ h10 h
    exact_mod_cast this

end Decimal

/-! ## Credits, debits and labels -/

theorem Transaction.IsDebit_eq_not_IsCredit (t : Transaction) : t.IsDebit = !t.IsCredit := by
  unfold Transaction.IsDebit Transaction.IsCredit
  cases t.Type_ <;> simp

/-! ## Maps -/

theorem mapLookup_mapAssign {V : Type} (m : List (String × V)) (k k' : String) (v : V) :
    mapLookup (mapAssign m k v) k' = if k = k' then some v else mapLookup m k' := by
  induction m with
  | nil => simp [mapAssign, mapLookup]
  | cons p rest ih =>
    obtain ⟨k0, v0⟩ := p
    simp only [mapAssign]
    by_cases h : k0 = k
    · subst h
      simp only [if_true, mapLookup]
      by_cases h2 : k0 = k' <;> simp [h2]
    · simp only [h, if_false, mapLookup, ih]
      by_cases h2 : k0 = k'
      · subst h2; simp [h, Ne.symm h]
      · simp [h2]

theorem mapIndex_mapAssign {V : Type} (zero : V) (m : List (String × V)) (k k' : String)
    (v : V) :
    mapIndex zero (mapAssign m k v) k' = if k = k' then v else mapIndex zero m k' := by
  unfold mapIndex
  rw [mapLookup_mapAssign]
  by_cases h : k = k' <;> simp [h]

theorem foldl_add_start (m : List (String × Int)) (a : Int) :
    m.foldl (fun total kv => total + kv.2) a = a + mapTotal m := by
  unfold mapTotal
  induction m generalizing a with
  | nil => simp
  | cons p rest ih => simp only [List.foldl_cons]; rw [ih, ih (0 + p.2)]; ring

theorem mapTotal_cons (p : String × Int) (m : List (String × Int)) :
    mapTotal (p :: m) = p.2 + mapTotal m := by
  show List.foldl _ _ _ = _
  simp only [List.foldl_cons]
  rw [foldl_add_start]; ring

theorem mapTotal_increment (m : List (String × Int)) (k : String) :
    mapTotal (mapAssign m k (mapIndex 0 m k + 1)) = mapTotal m + 1 := by
  induction m with
  | nil => simp [mapAssign, mapIndex, mapLookup, mapTotal]
  | cons p rest ih =>
    obtain ⟨k0, v0⟩ := p
    by_cases h : k0 = k
    · subst h
      simp [mapAssign, mapIndex, mapLookup, mapTotal_cons]; ring
    · have hi : mapIndex 0 ((k0, v0) :: rest) k = mapIndex 0 rest k := by
        simp [mapIndex, mapLookup, h]
      rw [hi]
      simp only [mapAssign, h, if_false, mapTotal_cons, ih]; ring

/-! ## One iteration of the loop -/

theorem summaryStep_credit (s : SummaryLoop) (t : Transaction) (h : t.IsCredit = true) :
    summaryStep s t =
      { summary :=
          { TotalBalance := s.summary.TotalBalance.Add t.Amount
            MonthlyTransactions :=
              mapAssign s.summary.MonthlyTransactions t.MonthYear
                (mapIndex 0 s.summary.MonthlyTransactions t.MonthYear + 1)
            MonthlyCredits :=
              mapAssign s.summary.MonthlyCredits t.MonthYear
                ((mapIndex Decimal.zeroValue s.summary.MonthlyCredits t.MonthYear).Add t.Amount)
            MonthlyDebits := s.summary.MonthlyDebits
            AverageCredit := s.summary.AverageCredit
            AverageDebit := s.summary.AverageDebit }
        totalCredits := s.totalCredits.Add t.Amount
        totalDebits := s.totalDebits
        creditCount := s.creditCount + 1
        debitCount := s.debitCount } := by
  simp [summaryStep, h]

theorem summaryStep_debit (s : SummaryLoop) (t : Transaction) (h : t.IsCredit = false) :
    summaryStep s t =
      { summary :=
          { TotalBalance := s.summary.TotalBalance.Sub t.Amount
            MonthlyTransactions :=
              mapAssign s.summary.MonthlyTransactions t.MonthYear
                (mapIndex 0 s.summary.MonthlyTransactions t.MonthYear + 1)
            MonthlyCredits := s.summary.MonthlyCredits
            MonthlyDebits :=
              mapAssign s.summary.MonthlyDebits t.MonthYear
                ((mapIndex Decimal.zeroValue s.summary.MonthlyDebits t.MonthYear).Add t.Amount)
            AverageCredit := s.summary.AverageCredit
            AverageDebit := s.summary.AverageDebit }
        totalCredits := s.totalCredits
        totalDebits := s.totalDebits.Add t.Amount
        creditCount := s.creditCount
        debitCount := s.debitCount + 1 } := by
  simp [summaryStep, h]

theorem creditsOf_cons (t : Transaction) (l : List Transaction) :
    creditsOf (t :: l) = if t.IsCredit then t :: creditsOf l else creditsOf l := by
  unfold creditsOf
  by_cases h : t.IsCredit = true <;> simp [List.filter_cons, h]

theorem debitsOf_cons (t : Transaction) (l : List Transaction) :
    debitsOf (t :: l) = if t.IsCredit then debitsOf l else t :: debitsOf l := by
  unfold debitsOf
  by_cases h : t.IsCredit = true <;> simp [List.filter_cons, h, Transaction.IsDebit_eq_not_IsCredit]

theorem withLabel_cons (k : String) (t : Transaction) (l : List Transaction) :
    withLabel k (t :: l) = if t.MonthYear = k then t :: withLabel k l else withLabel k l := by
  unfold withLabel
  by_cases h : t.MonthYear = k <;> simp [List.filter_cons, h]

theorem sumAmounts_cons (t : Transaction) (l : List Transaction) :
    sumAmounts (t :: l) = t.Amount.toRat + sumAmounts l := by
  simp [sumAmounts]

theorem sumAmounts_nil : sumAmounts [] = 0 := by simp [sumAmounts]

/-! ## The loop over a list, from any starting state -/

theorem loop_TotalBalance (l : List Transaction) (s : SummaryLoop) :
    (l.foldl summaryStep s).summary.TotalBalance.toRat =
      s.summary.TotalBalance.toRat + sumAmounts (creditsOf l) - sumAmounts (debitsOf l) := by
  induction l generalizing s with
  | nil => simp [creditsOf, debitsOf, sumAmounts]
  | cons t l ih =>
    rw [List.foldl_cons, ih, creditsOf_cons, debitsOf_cons]
    by_cases h : t.IsCredit = true
    · rw [summaryStep_credit s t h]
      simp only [h, if_true, sumAmounts_cons, Decimal.toRat_Add]; ring
    · have h' : t.IsCredit = false := by simpa using h
      rw [summaryStep_debit s t h']
      simp only [h', Bool.false_eq_true, if_false, sumAmounts_cons, Decimal.toRat_Sub]; ring

theorem loop_totals (l : List Transaction) (s : SummaryLoop) :
    (l.foldl summaryStep s).totalCredits.toRat =
        s.totalCredits.toRat + sumAmounts (creditsOf l) ∧
    (l.foldl summaryStep s).totalDebits.toRat =
        s.totalDebits.toRat + sumAmounts (debitsOf l) ∧
    (l.foldl summaryStep s).creditCount = s.creditCount + ((creditsOf l).length : Int) ∧
    (l.foldl summaryStep s).debitCount = s.debitCount + ((debitsOf l).length : Int) ∧
    (l.foldl summaryStep s).summary.AverageCredit = s.summary.AverageCredit ∧
    (l.foldl summaryStep s).summary.AverageDebit = s.summary.AverageDebit := by
  induction l generalizing s with
  | nil => simp [creditsOf, debitsOf, sumAmounts]
  | cons t l ih =>
    rw [List.foldl_cons, creditsOf_cons, debitsOf_cons]
    obtain ⟨h1, h2, h3, h4, h5, h6⟩ := ih (summaryStep s t)
    rw [h1, h2, h3, h4, h5, h6]
    by_cases h : t.IsCredit = true
    · rw [summaryStep_credit s t h]
      simp only [h, if_true, sumAmounts_cons, Decimal.toRat_Add, List.length_cons]
      refine ⟨by ring, trivial, by push_cast; ring, trivial, trivial, trivial⟩
    · have h' : t.IsCredit = false := by simpa using h
      rw [summaryStep_debit s t h']
      simp only [h', Bool.false_eq_true, if_false, sumAmounts_cons, Decimal.toRat_Add,
        List.length_cons]
      refine ⟨trivial, by ring, trivial, by push_cast; ring, trivial, trivial⟩

theorem loop_MonthlyTransactions (l : List Transaction) (s : SummaryLoop) (k : String) :
    mapIndex 0 (l.foldl summaryStep s).summary.MonthlyTransactions k =
      mapIndex 0 s.summary.MonthlyTransactions k + ((withLabel k l).length : Int) := by
  induction l generalizing s with
  | nil => simp [withLabel]
  | cons t l ih =>
    rw [List.foldl_cons, ih, withLabel_cons]
    have hstep : (summaryStep s t).summary.MonthlyTransactions =
        mapAssign s.summary.MonthlyTransactions t.MonthYear
          (mapIndex 0 s.summary.MonthlyTransactions t.MonthYear + 1) := by
      by_cases h : t.IsCredit = true
      · rw [summaryStep_credit s t h]
      · rw [summaryStep_debit s t (by simpa using h)]
    rw [hstep, mapIndex_mapAssign]
    by_cases hk : t.MonthYear = k
    · subst hk; simp; ring
    · simp [hk]

theorem loop_MonthlyCredits (l : List Transaction) (s : SummaryLoop) (k : String) :
    (mapIndex Decimal.zeroValue (l.foldl summaryStep s).summary.MonthlyCredits k).toRat =
      (mapIndex Decimal.zeroValue s.summary.MonthlyCredits k).toRat
        + sumAmounts (creditsOf (withLabel k l)) := by
  induction l generalizing s with
  | nil => simp [withLabel, creditsOf, sumAmounts]
  | cons t l ih =>
    rw [List.foldl_cons, ih, withLabel_cons]
    by_cases h : t.IsCredit = true
    · rw [summaryStep_credit s t h]
      simp only [mapIndex_mapAssign]
      by_cases hk : t.MonthYear = k
      · subst hk
        simp only [if_true, creditsOf_cons, h, sumAmounts_cons, Decimal.toRat_Add]; ring
      · simp only [hk, if_false]
    · rw [summaryStep_debit s t (by simpa using h)]
      by_cases hk : t.MonthYear = k
      · simp [hk, creditsOf_cons, h]
      · simp only [hk, if_false]

theorem loop_MonthlyDebits (l : List Transaction) (s : SummaryLoop) (k : String) :
    (mapIndex Decimal.zeroValue (l.foldl summaryStep s).summary.MonthlyDebits k).toRat =
      (mapIndex Decimal.zeroValue s.summary.MonthlyDebits k).toRat
        + sumAmounts (debitsOf (withLabel k l)) := by
  induction l generalizing s with
  | nil => simp [withLabel, debitsOf, sumAmounts]
  | cons t l ih =>
    rw [List.foldl_cons, ih, withLabel_cons]
    by_cases h : t.IsCredit = true
    · rw [summaryStep_credit s t h]
      by_cases hk : t.MonthYear = k
      · simp only [hk, if_true, debitsOf_cons, h]
      · simp only [hk, if_false]
    · rw [summaryStep_debit s t (by simpa using h)]
      simp only [mapIndex_mapAssign]
      by_cases hk : t.MonthYear = k
      · subst hk
        simp [debitsOf_cons, h, sumAmounts_cons, Decimal.toRat_Add]
        ring
      · simp only [hk, if_false]

theorem loop_absent (l : List Transaction) (s : SummaryLoop) (k : String)
    (hk : ∀ t ∈ l, t.MonthYear ≠ k) :
    mapLookup (l.foldl summaryStep s).summary.MonthlyTransactions k =
        mapLookup s.summary.MonthlyTransactions k ∧
    mapLookup (l.foldl summaryStep s).summary.MonthlyCredits k =
        mapLookup s.summary.MonthlyCredits k ∧
    mapLookup (l.foldl summaryStep s).summary.MonthlyDebits k =
        mapLookup s.summary.MonthlyDebits k := by
  induction l generalizing s with
  | nil => simp
  | cons t l ih =>
    rw [List.foldl_cons]
    obtain ⟨h1, h2, h3⟩ := ih (summaryStep s t) (fun u hu => hk u (List.mem_cons_of_mem _ hu))
    rw [h1, h2, h3]
    have ht : t.MonthYear ≠ k := hk t (List.mem_cons_self _ _)
    by_cases h : t.IsCredit = true
    · rw [summaryStep_credit s t h]
      simp [mapLookup_mapAssign, ht]
    · rw [summaryStep_debit s t (by simpa using h)]
      simp [mapLookup_mapAssign, ht]

theorem loop_mapTotal (l : List Transaction) (s : SummaryLoop) :
    mapTotal (l.foldl summaryStep s).summary.MonthlyTransactions =
      mapTotal s.summary.MonthlyTransactions + (l.length : Int) := by
  induction l generalizing s with
  | nil => simp
  | cons t l ih =>
    rw [List.foldl_cons, ih]
    have hstep : (summaryStep s t).summary.MonthlyTransactions =
        mapAssign s.summary.MonthlyTransactions t.MonthYear
          (mapIndex 0 s.summary.MonthlyTransactions t.MonthYear + 1) := by
      by_cases h : t.IsCredit = true
      · rw [summaryStep_credit s t h]
      · rw [summaryStep_debit s t (by simpa using h)]
    rw [hstep, mapTotal_increment]
    simp only [List.length_cons]; push_cast; ring

theorem tmod_bounds (A B : Int) (hB : 0 < B) :
    (0 ≤ A → 0 ≤ A.tmod B ∧ A.tmod B < B) ∧ (A < 0 → -B < A.tmod B ∧ A.tmod B ≤ 0) := by
  constructor
  · intro h; exact ⟨Int.tmod_nonneg _ h, Int.tmod_lt_of_pos _ hB⟩
  · intro h
    have hneg : (-A).tmod B = -(A.tmod B) := by
      rw [Int.tmod_def, Int.tmod_def, Int.neg_tdiv]; ring
    have h1 := Int.tmod_nonneg B (show 0 ≤ -A by omega)
    have h2 := Int.tmod_lt_of_pos (-A) hB
    rw [hneg] at h1 h2
    omega

namespace Decimal

/-- Rounding the truncated quotient half away from zero leaves an error of at
most half the divisor. -/
theorem round_half_away (A B : Int) (hB : 0 < B) :
    2 * |A - roundQuot A B * B| ≤ B := by
  unfold roundQuot
  have hdef := Int.tdiv_add_tmod' A B
  obtain ⟨hpos, hneg⟩ := tmod_bounds A B hB
  generalize A.tmod B = r at *
  generalize A.tdiv B = q at *
  by_cases hA : A < 0
  · obtain ⟨h1, h2⟩ := hneg hA
    have hr : Int.ofNat r.natAbs = -r := by simp only [Int.ofNat_eq_coe]; omega
    rw [hr]
    by_cases hc : -r * 2 < B
    · simp only [hc, if_true]
      have : A - q * B = r := by omega
      rw [this, abs_of_nonpos h2]; omega
    · simp only [hc, hA, if_true, if_false]
      have : A - (q - 1) * B = r + B := by rw [← hdef]; ring
      rw [this, abs_of_nonneg (by omega)]; omega
  · obtain ⟨h1, h2⟩ := hpos (by omega)
    have hr : Int.ofNat r.natAbs = r := by simp only [Int.ofNat_eq_coe]; omega
    rw [hr]
    by_cases hc : r * 2 < B
    · simp only [hc, if_true]
      have : A - q * B = r := by omega
      rw [this, abs_of_nonneg h1]; omega
    · simp only [hc, hA, if_false]
      have : A - (q + 1) * B = r - B := by rw [← hdef]; ring
      rw [this, abs_of_nonpos (by omega)]; omega

theorem bigCmp_neg_iff (x y : Int) : bigCmp x y < 0 ↔ x < y := by
  unfold bigCmp
  by_cases h1 : x < y
  · simp [h1]
  · by_cases h2 : x = y
    · simp [h2]
    · simp [h1, h2]

theorem Cmp_int_neg_iff (x n E : Int) (hE : E ≤ 0) :
    (Decimal.mk x E).Cmp (NewFromInt n) < 0 ↔ x < n * 10 ^ (-E).toNat := by
  rw [Cmp_eq, bigCmp_neg_iff]
  have hm : min E 0 = E := min_eq_left hE
  simp only [NewFromInt, hm, sub_self, Int.toNat_zero, pow_zero, mul_one, zero_sub]

theorem Div_NewFromInt (d : Decimal) (n : Int) (hn : 0 < n) :
    d.Div (NewFromInt n) = some ⟨roundQuot (divA d) (divB d n), -16⟩ := by
  have hsign : n.sign = 1 := Int.sign_eq_one_of_pos hn
  have habs : (NewFromInt n).Abs = NewFromInt n := by
    simp [Abs, IsNegative, Sign, NewFromInt, hsign]
  have hAneg : d.value.sign * n.sign < 0 ↔ divA d < 0 := by
    rw [hsign, mul_one]
    have hs : d.value.sign < 0 ↔ d.value < 0 := by
      constructor
      · intro h
        by_contra hc
        have := Int.sign_nonneg.mpr (show 0 ≤ d.value by omega)
        omega
      · intro h; rw [Int.sign_eq_neg_one_of_neg h]; decide
    rw [hs]
    unfold divA
    split
    · exact Iff.rfl
    · constructor
      · intro h; exact mul_neg_of_neg_of_pos h (by positivity)
      · intro h
        by_contra hc
        have : 0 ≤ d.value * 10 ^ (d.exp + 16).toNat := mul_nonneg (by omega) (by positivity)
        omega
  have hc : (Decimal.mk (Int.ofNat ((divA d).tmod (divB d n)).natAbs * 2)
        ((if d.exp + 16 < 0 then d.exp else -16 + 0) + 16)).Cmp (NewFromInt n) < 0 ↔
      Int.ofNat ((divA d).tmod (divB d n)).natAbs * 2 < divB d n := by
    by_cases he : d.exp + 16 < 0
    · rw [Cmp_int_neg_iff _ _ _ (by simp only [he, if_true]; omega)]
      simp only [he, if_true, divB]
    · rw [Cmp_int_neg_iff _ _ _ (by simp only [he, if_false]; omega)]
      simp [he, divB]
  unfold Div DivRound QuoRem
  have hs0 : ¬ (NewFromInt n).value.sign = 0 := by simp [NewFromInt, hsign]
  have hexp : (NewFromInt n).exp = 0 := rfl
  have hval : (NewFromInt n).value = n := rfl
  simp only [hs0, if_false, DivisionPrecision, habs, hexp, hval, sub_zero, sub_neg_eq_add]
  have hA : (if d.exp + 16 < 0 then d.value else d.value * 10 ^ (d.exp + 16).toNat) = divA d := rfl
  have hBe : (if d.exp + 16 < 0 then n * 10 ^ (-(d.exp + 16)).toNat else n) = divB d n := rfl
  rw [hA, hBe]
  have hn0 : ¬ n.sign = 0 := by rw [hsign]; decide
  rw [if_neg hn0]
  show (if _ then _ else _) = _
  simp only [hc, hAneg, roundQuot]
  by_cases h1 : Int.ofNat ((divA d).tmod (divB d n)).natAbs * 2 < divB d n
  · rw [if_pos h1, if_pos h1]
  · rw [if_neg h1, if_neg h1]
    by_cases h2 : divA d < 0
    · rw [if_pos h2, if_pos h2, Sub_eq]; simp [New]
    · rw [if_neg h2, if_neg h2, Add_eq]; simp [New]

/-- The two scaled operands of a division by a positive integer stand for the
dividend and the divisor times `10 ^ 16`, up to a common positive factor. -/
theorem div_scale (d : Decimal) (n : Int) :
    ∃ s : ℚ, 0 < s ∧ (divA d : ℚ) * s = d.toRat ∧
      (divB d n : ℚ) * s = (n : ℚ) * (10 : ℚ) ^ (-16 : ℤ) := by
  by_cases he : d.exp + 16 < 0
  · refine ⟨(10 : ℚ) ^ d.exp, zpow_pos (by norm_num) _, ?_, ?_⟩
    · simp [divA, he, toRat]
    · simp only [divB, he, if_true]
      have h1 := ten_pow_toNat_cast (-(d.exp + 16)) (by omega)
      push_cast at h1 ⊢
      rw [h1, mul_assoc, ← zpow_add₀ (by norm_num)]
      congr 2
      ring
  · refine ⟨(10 : ℚ) ^ (-16 : ℤ), zpow_pos (by norm_num) _, ?_, ?_⟩
    · simp only [divA, he, if_false, toRat]
      have h1 := ten_pow_toNat_cast (d.exp + 16) (by omega)
      push_cast at h1 ⊢
      rw [h1, mul_assoc, ← zpow_add₀ (by norm_num)]
      congr 2
      ring
    · simp [divB, he]

/-- The quotient `Div` returns for a positive integer divisor is within half a
unit of the sixteenth decimal place of the exact quotient. -/
theorem Div_error (d : Decimal) (n : Int) (hn : 0 < n) :
    |(Decimal.mk (roundQuot (divA d) (divB d n)) (-16)).toRat * (n : ℚ) - d.toRat| ≤
      (n : ℚ) / 2 * (10 : ℚ) ^ (-16 : ℤ) := by
  obtain ⟨s, hs, hA, hB⟩ := div_scale d n
  have hBpos : 0 < divB d n := by
    unfold divB
    split
    · positivity
    · exact hn
  have hr := round_half_away (divA d) (divB d n) hBpos
  have hrq : (2 : ℚ) * |(divA d : ℚ) - (roundQuot (divA d) (divB d n) : ℚ) * (divB d n : ℚ)| ≤
      (divB d n : ℚ) := by exact_mod_cast hr
  have heq : (Decimal.mk (roundQuot (divA d) (divB d n)) (-16)).toRat * (n : ℚ) - d.toRat =
      -(((divA d : ℚ) - (roundQuot (divA d) (divB d n) : ℚ) * (divB d n : ℚ)) * s) := by
    rw [← hA]
    have : (Decimal.mk (roundQuot (divA d) (divB d n)) (-16)).toRat * (n : ℚ) =
        (roundQuot (divA d) (divB d n) : ℚ) * ((divB d n : ℚ) * s) := by
      rw [hB]; simp only [toRat]; ring
    rw [this]; ring
  rw [heq, abs_neg, abs_mul, abs_of_pos hs]
  have hB2 : (n : ℚ) / 2 * (10 : ℚ) ^ (-16 : ℤ) = (divB d n : ℚ) / 2 * s := by
    rw [div_mul_eq_mul_div, ← hB, div_mul_eq_mul_div]
  rw [hB2]
  nlinarith [abs_nonneg ((divA d : ℚ) - (roundQuot (divA d) (divB d n) : ℚ) * (divB d n : ℚ))]

end Decimal

theorem summaryLoop_counts (txs : List Transaction) :
    (summaryLoop txs).totalCredits.toRat = sumAmounts (creditsOf txs) ∧
    (summaryLoop txs).totalDebits.toRat = sumAmounts (debitsOf txs) ∧
    (summaryLoop txs).creditCount = ((creditsOf txs).length : Int) ∧
    (summaryLoop txs).debitCount = ((debitsOf txs).length : Int) ∧
    (summaryLoop txs).summary.AverageCredit = Decimal.Zero ∧
    (summaryLoop txs).summary.AverageDebit = Decimal.Zero := by
  obtain ⟨h1, h2, h3, h4, h5, h6⟩ := loop_totals txs
    { summary := emptySummary, totalCredits := Decimal.zeroValue,
      totalDebits := Decimal.zeroValue, creditCount := 0, debitCount := 0 }
  unfold summaryLoop
  rw [h1, h2, h3, h4, h5, h6]
  simp [Decimal.toRat_zeroValue, emptySummary]

/-- `NewSummary` never panics; its result is the state of the loop with the two
averages filled in. -/
theorem NewSummary_eq (txs : List Transaction) :
    NewSummary txs = some
      { TotalBalance := (summaryLoop txs).summary.TotalBalance
        MonthlyTransactions := (summaryLoop txs).summary.MonthlyTransactions
        MonthlyCredits := (summaryLoop txs).summary.MonthlyCredits
        MonthlyDebits := (summaryLoop txs).summary.MonthlyDebits
        AverageCredit := averageOf (summaryLoop txs).totalCredits (summaryLoop txs).creditCount
        AverageDebit := averageOf (summaryLoop txs).totalDebits (summaryLoop txs).debitCount } := by
  obtain ⟨-, -, h3, h4, h5, h6⟩ := summaryLoop_counts txs
  unfold NewSummary
  by_cases hl : txs.length = 0
  · have : txs = [] := List.length_eq_zero.mp hl
    subst this
    simp [summaryLoop, emptySummary, averageOf]
  · rw [if_neg hl]
    have hC : setAverageCredit (summaryLoop txs) (summaryLoop txs).summary =
        some { (summaryLoop txs).summary with
          AverageCredit :=
            averageOf (summaryLoop txs).totalCredits (summaryLoop txs).creditCount } := by
      unfold setAverageCredit averageOf
      by_cases hc : (summaryLoop txs).creditCount > 0
      · rw [if_pos hc, if_pos hc, Decimal.Div_NewFromInt _ _ hc]
      · rw [if_neg hc, if_neg hc, ← h5]
    simp only [hC]
    unfold setAverageDebit averageOf
    by_cases hd : (summaryLoop txs).debitCount > 0
    · simp only [if_pos hd, Decimal.Div_NewFromInt _ _ hd]
    · simp only [if_neg hd, ← h6]

/-- The average stored for a positive count, against the exact quotient. -/
theorem average_rounded (total : Decimal) (count : Int) (sum : ℚ) (n : Nat)
    (hsum : total.toRat = sum) (hcount : count = (n : Int)) (hn : 0 < n) :
    (averageOf total count).exp = -16 ∧
    |(averageOf total count).toRat - sum / (n : ℚ)| ≤ 1 / 2 * (10 : ℚ) ^ (-16 : ℤ) ∧
    ((∃ k : ℤ, sum / (n : ℚ) = (k : ℚ) * (10 : ℚ) ^ (-16 : ℤ)) →
      (averageOf total count).toRat * (n : ℚ) = sum) := by
  have hc : 0 < count := by omega
  have hnq : (0 : ℚ) < (n : ℚ) := by exact_mod_cast hn
  have hcq : (count : ℚ) = (n : ℚ) := by rw [hcount]; norm_cast
  have herr := Decimal.Div_error total count hc
  rw [hsum, hcq] at herr
  have havg : averageOf total count =
      ⟨Decimal.roundQuot (Decimal.divA total) (Decimal.divB total count), -16⟩ := by
    unfold averageOf; rw [if_pos hc]
  rw [havg]
  generalize Decimal.roundQuot (Decimal.divA total) (Decimal.divB total count) = Q at *
  have hbound : |(Decimal.mk Q (-16)).toRat - sum / (n : ℚ)| ≤ 1 / 2 * (10 : ℚ) ^ (-16 : ℤ) := by
    have : (Decimal.mk Q (-16)).toRat - sum / (n : ℚ) =
        ((Decimal.mk Q (-16)).toRat * (n : ℚ) - sum) / (n : ℚ) := by
      field_simp
    rw [this, abs_div, abs_of_pos hnq, div_le_iff₀ hnq]
    calc |(Decimal.mk Q (-16)).toRat * (n : ℚ) - sum|
        ≤ (n : ℚ) / 2 * (10 : ℚ) ^ (-16 : ℤ) := herr
      _ = 1 / 2 * (10 : ℚ) ^ (-16 : ℤ) * (n : ℚ) := by ring
  refine ⟨rfl, hbound, ?_⟩
  rintro ⟨k, hk⟩
  rw [hk] at hbound
  have h10 : (0 : ℚ) < (10 : ℚ) ^ (-16 : ℤ) := zpow_pos (by norm_num) _
  have hQk : |((Q - k : ℤ) : ℚ)| ≤ 1 / 2 := by
    have : (Decimal.mk Q (-16)).toRat - (k : ℚ) * (10 : ℚ) ^ (-16 : ℤ) =
        ((Q - k : ℤ) : ℚ) * (10 : ℚ) ^ (-16 : ℤ) := by
      simp only [Decimal.toRat]; push_cast; ring
    rw [this, abs_mul, abs_of_pos h10] at hbound
    exact le_of_mul_le_mul_right hbound h10
  have hQk0 : Q - k = 0 := by
    by_contra hne
    have h1 : (1 : ℤ) ≤ |Q - k| := Int.one_le_abs hne
    have h2 : ((1 : ℤ) : ℚ) ≤ ((|Q - k| : ℤ) : ℚ) := by exact_mod_cast h1
    rw [Int.cast_abs] at h2
    norm_num at h2 hQk
    linarith
  have hQ : Q = k := by omega
  have hs : sum = (k : ℚ) * (10 : ℚ) ^ (-16 : ℤ) * (n : ℚ) := by
    rw [← hk]; field_simp
  rw [hs, hQ]
  simp only [Decimal.toRat]

/-- Claim C1. For every list of transactions (in particular every non-empty one),
`NewSummary` returns a summary whose TotalBalance is exactly (as a rational
number, no rounding) the sum of the Amounts of the Credit transactions minus the
sum of the Amounts of the Debit transactions. -/
theorem C1_total_balance (txs : List Transaction) :
    ∃ s, NewSummary txs = some s ∧
      s.TotalBalance.toRat = sumAmounts (creditsOf txs) - sumAmounts (debitsOf txs) := by
  refine ⟨_, NewSummary_eq txs, ?_⟩
  show (summaryLoop txs).summary.TotalBalance.toRat = _
  unfold summaryLoop
  rw [loop_TotalBalance]
  simp [emptySummary, Decimal.toRat_Zero]

/-- Claim C2, as stated, fails: for the five transactions of `TestNewSummary` (credits
60.5, 10 and 15.25) the AverageCredit is 28.5833333333333333, and three times
that is 85.7499999999999999, not the credit sum 85.75. -/
theorem C2_counterexample :
    NewSummary testTransactions = some testSummary ∧
    ((creditsOf testTransactions).length : ℚ) = 3 ∧
    sumAmounts (creditsOf testTransactions) = 8575 / 100 ∧
    testSummary.AverageCredit.toRat * ((creditsOf testTransactions).length : ℚ) ≠
      sumAmounts (creditsOf testTransactions) := by
  have h1 : ((creditsOf testTransactions).length : ℚ) = 3 := by
    have : (creditsOf testTransactions).length = 3 := by decide
    rw [this]; norm_num
  have h2 : sumAmounts (creditsOf testTransactions) = 8575 / 100 := by
    have : creditsOf testTransactions =
        [ ⟨1, ⟨2024, .July, 15⟩, ⟨605, -1⟩, .Credit⟩,
          ⟨4, ⟨2024, .August, 13⟩, ⟨10, 0⟩, .Credit⟩,
          ⟨5, ⟨2024, .July, 18⟩, ⟨1525, -2⟩, .Credit⟩ ] := by decide
    rw [this]
    simp only [sumAmounts, List.map_cons, List.map_nil, List.sum_cons, List.sum_nil,
      Decimal.toRat]
    norm_num
  refine ⟨by decide, h1, h2, ?_⟩
  rw [h1, h2]
  simp only [testSummary, Decimal.toRat]
  norm_num

/-- Claim C2, amended. For every list of transactions `NewSummary` returns a summary;
when the list has at least one Credit, AverageCredit is the quotient of the
credit sum by the number of credits rounded to 16 decimal places: it is a
multiple of `10 ^ -16`, it differs from the exact quotient by at most half a
unit of the sixteenth place, and it is the exact quotient whenever that quotient
has at most 16 decimal places. The same holds for AverageDebit when the list has
at least one Debit. -/
theorem C2_average_rounded (txs : List Transaction) :
    ∃ s, NewSummary txs = some s ∧
      (creditsOf txs ≠ [] →
        s.AverageCredit.exp = -16 ∧
        |s.AverageCredit.toRat - sumAmounts (creditsOf txs) / ((creditsOf txs).length : ℚ)|
          ≤ 1 / 2 * (10 : ℚ) ^ (-16 : ℤ) ∧
        ((∃ k : ℤ, sumAmounts (creditsOf txs) / ((creditsOf txs).length : ℚ) =
            (k : ℚ) * (10 : ℚ) ^ (-16 : ℤ)) →
          s.AverageCredit.toRat * ((creditsOf txs).length : ℚ) = sumAmounts (creditsOf txs))) ∧
      (debitsOf txs ≠ [] →
        s.AverageDebit.exp = -16 ∧
        |s.AverageDebit.toRat - sumAmounts (debitsOf txs) / ((debitsOf txs).length : ℚ)|
          ≤ 1 / 2 * (10 : ℚ) ^ (-16 : ℤ) ∧
        ((∃ k : ℤ, sumAmounts (debitsOf txs) / ((debitsOf txs).length : ℚ) =
            (k : ℚ) * (10 : ℚ) ^ (-16 : ℤ)) →
          s.AverageDebit.toRat * ((debitsOf txs).length : ℚ) = sumAmounts (debitsOf txs))) := by
  obtain ⟨h1, h2, h3, h4, -, -⟩ := summaryLoop_counts txs
  refine ⟨_, NewSummary_eq txs, ?_, ?_⟩
  · intro hne
    have hpos : 0 < (creditsOf txs).length := List.length_pos.mpr hne
    exact average_rounded _ _ _ _ h1 h3 hpos
  · intro hne
    have hpos : 0 < (debitsOf txs).length := List.length_pos.mpr hne
    exact average_rounded _ _ _ _ h2 h4 hpos

theorem C2_average_rounded_witness :
    creditsOf testTransactions ≠ [] ∧ debitsOf testTransactions ≠ [] ∧
    ∃ s, NewSummary testTransactions = some s ∧
      s.AverageCredit.exp = -16 ∧
      |s.AverageCredit.toRat - sumAmounts (creditsOf testTransactions) /
          ((creditsOf testTransactions).length : ℚ)| ≤ 1 / 2 * (10 : ℚ) ^ (-16 : ℤ) ∧
      s.AverageDebit.exp = -16 ∧
      |s.AverageDebit.toRat - sumAmounts (debitsOf testTransactions) /
          ((debitsOf testTransactions).length : ℚ)| ≤ 1 / 2 * (10 : ℚ) ^ (-16 : ℤ) := by
  obtain ⟨s, hs, hc, hd⟩ := C2_average_rounded testTransactions
  exact ⟨by decide, by decide, s, hs, (hc (by decide)).1, (hc (by decide)).2.1,
    (hd (by decide)).1, (hd (by decide)).2.1⟩

/-- Claim C3. `NewSummary` is total: for every list it returns a summary (no division
by zero, no panic); when the list has no Credit the AverageCredit is
`decimal.Zero`, which is zero, and when the list has no Debit the AverageDebit
is `decimal.Zero`. -/
theorem C3_zero_averages (txs : List Transaction) :
    ∃ s, NewSummary txs = some s ∧
      ((∀ t ∈ txs, t.IsCredit = false) →
        s.AverageCredit = Decimal.Zero ∧ s.AverageCredit.IsZero = true) ∧
      ((∀ t ∈ txs, t.IsDebit = false) →
        s.AverageDebit = Decimal.Zero ∧ s.AverageDebit.IsZero = true) := by
  obtain ⟨-, -, h3, h4, -, -⟩ := summaryLoop_counts txs
  refine ⟨_, NewSummary_eq txs, ?_, ?_⟩
  · intro h
    have hnil : creditsOf txs = [] := by
      unfold creditsOf
      rw [List.filter_eq_nil_iff]
      intro t ht; simp [h t ht]
    have : averageOf (summaryLoop txs).totalCredits (summaryLoop txs).creditCount =
        Decimal.Zero := by
      unfold averageOf; rw [h3, hnil]; simp
    show averageOf _ _ = _ ∧ (averageOf _ _).IsZero = true
    rw [this]; exact ⟨rfl, by decide⟩
  · intro h
    have hnil : debitsOf txs = [] := by
      unfold debitsOf
      rw [List.filter_eq_nil_iff]
      intro t ht; simp [h t ht]
    have : averageOf (summaryLoop txs).totalDebits (summaryLoop txs).debitCount =
        Decimal.Zero := by
      unfold averageOf; rw [h4, hnil]; simp
    show averageOf _ _ = _ ∧ (averageOf _ _).IsZero = true
    rw [this]; exact ⟨rfl, by decide⟩

theorem C3_zero_averages_witness :
    (∀ t ∈ testOnlyDebits, t.IsCredit = false) ∧
    (∀ t ∈ testOnlyCredits, t.IsDebit = false) ∧
    (∃ s, NewSummary testOnlyDebits = some s ∧ s.AverageCredit = Decimal.Zero) ∧
    (∃ s, NewSummary testOnlyCredits = some s ∧ s.AverageDebit = Decimal.Zero) := by
  obtain ⟨s1, hs1, hc1, -⟩ := C3_zero_averages testOnlyDebits
  obtain ⟨s2, hs2, -, hd2⟩ := C3_zero_averages testOnlyCredits
  exact ⟨by decide, by decide, ⟨s1, hs1, (hc1 (by decide)).1⟩, ⟨s2, hs2, (hd2 (by decide)).1⟩⟩

/-- Claim C4. `NewSummary` of the empty list (a nil or empty slice) is the summary
with TotalBalance `decimal.Zero`, the three maps empty and both averages
`decimal.Zero`; `decimal.Zero` is zero. -/
theorem C4_empty_summary :
    NewSummary [] = some
      { TotalBalance := Decimal.Zero
        MonthlyTransactions := []
        MonthlyCredits := []
        MonthlyDebits := []
        AverageCredit := Decimal.Zero
        AverageDebit := Decimal.Zero } ∧
    Decimal.Zero.IsZero = true ∧ Decimal.Zero.toRat = 0 :=
  ⟨rfl, by decide, Decimal.toRat_Zero⟩

/-- Claim C5. For every list of transactions and every month label `k`, in the
summary `NewSummary` returns: MonthlyTransactions[k] is the number of
transactions whose MonthYear() is `k`; MonthlyCredits[k] is exactly the sum of
the Amounts of the Credit transactions with label `k`; MonthlyDebits[k] is
exactly the sum of the Amounts of the Debit transactions with label `k`; and a
label no transaction has is absent from MonthlyTransactions. -/
theorem C5_monthly_maps (txs : List Transaction) (k : String) :
    ∃ s, NewSummary txs = some s ∧
      mapIndex 0 s.MonthlyTransactions k = ((withLabel k txs).length : Int) ∧
      (mapIndex Decimal.zeroValue s.MonthlyCredits k).toRat =
        sumAmounts (creditsOf (withLabel k txs)) ∧
      (mapIndex Decimal.zeroValue s.MonthlyDebits k).toRat =
        sumAmounts (debitsOf (withLabel k txs)) ∧
      ((∀ t ∈ txs, t.MonthYear ≠ k) → mapLookup s.MonthlyTransactions k = none) := by
  refine ⟨_, NewSummary_eq txs, ?_, ?_, ?_, ?_⟩
  · show mapIndex 0 (summaryLoop txs).summary.MonthlyTransactions k = _
    unfold summaryLoop
    rw [loop_MonthlyTransactions]
    simp [emptySummary, mapIndex, mapLookup]
  · show (mapIndex Decimal.zeroValue (summaryLoop txs).summary.MonthlyCredits k).toRat = _
    unfold summaryLoop
    rw [loop_MonthlyCredits]
    simp [emptySummary, mapIndex, mapLookup, Decimal.toRat_zeroValue]
  · show (mapIndex Decimal.zeroValue (summaryLoop txs).summary.MonthlyDebits k).toRat = _
    unfold summaryLoop
    rw [loop_MonthlyDebits]
    simp [emptySummary, mapIndex, mapLookup, Decimal.toRat_zeroValue]
  · intro h
    show mapLookup (summaryLoop txs).summary.MonthlyTransactions k = none
    unfold summaryLoop
    rw [(loop_absent txs _ k h).1]
    simp [emptySummary, mapLookup]

theorem C5_monthly_maps_witness :
    (∀ t ∈ testTransactions, t.MonthYear ≠ "June 2024") ∧
    ∃ s, NewSummary testTransactions = some s ∧
      mapLookup s.MonthlyTransactions "June 2024" = none := by
  obtain ⟨s, hs, -, -, -, h⟩ := C5_monthly_maps testTransactions "June 2024"
  exact ⟨by decide, s, hs, h (by decide)⟩

/-- Claim C8. For every list of transactions, the monthly counts of the summary
`NewSummary` returns add up to the number of transactions, and
HasTransactions() is true if and only if the list is not empty. -/
theorem C8_has_transactions (txs : List Transaction) :
    ∃ s, NewSummary txs = some s ∧
      mapTotal s.MonthlyTransactions = (txs.length : Int) ∧
      (s.HasTransactions = true ↔ txs ≠ []) := by
  have htot : mapTotal (summaryLoop txs).summary.MonthlyTransactions = (txs.length : Int) := by
    unfold summaryLoop
    rw [loop_mapTotal]
    simp [emptySummary, mapTotal]
  refine ⟨_, NewSummary_eq txs, htot, ?_⟩
  unfold Summary.HasTransactions
  show decide (mapTotal (summaryLoop txs).summary.MonthlyTransactions > 0) = true ↔ _
  rw [htot, decide_eq_true_iff]
  constructor
  · intro h hnil; subst hnil; simp at h
  · intro h
    have : 0 < txs.length := List.length_pos.mpr h
    exact_mod_cast this

namespace Decimal

theorem ten_pow_split (e m1 m : Int) (h1 : m1 ≤ e) (h2 : m ≤ m1) :
    (10 : Int) ^ (e - m1).toNat * 10 ^ (m1 - m).toNat = 10 ^ (e - m).toNat := by
  rw [← pow_add]
  congr 1
  omega

theorem Add_eq_addSigned (x a : Decimal) : x.Add a = addSigned 1 x a := by
  rw [Add_eq]; simp [addSigned]

theorem Sub_eq_addSigned (x a : Decimal) : x.Sub a = addSigned (-1) x a := by
  rw [Sub_eq]; simp only [addSigned]; congr 1; ring

theorem addSigned_right_comm (s1 s2 : Int) (x a b : Decimal) :
    addSigned s2 (addSigned s1 x a) b = addSigned s1 (addSigned s2 x b) a := by
  have key : ∀ (s1 s2 : Int) (x a b : Decimal),
      addSigned s2 (addSigned s1 x a) b =
        ⟨x.value * 10 ^ (x.exp - min (min x.exp a.exp) b.exp).toNat
          + s1 * (a.value * 10 ^ (a.exp - min (min x.exp a.exp) b.exp).toNat)
          + s2 * (b.value * 10 ^ (b.exp - min (min x.exp a.exp) b.exp).toNat),
          min (min x.exp a.exp) b.exp⟩ := by
    intro s1 s2 x a b
    simp only [addSigned]
    congr 1
    have hx := ten_pow_split x.exp (min x.exp a.exp) (min (min x.exp a.exp) b.exp)
      (min_le_left _ _) (min_le_left _ _)
    have ha := ten_pow_split a.exp (min x.exp a.exp) (min (min x.exp a.exp) b.exp)
      (min_le_right _ _) (min_le_left _ _)
    rw [← hx, ← ha]
    ring
  rw [key, key]
  have hm : min (min x.exp b.exp) a.exp = min (min x.exp a.exp) b.exp := min_right_comm _ _ _
  rw [hm]
  congr 1
  ring

theorem Add_right_comm (x a b : Decimal) : (x.Add a).Add b = (x.Add b).Add a := by
  simp only [Add_eq_addSigned]; exact addSigned_right_comm 1 1 x a b

theorem Sub_right_comm (x a b : Decimal) : (x.Sub a).Sub b = (x.Sub b).Sub a := by
  simp only [Sub_eq_addSigned]; exact addSigned_right_comm (-1) (-1) x a b

theorem Add_Sub_comm (x a b : Decimal) : (x.Add a).Sub b = (x.Sub b).Add a := by
  simp only [Add_eq_addSigned, Sub_eq_addSigned]; exact addSigned_right_comm 1 (-1) x a b

end Decimal

theorem SummaryLoop.Same.refl (a : SummaryLoop) : a.Same a :=
  ⟨rfl, fun _ => rfl, fun _ => rfl, fun _ => rfl, rfl, rfl, rfl, rfl, rfl, rfl⟩

theorem SummaryLoop.Same.trans {a b c : SummaryLoop} (h1 : a.Same b) (h2 : b.Same c) :
    a.Same c := by
  obtain ⟨a1, a2, a3, a4, a5, a6, a7, a8, a9, a10⟩ := h1
  obtain ⟨b1, b2, b3, b4, b5, b6, b7, b8, b9, b10⟩ := h2
  exact ⟨a1.trans b1, fun k => (a2 k).trans (b2 k), fun k => (a3 k).trans (b3 k),
    fun k => (a4 k).trans (b4 k), a5.trans b5, a6.trans b6, a7.trans b7, a8.trans b8,
    a9.trans b9, a10.trans b10⟩

theorem mapIndex_congr {V : Type} (zero : V) (m1 m2 : List (String × V))
    (h : ∀ k, mapLookup m1 k = mapLookup m2 k) (k : String) :
    mapIndex zero m1 k = mapIndex zero m2 k := by
  unfold mapIndex; rw [h k]

theorem summaryStep_congr {a b : SummaryLoop} (h : a.Same b) (t : Transaction) :
    (summaryStep a t).Same (summaryStep b t) := by
  obtain ⟨h1, h2, h3, h4, h5, h6, h7, h8, h9, h10⟩ := h
  by_cases hc : t.IsCredit = true
  · rw [summaryStep_credit a t hc, summaryStep_credit b t hc]
    refine ⟨by simp only [h1], ?_, ?_, h4, h5, h6, by simp only [h7], h8, by simp only [h9], h10⟩
    · intro k
      simp only [mapLookup_mapAssign, h2 k, mapIndex_congr 0 _ _ h2]
    · intro k
      simp only [mapLookup_mapAssign, h3 k, mapIndex_congr Decimal.zeroValue _ _ h3]
  · have hc' : t.IsCredit = false := by simpa using hc
    rw [summaryStep_debit a t hc', summaryStep_debit b t hc']
    refine ⟨by simp only [h1], ?_, h3, ?_, h5, h6, h7, by simp only [h8], h9, by simp only [h10]⟩
    · intro k
      simp only [mapLookup_mapAssign, h2 k, mapIndex_congr 0 _ _ h2]
    · intro k
      simp only [mapLookup_mapAssign, h4 k, mapIndex_congr Decimal.zeroValue _ _ h4]

theorem increment_swap (m : List (String × Int)) (k1 k2 k : String) :
    mapLookup (mapAssign (mapAssign m k1 (mapIndex 0 m k1 + 1)) k2
        (mapIndex 0 (mapAssign m k1 (mapIndex 0 m k1 + 1)) k2 + 1)) k =
    mapLookup (mapAssign (mapAssign m k2 (mapIndex 0 m k2 + 1)) k1
        (mapIndex 0 (mapAssign m k2 (mapIndex 0 m k2 + 1)) k1 + 1)) k := by
  simp only [mapLookup_mapAssign, mapIndex_mapAssign]
  by_cases h12 : k1 = k2
  · subst h12; rfl
  · have h21 : ¬ k2 = k1 := fun h => h12 h.symm
    simp only [h12, h21, if_false]
    by_cases h1 : k1 = k
    · subst h1; simp [h21]
    · simp [h1]

theorem accumulate_swap (m : List (String × Decimal)) (k1 k2 : String) (a b : Decimal)
    (k : String) :
    mapLookup (mapAssign (mapAssign m k1 ((mapIndex Decimal.zeroValue m k1).Add a)) k2
        ((mapIndex Decimal.zeroValue
          (mapAssign m k1 ((mapIndex Decimal.zeroValue m k1).Add a)) k2).Add b)) k =
    mapLookup (mapAssign (mapAssign m k2 ((mapIndex Decimal.zeroValue m k2).Add b)) k1
        ((mapIndex Decimal.zeroValue
          (mapAssign m k2 ((mapIndex Decimal.zeroValue m k2).Add b)) k1).Add a)) k := by
  simp only [mapLookup_mapAssign, mapIndex_mapAssign]
  by_cases h12 : k1 = k2
  · subst h12
    by_cases h1 : k1 = k
    · simp only [h1, if_true, Decimal.Add_right_comm]
    · simp only [h1, if_false]
  · have h21 : ¬ k2 = k1 := fun h => h12 h.symm
    simp only [h12, h21, if_false]
    by_cases h1 : k1 = k
    · subst h1; simp [h21]
    · simp [h1]

theorem summaryStep_swap (s : SummaryLoop) (t u : Transaction) :
    (summaryStep (summaryStep s t) u).Same (summaryStep (summaryStep s u) t) := by
  by_cases ht : t.IsCredit = true <;> by_cases hu : u.IsCredit = true
  · rw [summaryStep_credit s t ht, summaryStep_credit s u hu,
      summaryStep_credit _ u hu, summaryStep_credit _ t ht]
    refine ⟨Decimal.Add_right_comm _ _ _, increment_swap _ _ _, accumulate_swap _ _ _ _ _ ,
      fun _ => rfl, rfl, rfl, Decimal.Add_right_comm _ _ _, rfl, by ring, rfl⟩
  · have hu' : u.IsCredit = false := by simpa using hu
    rw [summaryStep_credit s t ht, summaryStep_debit s u hu',
      summaryStep_debit _ u hu', summaryStep_credit _ t ht]
    exact ⟨Decimal.Add_Sub_comm _ _ _, increment_swap _ _ _, fun _ => rfl,
      fun _ => rfl, rfl, rfl, rfl, rfl, rfl, rfl⟩
  · have ht' : t.IsCredit = false := by simpa using ht
    rw [summaryStep_debit s t ht', summaryStep_credit s u hu,
      summaryStep_credit _ u hu, summaryStep_debit _ t ht']
    exact ⟨(Decimal.Add_Sub_comm _ _ _).symm, increment_swap _ _ _, fun _ => rfl,
      fun _ => rfl, rfl, rfl, rfl, rfl, rfl, rfl⟩
  · have ht' : t.IsCredit = false := by simpa using ht
    have hu' : u.IsCredit = false := by simpa using hu
    rw [summaryStep_debit s t ht', summaryStep_debit s u hu',
      summaryStep_debit _ u hu', summaryStep_debit _ t ht']
    refine ⟨Decimal.Sub_right_comm _ _ _, increment_swap _ _ _, fun _ => rfl,
      accumulate_swap _ _ _ _ _ , rfl, rfl, rfl, Decimal.Add_right_comm _ _ _, rfl, by ring⟩

theorem foldl_congr (l : List Transaction) {a b : SummaryLoop} (h : a.Same b) :
    (l.foldl summaryStep a).Same (l.foldl summaryStep b) := by
  induction l generalizing a b with
  | nil => exact h
  | cons t l ih => exact ih (summaryStep_congr h t)

theorem foldl_perm {l1 l2 : List Transaction} (h : l1.Perm l2) (s : SummaryLoop) :
    (l1.foldl summaryStep s).Same (l2.foldl summaryStep s) := by
  induction h generalizing s with
  | nil => exact SummaryLoop.Same.refl _
  | cons t _ ih => exact ih (summaryStep s t)
  | swap t u l => exact foldl_congr l (summaryStep_swap s u t)
  | trans _ _ ih1 ih2 => exact (ih1 s).trans (ih2 s)

/-- Claim C7. `NewSummary` is order-independent: for a list of transactions and any
permutation of it, both calls return a summary, with the same TotalBalance, the
same entries in MonthlyTransactions, MonthlyCredits and MonthlyDebits, and the
same AverageCredit and AverageDebit (equal as decimals, value and exponent). -/
theorem C7_order_independent (l1 l2 : List Transaction) (h : l1.Perm l2) :
    ∃ s1 s2, NewSummary l1 = some s1 ∧ NewSummary l2 = some s2 ∧
      s1.TotalBalance = s2.TotalBalance ∧
      (∀ k, mapLookup s1.MonthlyTransactions k = mapLookup s2.MonthlyTransactions k) ∧
      (∀ k, mapLookup s1.MonthlyCredits k = mapLookup s2.MonthlyCredits k) ∧
      (∀ k, mapLookup s1.MonthlyDebits k = mapLookup s2.MonthlyDebits k) ∧
      s1.AverageCredit = s2.AverageCredit ∧ s1.AverageDebit = s2.AverageDebit := by
  obtain ⟨h1, h2, h3, h4, -, -, h7, h8, h9, h10⟩ :
      (summaryLoop l1).Same (summaryLoop l2) := foldl_perm h _
  refine ⟨_, _, NewSummary_eq l1, NewSummary_eq l2, h1, h2, h3, h4, ?_, ?_⟩
  · show averageOf _ _ = averageOf _ _
    rw [h7, h9]
  · show averageOf _ _ = averageOf _ _
    rw [h8, h10]

theorem C7_order_independent_witness :
    testTransactions.Perm testTransactions.reverse ∧
    ∃ s1 s2, NewSummary testTransactions = some s1 ∧
      NewSummary testTransactions.reverse = some s2 ∧
      s1.TotalBalance = s2.TotalBalance ∧
      (∀ k, mapLookup s1.MonthlyTransactions k = mapLookup s2.MonthlyTransactions k) ∧
      (∀ k, mapLookup s1.MonthlyCredits k = mapLookup s2.MonthlyCredits k) ∧
      (∀ k, mapLookup s1.MonthlyDebits k = mapLookup s2.MonthlyDebits k) ∧
      s1.AverageCredit = s2.AverageCredit ∧ s1.AverageDebit = s2.AverageDebit :=
  ⟨(List.reverse_perm _).symm,
    C7_order_independent testTransactions testTransactions.reverse (List.reverse_perm _).symm⟩

theorem digitChar_props (k : Nat) (hk : k < 10) :
    isDigitChar (Nat.digitChar k) = true ∧ digitValue (Nat.digitChar k) = k := by
  interval_cases k <;> exact ⟨by decide, by decide⟩

theorem digitsValue_append_singleton (cs : List Char) (c : Char) :
    digitsValue (cs ++ [c]) = digitsValue cs * 10 + digitValue c := by
  simp [digitsValue, List.foldl_append]

theorem toDigitsCore_spec (fuel n : Nat) (ds : List Char) (h : n < fuel) :
    ∃ pre, Nat.toDigitsCore 10 fuel n ds = pre ++ ds ∧ pre ≠ [] ∧
      (∀ c ∈ pre, isDigitChar c = true) ∧ digitsValue pre = n := by
  induction fuel generalizing n ds with
  | zero => omega
  | succ fuel ih =>
    have hmod : n % 10 < 10 := Nat.mod_lt _ (by norm_num)
    obtain ⟨hd1, hd2⟩ := digitChar_props (n % 10) hmod
    unfold Nat.toDigitsCore
    by_cases h0 : n / 10 = 0
    · simp only [h0, if_true]
      refine ⟨[Nat.digitChar (n % 10)], rfl, by simp, ?_, ?_⟩
      · intro c hc; simp at hc; rw [hc]; exact hd1
      · simp only [digitsValue, List.foldl_cons, List.foldl_nil, hd2]; omega
    · simp only [h0, if_false]
      obtain ⟨pre, hpre, hne, hall, hval⟩ := ih (n / 10) (Nat.digitChar (n % 10) :: ds) (by omega)
      refine ⟨pre ++ [Nat.digitChar (n % 10)], ?_, by simp, ?_, ?_⟩
      · rw [hpre]; simp
      · intro c hc
        rcases List.mem_append.mp hc with hc | hc
        · exact hall c hc
        · simp at hc; rw [hc]; exact hd1
      · rw [digitsValue_append_singleton, hval, hd2]; omega

theorem decimalDigits_spec (u : Nat) :
    decimalDigits u ≠ [] ∧ (∀ c ∈ decimalDigits u, isDigitChar c = true) ∧
      digitsValue (decimalDigits u) = u := by
  obtain ⟨pre, hpre, hne, hall, hval⟩ := toDigitsCore_spec (u + 1) u [] (by omega)
  have : decimalDigits u = pre := by
    unfold decimalDigits Nat.toDigits; rw [hpre]; simp
  rw [this]; exact ⟨hne, hall, hval⟩

theorem digitsValue_pad (k : Nat) (ds : List Char) :
    digitsValue (List.replicate k '0' ++ ds) = digitsValue ds := by
  unfold digitsValue
  rw [List.foldl_append]
  have : List.foldl (fun n c => n * 10 + digitValue c) 0 (List.replicate k '0') = 0 := by
    induction k with
    | zero => rfl
    | succ k ih => rw [List.replicate_succ, List.foldl_cons]; exact ih
  rw [this]

theorem appendInt_eq (x : Int) (width : Nat) :
    appendInt x width = (if x < 0 then ['-'] else []) ++ paddedDigits x.natAbs width := by
  simp [appendInt, paddedDigits]

theorem paddedDigits_spec (u width : Nat) :
    paddedDigits u width ≠ [] ∧ (∀ c ∈ paddedDigits u width, isDigitChar c = true) ∧
      digitsValue (paddedDigits u width) = u := by
  obtain ⟨hne, hall, hval⟩ := decimalDigits_spec u
  refine ⟨by simp [paddedDigits, hne], ?_, ?_⟩
  · intro c hc
    rcases List.mem_append.mp hc with hc | hc
    · rw [(List.mem_replicate.mp hc).2]; decide
    · exact hall c hc
  · unfold paddedDigits; rw [digitsValue_pad, hval]

theorem paddedDigits_head_ne_minus (u width : Nat) (rest : List Char) :
    paddedDigits u width ≠ '-' :: rest := by
  intro h
  have := (paddedDigits_spec u width).2.1 '-' (by rw [h]; exact List.mem_cons_self _ _)
  exact absurd this (by decide)

theorem appendInt_injective (x y : Int) (width : Nat) (h : appendInt x width = appendInt y width) :
    x = y := by
  rw [appendInt_eq, appendInt_eq] at h
  by_cases hx : x < 0 <;> by_cases hy : y < 0
  · simp only [hx, hy, if_true, List.singleton_append, List.cons.injEq, true_and] at h
    have := congrArg digitsValue h
    rw [(paddedDigits_spec _ _).2.2, (paddedDigits_spec _ _).2.2] at this
    omega
  · simp only [hx, hy, if_true, if_false, List.singleton_append, List.nil_append] at h
    exact absurd h.symm (paddedDigits_head_ne_minus _ _ _)
  · simp only [hx, hy, if_true, if_false, List.singleton_append, List.nil_append] at h
    exact absurd h (paddedDigits_head_ne_minus _ _ _)
  · simp only [hx, hy, if_false, List.nil_append] at h
    have := congrArg digitsValue h
    rw [(paddedDigits_spec _ _).2.2, (paddedDigits_spec _ _).2.2] at this
    omega

theorem appendInt_four_digits (x : Int) (h0 : 0 ≤ x) (h1 : x ≤ 9999) :
    (appendInt x 4).length = 4 ∧ (∀ c ∈ appendInt x 4, isDigitChar c = true) ∧
      digitsValue (appendInt x 4) = x.natAbs := by
  rw [appendInt_eq]
  have hx : ¬ x < 0 := by omega
  simp only [hx, if_false, List.nil_append]
  refine ⟨?_, (paddedDigits_spec _ _).2.1, (paddedDigits_spec _ _).2.2⟩
  have hlen : (decimalDigits x.natAbs).length ≤ 4 :=
    Nat.toDigitsCore_length 10 (by norm_num) _ _ 4 (by omega) (by norm_num)
  simp only [paddedDigits, List.length_append, List.length_replicate]
  omega

theorem Month.String_no_space (m : Month) : ' ' ∉ m.String.data := by
  cases m <;> decide

theorem Month.String_injective (m1 m2 : Month) (h : m1.String = m2.String) : m1 = m2 := by
  cases m1 <;> cases m2 <;> first | rfl | exact absurd h (by decide)

theorem split_at_space (a b x y : List Char) (ha : ' ' ∉ a) (hb : ' ' ∉ b)
    (h : a ++ ' ' :: x = b ++ ' ' :: y) : a = b ∧ x = y := by
  induction a generalizing b with
  | nil =>
    cases b with
    | nil => simpa using h
    | cons c b =>
      simp only [List.nil_append, List.cons_append, List.cons.injEq] at h
      exact absurd (h.1 ▸ List.mem_cons_self _ _) hb
  | cons c a ih =>
    cases b with
    | nil =>
      simp only [List.nil_append, List.cons_append, List.cons.injEq] at h
      exact absurd (h.1 ▸ List.mem_cons_self _ _) ha
    | cons d b =>
      simp only [List.cons_append, List.cons.injEq] at h
      obtain ⟨h1, h2⟩ := ih b (fun hm => ha (List.mem_cons_of_mem _ hm))
        (fun hm => hb (List.mem_cons_of_mem _ hm)) h.2
      exact ⟨by rw [h.1, h1], h2⟩

theorem FormatJanuary2006_data (t : Time) :
    t.FormatJanuary2006.data = t.month.String.data ++ ' ' :: appendInt t.year 4 := by
  simp [Time.FormatJanuary2006]

theorem FormatJanuary2006_inj (t1 t2 : Time) :
    t1.FormatJanuary2006 = t2.FormatJanuary2006 ↔ t1.month = t2.month ∧ t1.year = t2.year := by
  constructor
  · intro h
    have hd := congrArg String.data h
    rw [FormatJanuary2006_data, FormatJanuary2006_data] at hd
    obtain ⟨h1, h2⟩ := split_at_space _ _ _ _ (Month.String_no_space _)
      (Month.String_no_space _) hd
    exact ⟨Month.String_injective _ _ (String.ext h1), appendInt_injective _ _ _ h2⟩
  · rintro ⟨h1, h2⟩
    unfold Time.FormatJanuary2006
    rw [h1, h2]

/-- Claim C6. For every transaction, MonthYear() is the English name of the month of
its Date, a space, and the year of its Date in decimal, padded to four digits
(exactly four digits for the years 0 to 9999); two transactions have the same
label if and only if their dates have the same month and the same year,
whatever the days; and two transactions dated 1 July 2024 and 28 July 2024 are
both counted under "July 2024" by `NewSummary`. -/
theorem C6_month_label :
    (∀ t : Transaction,
      t.MonthYear = t.Date.month.String ++ " " ++ String.mk (appendInt t.Date.year 4)) ∧
    (∀ t : Transaction, 0 ≤ t.Date.year → t.Date.year ≤ 9999 →
      (appendInt t.Date.year 4).length = 4 ∧
      (∀ c ∈ appendInt t.Date.year 4, isDigitChar c = true) ∧
      digitsValue (appendInt t.Date.year 4) = t.Date.year.natAbs) ∧
    (∀ t1 t2 : Transaction,
      t1.MonthYear = t2.MonthYear ↔
        t1.Date.month = t2.Date.month ∧ t1.Date.year = t2.Date.year) ∧
    (∀ (id1 id2 : Int) (a1 a2 : Decimal) (ty1 ty2 : TransactionType),
      (Transaction.mk id1 ⟨2024, .July, 1⟩ a1 ty1).MonthYear = "July 2024" ∧
      (Transaction.mk id2 ⟨2024, .July, 28⟩ a2 ty2).MonthYear = "July 2024" ∧
      ∃ s, NewSummary [⟨id1, ⟨2024, .July, 1⟩, a1, ty1⟩, ⟨id2, ⟨2024, .July, 28⟩, a2, ty2⟩]
          = some s ∧
        mapLookup s.MonthlyTransactions "July 2024" = some 2 ∧
        s.MonthlyTransactions.length = 1) := by
  refine ⟨fun t => rfl, fun t h0 h1 => appendInt_four_digits _ h0 h1,
    fun t1 t2 => FormatJanuary2006_inj _ _, ?_⟩
  intro id1 id2 a1 a2 ty1 ty2
  have h1 : (Transaction.mk id1 ⟨2024, .July, 1⟩ a1 ty1).MonthYear = "July 2024" := by
    show Time.FormatJanuary2006 ⟨2024, .July, 1⟩ = "July 2024"
    decide
  have h2 : (Transaction.mk id2 ⟨2024, .July, 28⟩ a2 ty2).MonthYear = "July 2024" := by
    show Time.FormatJanuary2006 ⟨2024, .July, 28⟩ = "July 2024"
    decide
  refine ⟨h1, h2, _, NewSummary_eq _, ?_⟩
  have hMT : (summaryLoop [⟨id1, ⟨2024, .July, 1⟩, a1, ty1⟩,
      ⟨id2, ⟨2024, .July, 28⟩, a2, ty2⟩]).summary.MonthlyTransactions = [("July 2024", 2)] := by
    cases ty1 <;> cases ty2 <;>
      simp [summaryLoop, summaryStep, Transaction.IsCredit, h1, h2, emptySummary, mapAssign,
        mapIndex, mapLookup]
  show mapLookup (summaryLoop _).summary.MonthlyTransactions _ = _ ∧
    (summaryLoop _).summary.MonthlyTransactions.length = 1
  rw [hMT]
  exact ⟨by decide, rfl⟩

theorem C6_month_label_witness :
    (Transaction.mk 1 ⟨2024, .July, 15⟩ ⟨605, -1⟩ .Credit).MonthYear = "July 2024" ∧
    (appendInt 2024 4).length = 4 ∧
    ((Transaction.mk 1 ⟨2024, .July, 15⟩ ⟨605, -1⟩ .Credit).MonthYear =
        (Transaction.mk 5 ⟨2024, .July, 18⟩ ⟨1525, -2⟩ .Credit).MonthYear) ∧
    ((Transaction.mk 1 ⟨2024, .July, 15⟩ ⟨605, -1⟩ .Credit).MonthYear ≠
        (Transaction.mk 4 ⟨2024, .August, 13⟩ ⟨10, 0⟩ .Credit).MonthYear) :=
  ⟨by decide,
    (C6_month_label.2.1 ⟨1, ⟨2024, .July, 15⟩, ⟨605, -1⟩, .Credit⟩ (by decide) (by decide)).1,
    (C6_month_label.2.2.1 ⟨1, ⟨2024, .July, 15⟩, ⟨605, -1⟩, .Credit⟩
      ⟨5, ⟨2024, .July, 18⟩, ⟨1525, -2⟩, .Credit⟩).mpr ⟨rfl, rfl⟩,
    fun h => absurd ((C6_month_label.2.2.1 ⟨1, ⟨2024, .July, 15⟩, ⟨605, -1⟩, .Credit⟩
      ⟨4, ⟨2024, .August, 13⟩, ⟨10, 0⟩, .Credit⟩).mp h).1 (by decide)⟩

/-! ## Parsing of the amount -/

theorem isNumeralChar_not_space (c : Char) (h : isNumeralChar c = true) : isSpace c = false := by
  unfold isNumeralChar at h
  simp only [Bool.or_eq_true, beq_iff_eq] at h
  rcases h with ((((h | h) | h) | h) | h) | h
  · unfold isDigitChar at h
    unfold isSpace
    simp only [decide_eq_true_eq, decide_eq_false_iff_not] at h ⊢
    omega
  all_goals (subst h; decide)

theorem parseDigits_chars (s : List Char) (n : Nat) (h : parseDigits s = some n) :
    s ≠ [] ∧ ∀ c ∈ s, isDigitChar c = true := by
  unfold parseDigits at h
  by_cases hc : (s.isEmpty || !s.all isDigitChar) = true
  · rw [if_pos hc] at h; exact absurd h (by simp)
  · simp only [Bool.or_eq_true, Bool.not_eq_true', not_or, Bool.not_eq_true,
      Bool.not_eq_false] at hc
    refine ⟨?_, ?_⟩
    · intro hs; rw [hs] at hc; simp at hc
    · intro c hm; exact List.all_eq_true.mp hc.2 c hm

theorem parseSignedDigits_chars (s : List Char) (v : Int) (h : parseSignedDigits s = some v) :
    s ≠ [] ∧ ∀ c ∈ s, isNumeralChar c = true := by
  have hd : ∀ (r : List Char), (∃ n, parseDigits r = some n) →
      r ≠ [] ∧ ∀ c ∈ r, isNumeralChar c = true := by
    rintro r ⟨n, hn⟩
    obtain ⟨h1, h2⟩ := parseDigits_chars r n hn
    exact ⟨h1, fun c hc => by simp [isNumeralChar, h2 c hc]⟩
  have hsome : ∀ (r : List Char) (f : Nat → Int) (w : Int),
      (parseDigits r).map f = some w → ∃ n, parseDigits r = some n := by
    intro r f w hw
    cases hp : parseDigits r with
    | none => rw [hp] at hw; exact absurd hw (by simp)
    | some n => exact ⟨n, rfl⟩
  unfold parseSignedDigits at h
  split at h
  · obtain ⟨-, h2⟩ := hd _ (hsome _ _ _ h)
    refine ⟨by simp, ?_⟩
    intro c hc
    rcases List.mem_cons.mp hc with hc | hc
    · rw [hc]; decide
    · exact h2 c hc
  · obtain ⟨-, h2⟩ := hd _ (hsome _ _ _ h)
    refine ⟨by simp, ?_⟩
    intro c hc
    rcases List.mem_cons.mp hc with hc | hc
    · rw [hc]; decide
    · exact h2 c hc
  · exact hd _ (hsome _ _ _ h)

theorem mantissa_chars (value : List Char) (v : Int)
    (h : parseSignedDigits (value.filter (fun c => c != '.')) = some v) :
    value ≠ [] ∧ ∀ c ∈ value, isNumeralChar c = true := by
  obtain ⟨h1, h2⟩ := parseSignedDigits_chars _ _ h
  refine ⟨?_, ?_⟩
  · intro hv; rw [hv] at h1; exact h1 rfl
  · intro c hc
    by_cases hdot : c = '.'
    · rw [hdot]; decide
    · exact h2 c (List.mem_filter.mpr ⟨hc, by simpa using hdot⟩)

/-- A text `NewFromString` accepts is not empty and has no white space. -/
theorem NewFromString_chars (value : List Char) (d : Decimal)
    (h : Decimal.NewFromString value = some d) :
    value ≠ [] ∧ ∀ c ∈ value, isSpace c = false := by
  suffices hs : value ≠ [] ∧ ∀ c ∈ value, isNumeralChar c = true from
    ⟨hs.1, fun c hc => isNumeralChar_not_space c (hs.2 c hc)⟩
  unfold Decimal.NewFromString at h
  simp only at h
  have hsplit := List.takeWhile_append_dropWhile
    (fun c => !(c == 'E' || c == 'e')) value
  have hhead := List.head?_dropWhile_not (fun c => !(c == 'E' || c == 'e')) value
  cases hdrop : value.dropWhile (fun c => !(c == 'E' || c == 'e')) with
  | nil =>
    rw [hdrop] at h
    simp only at h
    split at h
    · exact absurd h (by simp)
    · split at h
      · exact absurd h (by simp)
      · rename_i dValue hparse
        exact mantissa_chars value dValue hparse
  | cons e expText =>
    rw [hdrop] at h hsplit hhead
    simp only at h
    cases hexp : ParseInt expText 32 with
    | none => rw [hexp] at h; exact absurd h (by simp)
    | some expInt =>
      rw [hexp] at h
      simp only at h
      have hexpChars : ∀ c ∈ expText, isNumeralChar c = true := by
        unfold ParseInt at hexp
        cases hp : parseSignedDigits expText with
        | none => rw [hp] at hexp; exact absurd hexp (by simp)
        | some w => exact (parseSignedDigits_chars _ _ hp).2
      have he : isNumeralChar e = true := by
        simp only [List.head?_cons, Bool.not_eq_false', Bool.or_eq_true, beq_iff_eq,
          Bool.not_eq_eq_eq_not, Bool.not_false] at hhead
        rcases hhead with hh | hh <;> (rw [hh]; decide)
      split at h
      · exact absurd h (by simp)
      · split at h
        · exact absurd h (by simp)
        · rename_i dValue hparse
          obtain ⟨-, hm⟩ := mantissa_chars _ dValue hparse
          refine ⟨?_, ?_⟩
          · intro hv; rw [hv] at hdrop; simp at hdrop
          · intro c hc
            rw [← hsplit] at hc
            rcases List.mem_append.mp hc with hc | hc
            · exact hm c hc
            · rcases List.mem_cons.mp hc with hc | hc
              · rw [hc]; exact he
              · exact hexpChars c hc

theorem dropWhile_spaces (ws : List Char) (x : Char) (rest : List Char)
    (hws : ∀ c ∈ ws, isSpace c = true) (hx : isSpace x = false) :
    (ws ++ x :: rest).dropWhile isSpace = x :: rest := by
  induction ws with
  | nil => simp [List.dropWhile, hx]
  | cons w ws ih =>
    have hw : isSpace w = true := hws w (List.mem_cons_self _ _)
    simp only [List.cons_append, List.dropWhile, hw]
    exact ih (fun c hc => hws c (List.mem_cons_of_mem _ hc))

/-- `TrimSpace` removes exactly the white space around a text that neither
starts nor ends with white space. -/
theorem TrimSpace_padded (ws1 ws2 : List Char) (x : Char) (core : List Char)
    (h1 : ∀ c ∈ ws1, isSpace c = true) (h2 : ∀ c ∈ ws2, isSpace c = true)
    (hx : isSpace x = false) (hcore : ∀ c ∈ core, isSpace c = false) :
    TrimSpace (ws1 ++ x :: core ++ ws2) = x :: core := by
  unfold TrimSpace
  have e1 : ws1 ++ x :: core ++ ws2 = ws1 ++ x :: (core ++ ws2) := by simp
  rw [e1, dropWhile_spaces ws1 x _ h1 hx]
  have hall : ∀ c ∈ x :: core, isSpace c = false := by
    intro c hc
    rcases List.mem_cons.mp hc with hc | hc
    · rw [hc]; exact hx
    · exact hcore c hc
  have e2 : (x :: (core ++ ws2)).reverse = ws2.reverse ++ (x :: core).reverse := by simp
  rw [e2]
  cases hr : (x :: core).reverse with
  | nil => simp at hr
  | cons l r =>
    have hl : isSpace l = false := by
      apply hall
      rw [← List.mem_reverse, hr]; exact List.mem_cons_self _ _
    rw [dropWhile_spaces ws2.reverse l r
      (fun c hc => h2 c (List.mem_reverse.mp hc)) hl]
    rw [← hr, List.reverse_reverse]

theorem Abs_of_nonneg (d : Decimal) (h : 0 ≤ d.value) : d.Abs = d := by
  unfold Decimal.Abs Decimal.IsNegative Decimal.Sign
  have : ¬ d.value.sign < 0 := by
    have := Int.sign_nonneg.mpr h
    omega
  simp [this]

theorem parseAmount_signed (ws1 ws2 N : String) (n : Decimal)
    (hN : Decimal.NewFromString N.toList = some n) (hnn : 0 ≤ n.value)
    (hw1 : ∀ c ∈ ws1.toList, isSpace c = true) (hw2 : ∀ c ∈ ws2.toList, isSpace c = true) :
    parseAmount (ws1 ++ "+" ++ N ++ ws2) = .ok (n, .Credit) ∧
    parseAmount (ws1 ++ "-" ++ N ++ ws2) = .ok (n, .Debit) := by
  obtain ⟨-, hchars⟩ := NewFromString_chars _ _ hN
  have hplus : (ws1 ++ "+" ++ N ++ ws2).toList = ws1.toList ++ '+' :: N.toList ++ ws2.toList := by
    simp [String.toList, String.data_append]
  have hminus : (ws1 ++ "-" ++ N ++ ws2).toList = ws1.toList ++ '-' :: N.toList ++ ws2.toList := by
    simp [String.toList, String.data_append]
  constructor
  · unfold parseAmount
    simp only [hplus, TrimSpace_padded _ _ '+' _ hw1 hw2 (by decide) hchars, hN,
      Abs_of_nonneg n hnn]
    rfl
  · unfold parseAmount
    simp only [hminus, TrimSpace_padded _ _ '-' _ hw1 hw2 (by decide) hchars, hN,
      Abs_of_nonneg n hnn]
    rfl

theorem dropWhile_all {p : Char → Bool} (l : List Char) (h : ∀ c ∈ l, p c = true) :
    l.dropWhile p = [] := by
  induction l with
  | nil => rfl
  | cons c l ih =>
    simp only [List.dropWhile, h c (List.mem_cons_self _ _)]
    exact ih (fun x hx => h x (List.mem_cons_of_mem _ hx))

theorem dropWhile_until {p : Char → Bool} (l : List Char) (x : Char) (rest : List Char)
    (h : ∀ c ∈ l, p c = true) (hx : p x = false) :
    (l ++ x :: rest).dropWhile p = x :: rest := by
  induction l with
  | nil => simp [List.dropWhile, hx]
  | cons c l ih =>
    simp only [List.cons_append, List.dropWhile, h c (List.mem_cons_self _ _)]
    exact ih (fun y hy => h y (List.mem_cons_of_mem _ hy))

theorem parseSignedDigits_digits (s : List Char) (hne : s ≠ [])
    (hs : ∀ c ∈ s, isDigitChar c = true) :
    parseSignedDigits s = some (digitsValue s : Int) := by
  have hp : parseDigits s = some (digitsValue s) := by
    unfold parseDigits
    have h1 : s.isEmpty = false := by cases s with
      | nil => exact absurd rfl hne
      | cons c r => rfl
    have h2 : s.all isDigitChar = true := List.all_eq_true.mpr hs
    simp [h1, h2, digitsValue]
  unfold parseSignedDigits
  split
  · rename_i rest
    exact absurd (hs '-' (List.mem_cons_self _ _)) (by decide)
  · rename_i rest
    exact absurd (hs '+' (List.mem_cons_self _ _)) (by decide)
  · rw [hp]; rfl

theorem digit_facts (c : Char) (h : isDigitChar c = true) :
    c ≠ '.' ∧ c ≠ 'E' ∧ c ≠ 'e' := by
  refine ⟨?_, ?_, ?_⟩ <;> (intro hc; rw [hc] at h; exact absurd h (by decide))

/-- Plain numerals: `NewFromString` reads a non-empty text of digits as that
integer, and digits around one decimal point as the number they write (the
fraction may not be longer than `2 ^ 31` digits). -/
theorem NewFromString_numeral (a b : List Char)
    (ha : ∀ c ∈ a, isDigitChar c = true) (hb : ∀ c ∈ b, isDigitChar c = true) :
    (a ≠ [] → Decimal.NewFromString a = some ⟨(digitsValue a : Int), 0⟩) ∧
    (a ++ b ≠ [] → b.length ≤ 2 ^ 31 →
      Decimal.NewFromString (a ++ '.' :: b) =
        some ⟨(digitsValue (a ++ b) : Int), -(b.length : Int)⟩) := by
  constructor
  · intro hne
    have hE : a.dropWhile (fun c => !(c == 'E' || c == 'e')) = [] :=
      dropWhile_all a (fun c hc => by
        obtain ⟨-, h2, h3⟩ := digit_facts c (ha c hc); simp [h2, h3])
    have hdot : a.dropWhile (fun c => c != '.') = [] :=
      dropWhile_all a (fun c hc => by
        obtain ⟨h1, -, -⟩ := digit_facts c (ha c hc); simp [h1])
    have hcount : a.count '.' = 0 :=
      List.count_eq_zero.mpr (fun hm => (digit_facts _ (ha _ hm)).1 rfl)
    have hfilter : a.filter (fun c => c != '.') = a :=
      List.filter_eq_self.mpr (fun c hc => by
        obtain ⟨h1, -, -⟩ := digit_facts c (ha c hc); simp [h1])
    unfold Decimal.NewFromString
    simp only [hE, hdot, hcount, hfilter, parseSignedDigits_digits a hne ha]
    norm_num
  · intro hne hlen
    have hall : ∀ c ∈ a ++ '.' :: b, (fun c => !(c == 'E' || c == 'e')) c = true := by
      intro c hc
      rcases List.mem_append.mp hc with hc | hc
      · obtain ⟨-, h2, h3⟩ := digit_facts c (ha c hc); simp [h2, h3]
      · rcases List.mem_cons.mp hc with hc | hc
        · rw [hc]; decide
        · obtain ⟨-, h2, h3⟩ := digit_facts c (hb c hc); simp [h2, h3]
    have hE : (a ++ '.' :: b).dropWhile (fun c => !(c == 'E' || c == 'e')) = [] :=
      dropWhile_all _ hall
    have hdot : (a ++ '.' :: b).dropWhile (fun c => c != '.') = '.' :: b :=
      dropWhile_until a '.' b (fun c hc => by
        obtain ⟨h1, -, -⟩ := digit_facts c (ha c hc); simp [h1]) (by decide)
    have hca : a.count '.' = 0 :=
      List.count_eq_zero.mpr (fun hm => (digit_facts _ (ha _ hm)).1 rfl)
    have hcb : b.count '.' = 0 :=
      List.count_eq_zero.mpr (fun hm => (digit_facts _ (hb _ hm)).1 rfl)
    have hcount : (a ++ '.' :: b).count '.' = 1 := by
      rw [List.count_append, List.count_cons_self, hca, hcb]
    have hfa : a.filter (fun c => c != '.') = a :=
      List.filter_eq_self.mpr (fun c hc => by
        obtain ⟨h1, -, -⟩ := digit_facts c (ha c hc); simp [h1])
    have hfb : b.filter (fun c => c != '.') = b :=
      List.filter_eq_self.mpr (fun c hc => by
        obtain ⟨h1, -, -⟩ := digit_facts c (hb c hc); simp [h1])
    have hfilter : (a ++ '.' :: b).filter (fun c => c != '.') = a ++ b := by
      rw [List.filter_append, List.filter_cons, hfa, hfb]; simp
    have hab : ∀ c ∈ a ++ b, isDigitChar c = true := by
      intro c hc
      rcases List.mem_append.mp hc with hc | hc
      · exact ha c hc
      · exact hb c hc
    unfold Decimal.NewFromString
    simp only [hE, hdot, hcount, hfilter, parseSignedDigits_digits _ hne hab]
    have h1 : ¬ (-(b.length : Int) < -(2 : Int) ^ 31 ∨
        (2 : Int) ^ 31 - 1 < -(b.length : Int)) := by
      have : ((b.length : Nat) : Int) ≤ 2 ^ 31 := by exact_mod_cast hlen
      omega
    simp only [gt_iff_lt, lt_self_iff_false, if_false, zero_sub]
    rw [if_neg h1]

/-- Claim C9. For every id text `strconv.Atoi` accepts, every date text `parseDate`
accepts and every text `N` that `decimal.NewFromString` reads as a non-negative
decimal `n`: `NewTransaction(id, date, "+" + N)` succeeds with Type Credit and
Amount `n`, and `NewTransaction(id, date, "-" + N)` succeeds with Type Debit and
Amount `n`; white space around the amount text does not change the result. -/
theorem C9_signed_amount (now : Time) (id date N ws1 ws2 : String) (i : Int) (d : Time)
    (n : Decimal)
    (hid : Atoi id = some i) (hdate : parseDate now date = .ok d)
    (hN : Decimal.NewFromString N.toList = some n) (hnn : 0 ≤ n.value)
    (hw1 : ∀ c ∈ ws1.toList, isSpace c = true) (hw2 : ∀ c ∈ ws2.toList, isSpace c = true) :
    NewTransaction now id date (ws1 ++ "+" ++ N ++ ws2) =
      .ok { ID := i, Date := d, Amount := n, Type_ := .Credit } ∧
    NewTransaction now id date (ws1 ++ "-" ++ N ++ ws2) =
      .ok { ID := i, Date := d, Amount := n, Type_ := .Debit } := by
  obtain ⟨hc, hd⟩ := parseAmount_signed ws1 ws2 N n hN hnn hw1 hw2
  unfold NewTransaction
  simp only [hid, hdate, hc, hd, and_self]

theorem C9_signed_amount_witness :
    Atoi "1" = some 1 ∧ parseDate exampleNow "7/15" = .ok ⟨2024, .July, 15⟩ ∧
    Decimal.NewFromString "60.5".toList = some ⟨605, -1⟩ ∧
    NewTransaction exampleNow "1" "7/15" ("" ++ "+" ++ "60.5" ++ "") =
      .ok { ID := 1, Date := ⟨2024, .July, 15⟩, Amount := ⟨605, -1⟩, Type_ := .Credit } ∧
    NewTransaction exampleNow "2" "8/2" ("" ++ "-" ++ "20.46" ++ "") =
      .ok { ID := 2, Date := ⟨2024, .August, 2⟩, Amount := ⟨2046, -2⟩, Type_ := .Debit } ∧
    NewTransaction exampleNow "1" "7/15" (" " ++ "-" ++ "60.5" ++ "\t") =
      .ok { ID := 1, Date := ⟨2024, .July, 15⟩, Amount := ⟨605, -1⟩, Type_ := .Debit } :=
  ⟨by decide, by decide, by decide,
    (C9_signed_amount exampleNow "1" "7/15" "60.5" "" "" 1 ⟨2024, .July, 15⟩ ⟨605, -1⟩
      (by decide) (by decide) (by decide) (by decide) (by decide) (by decide)).1,
    (C9_signed_amount exampleNow "2" "8/2" "20.46" "" "" 2 ⟨2024, .August, 2⟩ ⟨2046, -2⟩
      (by decide) (by decide) (by decide) (by decide) (by decide) (by decide)).2,
    (C9_signed_amount exampleNow "1" "7/15" "60.5" " " "\t" 1 ⟨2024, .July, 15⟩ ⟨605, -1⟩
      (by decide) (by decide) (by decide) (by decide) (by decide) (by decide)).2⟩

/-- Claim C10. For every id text `strconv.Atoi` accepts and every date text
`parseDate` accepts, an amount text that after trimming white space is empty, or
whose first character is neither `+` nor `-`, makes `NewTransaction` return no
transaction and the error ErrInvalidAmount. -/
theorem C10_missing_sign (now : Time) (id date amount : String) (i : Int) (d : Time)
    (hid : Atoi id = some i) (hdate : parseDate now date = .ok d)
    (h : TrimSpace amount.toList = [] ∨
      ((TrimSpace amount.toList).head? ≠ some '+' ∧
        (TrimSpace amount.toList).head? ≠ some '-')) :
    NewTransaction now id date amount = .error .ErrInvalidAmount := by
  have hp : parseAmount amount = .error .ErrInvalidAmount := by
    unfold parseAmount
    rcases h with h | ⟨h1, h2⟩
    · rw [h]; rfl
    · cases ht : TrimSpace amount.toList with
      | nil => simp
      | cons c rest =>
        rw [ht] at h1 h2
        simp only [List.head?_cons, ne_eq, Option.some.injEq] at h1 h2
        simp only [List.isEmpty_cons, Bool.false_eq_true, if_false]
        split
        · rename_i heq
          split at heq
          · rename_i hc; simp only [List.cons.injEq] at hc; exact absurd hc.1 h1
          · rename_i hc; simp only [List.cons.injEq] at hc; exact absurd hc.1 h2
          · rfl
        · rename_i heq
          split at heq
          · rename_i hc; simp only [List.cons.injEq] at hc; exact absurd hc.1 h1
          · rename_i hc; simp only [List.cons.injEq] at hc; exact absurd hc.1 h2
          · exact absurd heq (by simp)
  unfold NewTransaction
  simp only [hid, hdate, hp]

theorem C10_missing_sign_witness :
    NewTransaction exampleNow "1" "7/15" "60.5" = .error .ErrInvalidAmount ∧
    NewTransaction exampleNow "1" "7/15" "invalid" = .error .ErrInvalidAmount ∧
    NewTransaction exampleNow "1" "7/15" "  " = .error .ErrInvalidAmount :=
  ⟨C10_missing_sign exampleNow "1" "7/15" "60.5" 1 ⟨2024, .July, 15⟩ (by decide) (by decide)
      (Or.inr ⟨by decide, by decide⟩),
    C10_missing_sign exampleNow "1" "7/15" "invalid" 1 ⟨2024, .July, 15⟩ (by decide) (by decide)
      (Or.inr ⟨by decide, by decide⟩),
    C10_missing_sign exampleNow "1" "7/15" "  " 1 ⟨2024, .July, 15⟩ (by decide) (by decide)
      (Or.inl (by decide))⟩

/-! ## The remainder of the amount text -/

theorem Abs_value_nonneg (d : Decimal) : 0 ≤ d.Abs.value := by
  unfold Decimal.Abs Decimal.IsNegative Decimal.Sign
  by_cases h : d.value.sign < 0
  · simp [h]
  · have : 0 ≤ d.value := by
      by_contra hc
      have := Int.sign_eq_neg_one_of_neg (show d.value < 0 by omega)
      omega
    simp [h, this]

theorem toRat_nonneg_of_value (d : Decimal) (h : 0 ≤ d.value) : 0 ≤ d.toRat := by
  unfold Decimal.toRat
  have h1 : (0 : ℚ) ≤ (d.value : ℚ) := by exact_mod_cast h
  have h2 : (0 : ℚ) < (10 : ℚ) ^ d.exp := zpow_pos (by norm_num) _
  exact mul_nonneg h1 (le_of_lt h2)

/-- What a successful `parseAmount` has read. -/
theorem parseAmount_ok (amount : String) (a : Decimal) (ty : TransactionType)
    (h : parseAmount amount = .ok (a, ty)) :
    ∃ rest x, Decimal.NewFromString rest = some x ∧ a = x.Abs ∧
      ((TrimSpace amount.toList = '+' :: rest ∧ ty = .Credit) ∨
        (TrimSpace amount.toList = '-' :: rest ∧ ty = .Debit)) := by
  unfold parseAmount at h
  cases ht : TrimSpace amount.toList with
  | nil => rw [ht] at h; exact absurd h (by simp)
  | cons c rest =>
    rw [ht] at h
    simp only [List.isEmpty_cons, Bool.false_eq_true, if_false] at h
    by_cases hp : c = '+'
    · subst hp
      simp only at h
      cases hx : Decimal.NewFromString rest with
      | none => rw [hx] at h; exact absurd h (by simp)
      | some x =>
        rw [hx] at h
        simp only [Except.ok.injEq, Prod.mk.injEq] at h
        exact ⟨rest, x, hx, h.1.symm, Or.inl ⟨rfl, h.2.symm⟩⟩
    · by_cases hm : c = '-'
      · subst hm
        simp only at h
        cases hx : Decimal.NewFromString rest with
        | none => rw [hx] at h; exact absurd h (by simp)
        | some x =>
          rw [hx] at h
          simp only [Except.ok.injEq, Prod.mk.injEq] at h
          exact ⟨rest, x, hx, h.1.symm, Or.inr ⟨rfl, h.2.symm⟩⟩
      · exfalso
        split at h
        · exact absurd h (by simp)
        · rename_i heq
          split at heq
          · rename_i hc; simp only [List.cons.injEq] at hc; exact hp hc.1
          · rename_i hc; simp only [List.cons.injEq] at hc; exact hm hc.1
          · exact absurd heq (by simp)

/-- The amount text is a sign followed by a remainder `NewFromString` rejects. -/
theorem parseAmount_bad_remainder (amount : String) (sign : Char) (rest : List Char)
    (ht : TrimSpace amount.toList = sign :: rest) (hs : sign = '+' ∨ sign = '-')
    (hN : Decimal.NewFromString rest = none) :
    parseAmount amount = .error .ErrInvalidAmount := by
  unfold parseAmount
  rw [ht]
  rcases hs with hs | hs <;> subst hs <;> simp [hN]

/-- The amount text is a sign followed by a text `NewFromString` accepts. -/
theorem parseAmount_remainder (N : String) (n : Decimal)
    (hN : Decimal.NewFromString N.toList = some n) :
    parseAmount ("+" ++ N) = .ok (n.Abs, .Credit) ∧
    parseAmount ("-" ++ N) = .ok (n.Abs, .Debit) := by
  obtain ⟨-, hchars⟩ := NewFromString_chars _ _ hN
  have hplus : ("+" ++ N).toList = [] ++ '+' :: N.toList ++ [] := by
    simp [String.toList, String.data_append]
  have hminus : ("-" ++ N).toList = [] ++ '-' :: N.toList ++ [] := by
    simp [String.toList, String.data_append]
  have hnil : ∀ c ∈ ([] : List Char), isSpace c = true := by simp
  constructor
  · unfold parseAmount
    simp only [hplus, TrimSpace_padded _ _ '+' _ hnil hnil (by decide) hchars, hN]
    rfl
  · unfold parseAmount
    simp only [hminus, TrimSpace_padded _ _ '-' _ hnil hnil (by decide) hchars, hN]
    rfl

/-- Claim C11, as stated, fails: the remainder "-5" of the amount texts "+-5"
and "--5" is a negative numeral (`NewFromString` reads it as -5), and both texts
are accepted, as Credit 5 and as Debit 5. -/
theorem C11_counterexample :
    Atoi "1" = some 1 ∧ parseDate exampleNow "7/15" = .ok ⟨2024, .July, 15⟩ ∧
    Decimal.NewFromString "-5".toList = some ⟨-5, 0⟩ ∧
    NewTransaction exampleNow "1" "7/15" "+-5" =
      .ok { ID := 1, Date := ⟨2024, .July, 15⟩, Amount := ⟨5, 0⟩, Type_ := .Credit } ∧
    NewTransaction exampleNow "1" "7/15" "--5" =
      .ok { ID := 1, Date := ⟨2024, .July, 15⟩, Amount := ⟨5, 0⟩, Type_ := .Debit } :=
  ⟨by decide, by decide, by decide, by decide, by decide⟩

/-- Claim C11, amended. For every id text `strconv.Atoi` accepts and every date
text `parseDate` accepts: an amount text whose remainder after the leading `+`
or `-` is rejected by `decimal.NewFromString` (it is not a decimal) makes
`NewTransaction` fail with ErrInvalidAmount; a remainder `NewFromString` accepts,
a signed or negative numeral included, makes it succeed with the absolute value
as Amount and the Type of the first sign. -/
theorem C11_remainder (now : Time) (id date : String) (i : Int) (d : Time)
    (hid : Atoi id = some i) (hdate : parseDate now date = .ok d) :
    (∀ (amount : String) (sign : Char) (rest : List Char),
      TrimSpace amount.toList = sign :: rest → (sign = '+' ∨ sign = '-') →
      Decimal.NewFromString rest = none →
      NewTransaction now id date amount = .error .ErrInvalidAmount) ∧
    (∀ (N : String) (n : Decimal), Decimal.NewFromString N.toList = some n →
      NewTransaction now id date ("+" ++ N) =
        .ok { ID := i, Date := d, Amount := n.Abs, Type_ := .Credit } ∧
      NewTransaction now id date ("-" ++ N) =
        .ok { ID := i, Date := d, Amount := n.Abs, Type_ := .Debit }) := by
  constructor
  · intro amount sign rest ht hs hN
    unfold NewTransaction
    simp only [hid, hdate, parseAmount_bad_remainder amount sign rest ht hs hN]
  · intro N n hN
    obtain ⟨hc, hd⟩ := parseAmount_remainder N n hN
    unfold NewTransaction
    simp only [hid, hdate, hc, hd, and_self]

theorem C11_remainder_witness :
    Atoi "1" = some 1 ∧ parseDate exampleNow "7/15" = .ok ⟨2024, .July, 15⟩ ∧
    NewTransaction exampleNow "1" "7/15" "+abc" = .error .ErrInvalidAmount ∧
    NewTransaction exampleNow "1" "7/15" "-1.2.3" = .error .ErrInvalidAmount ∧
    NewTransaction exampleNow "1" "7/15" ("+" ++ "-5") =
      .ok { ID := 1, Date := ⟨2024, .July, 15⟩, Amount := Decimal.Abs ⟨-5, 0⟩,
            Type_ := .Credit } :=
  ⟨by decide, by decide,
    (C11_remainder exampleNow "1" "7/15" 1 ⟨2024, .July, 15⟩ (by decide) (by decide)).1
      "+abc" '+' "abc".toList (by decide) (Or.inl rfl) (by decide),
    (C11_remainder exampleNow "1" "7/15" 1 ⟨2024, .July, 15⟩ (by decide) (by decide)).1
      "-1.2.3" '-' "1.2.3".toList (by decide) (Or.inr rfl) (by decide),
    ((C11_remainder exampleNow "1" "7/15" 1 ⟨2024, .July, 15⟩ (by decide) (by decide)).2
      "-5" ⟨-5, 0⟩ (by decide)).1⟩

/-- Claim C12. Every Transaction a successful `NewTransaction` returns, whatever
the three texts, has a non-negative Amount (non-negative value, hence a
non-negative number, `IsNegative` false); its Type is Credit exactly when the
trimmed amount text starts with `+` and Debit exactly when it starts with `-`. -/
theorem C12_amount_nonneg (now : Time) (id date amount : String) (t : Transaction)
    (h : NewTransaction now id date amount = .ok t) :
    0 ≤ t.Amount.value ∧ 0 ≤ t.Amount.toRat ∧ t.Amount.IsNegative = false ∧
    (t.Type_ = .Credit ↔ (TrimSpace amount.toList).head? = some '+') ∧
    (t.Type_ = .Debit ↔ (TrimSpace amount.toList).head? = some '-') := by
  unfold NewTransaction at h
  cases hid : Atoi id with
  | none => rw [hid] at h; exact absurd h (by simp)
  | some i =>
    rw [hid] at h
    cases hd : parseDate now date with
    | error e => rw [hd] at h; exact absurd h (by simp)
    | ok d =>
      rw [hd] at h
      cases hp : parseAmount amount with
      | error e => rw [hp] at h; exact absurd h (by simp)
      | ok r =>
        obtain ⟨a, ty⟩ := r
        rw [hp] at h
        simp only [Except.ok.injEq] at h
        subst h
        obtain ⟨rest, x, -, ha, hsign⟩ := parseAmount_ok amount a ty hp
        have hv : 0 ≤ a.value := by rw [ha]; exact Abs_value_nonneg x
        refine ⟨hv, toRat_nonneg_of_value a hv, ?_, ?_, ?_⟩
        · show a.IsNegative = false
          unfold Decimal.IsNegative Decimal.Sign
          have := Int.sign_nonneg.mpr hv
          simp only [decide_eq_false_iff_not]; omega
        · show ty = .Credit ↔ _
          rcases hsign with ⟨ht, hty⟩ | ⟨ht, hty⟩
          · rw [ht, hty]; simp
          · rw [ht, hty]; simp
        · show ty = .Debit ↔ _
          rcases hsign with ⟨ht, hty⟩ | ⟨ht, hty⟩
          · rw [ht, hty]; simp
          · rw [ht, hty]; simp

theorem C12_amount_nonneg_witness :
    NewTransaction exampleNow "2" "8/2" "-20.46" =
      .ok { ID := 2, Date := ⟨2024, .August, 2⟩, Amount := ⟨2046, -2⟩, Type_ := .Debit } ∧
    (0 : Int) ≤ (Decimal.mk 2046 (-2)).value ∧ 0 ≤ (Decimal.mk 2046 (-2)).toRat :=
  ⟨by decide,
    (C12_amount_nonneg exampleNow "2" "8/2" "-20.46"
      { ID := 2, Date := ⟨2024, .August, 2⟩, Amount := ⟨2046, -2⟩, Type_ := .Debit }
      (by decide)).1,
    (C12_amount_nonneg exampleNow "2" "8/2" "-20.46"
      { ID := 2, Date := ⟨2024, .August, 2⟩, Amount := ⟨2046, -2⟩, Type_ := .Debit }
      (by decide)).2.1⟩

/-! ## The transaction ID -/

theorem parseDigits_iff (r : List Char) (n : Nat) :
    parseDigits r = some n ↔
      r ≠ [] ∧ (∀ c ∈ r, isDigitChar c = true) ∧ n = digitsValue r := by
  constructor
  · intro h
    obtain ⟨h1, h2⟩ := parseDigits_chars r n h
    refine ⟨h1, h2, ?_⟩
    unfold parseDigits at h
    have hc : ¬ (r.isEmpty || !r.all isDigitChar) = true := by
      intro hc; rw [if_pos hc] at h; exact absurd h (by simp)
    rw [if_neg hc] at h
    simp only [Option.some.injEq] at h
    exact h.symm
  · rintro ⟨h1, h2, h3⟩
    unfold parseDigits
    have e1 : r.isEmpty = false := by
      cases r with
      | nil => exact absurd rfl h1
      | cons c r => rfl
    have e2 : r.all isDigitChar = true := List.all_eq_true.mpr h2
    simp [e1, e2, h3, digitsValue]

theorem parseSignedDigits_iff (s : List Char) (v : Int) :
    parseSignedDigits s = some v ↔
      ∃ digits, digits ≠ [] ∧ (∀ c ∈ digits, isDigitChar c = true) ∧
        (((s = digits ∨ s = '+' :: digits) ∧ v = (digitsValue digits : Int)) ∨
          (s = '-' :: digits ∧ v = -(digitsValue digits : Int))) := by
  have hmap : ∀ (r : List Char) (f : Nat → Int) (w : Int),
      (parseDigits r).map f = some w ↔ ∃ n, parseDigits r = some n ∧ w = f n := by
    intro r f w
    cases hp : parseDigits r with
    | none => simp
    | some n => simp [eq_comm]
  constructor
  · intro h
    unfold parseSignedDigits at h
    split at h
    · rename_i rest
      obtain ⟨n, hn, hw⟩ := (hmap _ _ _).mp h
      obtain ⟨h1, h2, h3⟩ := (parseDigits_iff _ _).mp hn
      exact ⟨rest, h1, h2, Or.inr ⟨rfl, by rw [hw, h3]⟩⟩
    · rename_i rest
      obtain ⟨n, hn, hw⟩ := (hmap _ _ _).mp h
      obtain ⟨h1, h2, h3⟩ := (parseDigits_iff _ _).mp hn
      exact ⟨rest, h1, h2, Or.inl ⟨Or.inr rfl, by rw [hw, h3]⟩⟩
    · obtain ⟨n, hn, hw⟩ := (hmap _ _ _).mp h
      obtain ⟨h1, h2, h3⟩ := (parseDigits_iff _ _).mp hn
      exact ⟨s, h1, h2, Or.inl ⟨Or.inl rfl, by rw [hw, h3]⟩⟩
  · rintro ⟨digits, h1, h2, h⟩
    have hp : parseDigits digits = some (digitsValue digits) :=
      (parseDigits_iff _ _).mpr ⟨h1, h2, rfl⟩
    rcases h with ⟨hs | hs, hv⟩ | ⟨hs, hv⟩
    · rw [hs, hv]; exact parseSignedDigits_digits digits h1 h2
    · rw [hs, hv]; simp [parseSignedDigits, hp]
    · rw [hs, hv]; simp [parseSignedDigits, hp]

theorem Atoi_iff (id : String) (i : Int) :
    Atoi id = some i ↔ writesInt id.toList i := by
  unfold Atoi ParseInt writesInt
  constructor
  · intro h
    cases hp : parseSignedDigits id.toList with
    | none => rw [hp] at h; exact absurd h (by simp)
    | some v =>
      rw [hp] at h
      simp only at h
      by_cases hr : -(2 : Int) ^ (64 - 1) ≤ v ∧ v ≤ (2 : Int) ^ (64 - 1) - 1
      · rw [if_pos hr] at h
        simp only [Option.some.injEq] at h
        subst h
        obtain ⟨digits, h1, h2, h3⟩ := (parseSignedDigits_iff _ _).mp hp
        exact ⟨digits, h1, h2, h3, by simpa using hr.1, by simpa using hr.2⟩
      · rw [if_neg hr] at h; exact absurd h (by simp)
  · rintro ⟨digits, h1, h2, h3, h4, h5⟩
    have hp := (parseSignedDigits_iff id.toList i).mpr ⟨digits, h1, h2, h3⟩
    rw [hp]
    have hr : -(2 : Int) ^ (64 - 1) ≤ i ∧ i ≤ (2 : Int) ^ (64 - 1) - 1 := by
      constructor
      · simpa using h4
      · simpa using h5
    simp only [hr, and_self, if_true]

/-- Claim C13. The id text parses, with `strconv.Atoi`, exactly when it writes
an integer in base 10 (an optional sign, then digits) that fits a Go `int`; for
all date and amount texts `NewTransaction` returns ErrInvalidTransactionID (and
no transaction) if and only if the id text does not parse; and a transaction
`NewTransaction` returns has as ID the integer the id text writes. -/
theorem C13_transaction_id :
    (∀ (id : String) (i : Int), Atoi id = some i ↔ writesInt id.toList i) ∧
    (∀ (now : Time) (id date amount : String),
      NewTransaction now id date amount = .error .ErrInvalidTransactionID ↔
        ¬ ∃ i, writesInt id.toList i) ∧
    (∀ (now : Time) (id date amount : String) (t : Transaction),
      NewTransaction now id date amount = .ok t → writesInt id.toList t.ID) := by
  refine ⟨Atoi_iff, ?_, ?_⟩
  · intro now id date amount
    unfold NewTransaction
    cases hid : Atoi id with
    | none =>
      simp only [true_iff]
      rintro ⟨i, hi⟩
      rw [(Atoi_iff id i).mpr hi] at hid
      exact absurd hid (by simp)
    | some i =>
      have hw : ∃ i, writesInt id.toList i := ⟨i, (Atoi_iff id i).mp hid⟩
      simp only [hw, not_true_eq_false, iff_false]
      cases parseDate now date with
      | error e => simp
      | ok d =>
        cases parseAmount amount with
        | error e => simp
        | ok r => simp
  · intro now id date amount t h
    unfold NewTransaction at h
    cases hid : Atoi id with
    | none => rw [hid] at h; exact absurd h (by simp)
    | some i =>
      rw [hid] at h
      cases hd : parseDate now date with
      | error e => rw [hd] at h; exact absurd h (by simp)
      | ok d =>
        rw [hd] at h
        cases hp : parseAmount amount with
        | error e => rw [hp] at h; exact absurd h (by simp)
        | ok r =>
          rw [hp] at h
          simp only [Except.ok.injEq] at h
          subst h
          exact (Atoi_iff id i).mp hid

theorem C13_transaction_id_witness :
    NewTransaction exampleNow "invalid" "7/15" "+60.5" = .error .ErrInvalidTransactionID ∧
    NewTransaction exampleNow "" "not a date" "no amount" = .error .ErrInvalidTransactionID ∧
    writesInt "-42".toList (-42) ∧
    NewTransaction exampleNow "-42" "7/15" "+60.5" =
      .ok { ID := -42, Date := ⟨2024, .July, 15⟩, Amount := ⟨605, -1⟩, Type_ := .Credit } :=
  ⟨by decide, by decide, (C13_transaction_id.1 "-42" (-42)).mp (by decide), by decide⟩

/-! ## The date text -/

theorem parseDateLoop_error_iff (now : Time) (s : List Char)
    (fs : List (List (List Char × Std))) (e : DomainError) :
    parseDateLoop now s fs = .error e ↔
      e = .ErrInvalidDate ∧ ∀ f ∈ fs, timeParse f s = none := by
  induction fs with
  | nil => simp [parseDateLoop, eq_comm]
  | cons f fs ih =>
    unfold parseDateLoop
    cases hf : timeParse f s with
    | none => simp only [ih, List.mem_cons, forall_eq_or_imp, hf, true_and]
    | some t =>
      have hne : ¬ ∀ g ∈ f :: fs, timeParse g s = none := by
        intro h
        have := h f (List.mem_cons_self _ _)
        rw [hf] at this
        exact absurd this (by simp)
      simp only [hne, and_false, iff_false]
      by_cases hy : t.year = 0 <;> simp [hy]

theorem parseDateLoop_first (now : Time) (s : List Char)
    (pre : List (List (List Char × Std))) (f : List (List Char × Std))
    (post : List (List (List Char × Std))) (t : Time)
    (hpre : ∀ g ∈ pre, timeParse g s = none) (hf : timeParse f s = some t) :
    parseDateLoop now s (pre ++ f :: post) =
      .ok (if t.year = 0 then Date now.year t.month t.day else t) := by
  induction pre with
  | nil =>
    simp only [List.nil_append, parseDateLoop, hf]
    by_cases hy : t.year = 0 <;> simp [hy]
  | cons g pre ih =>
    have hg : timeParse g s = none := hpre g (List.mem_cons_self _ _)
    simp only [List.cons_append, parseDateLoop, hg]
    exact ih (fun x hx => hpre x (List.mem_cons_of_mem _ hx))

/-- Claim C14. `parseDate` tries the layouts month/day, month/day/2-digit year,
month/day/4-digit year and ISO year-month-day in that order: the first layout
that parses the text gives the date returned (with the current year put in
when the parsed year is 0), and `parseDate` fails, with ErrInvalidDate, if and
only if none of the four layouts parses the text. "7/2" is read as month 7,
day 2 and "invalid-date" is rejected. -/
theorem C14_parse_date_order :
    formats =
      [ [([], .stdNumMonth), (['/'], .stdDay)],
        [([], .stdNumMonth), (['/'], .stdDay), (['/'], .stdYear)],
        [([], .stdNumMonth), (['/'], .stdDay), (['/'], .stdLongYear)],
        [([], .stdLongYear), (['-'], .stdZeroMonth), (['-'], .stdZeroDay)] ] ∧
    (∀ (now : Time) (dateStr : String) (pre : List (List (List Char × Std)))
        (f : List (List Char × Std)) (post : List (List (List Char × Std))) (t : Time),
      formats = pre ++ f :: post →
      (∀ g ∈ pre, timeParse g dateStr.toList = none) →
      timeParse f dateStr.toList = some t →
      parseDate now dateStr =
        .ok (if t.year = 0 then Date now.year t.month t.day else t)) ∧
    (∀ (now : Time) (dateStr : String) (e : DomainError),
      parseDate now dateStr = .error e ↔
        e = .ErrInvalidDate ∧ ∀ f ∈ formats, timeParse f dateStr.toList = none) ∧
    (∀ now : Time, parseDate now "7/2" = .ok ⟨now.year, .July, 2⟩) ∧
    (∀ now : Time, parseDate now "invalid-date" = .error .ErrInvalidDate) := by
  refine ⟨rfl, ?_, ?_, ?_, ?_⟩
  · intro now dateStr pre f post t hformats hpre hf
    unfold parseDate
    rw [hformats]
    exact parseDateLoop_first now _ pre f post t hpre hf
  · intro now dateStr e
    exact parseDateLoop_error_iff now _ formats e
  · intro now
    have h := parseDateLoop_first now "7/2".toList []
      [([], .stdNumMonth), (['/'], .stdDay)]
      [ [([], .stdNumMonth), (['/'], .stdDay), (['/'], .stdYear)],
        [([], .stdNumMonth), (['/'], .stdDay), (['/'], .stdLongYear)],
        [([], .stdLongYear), (['-'], .stdZeroMonth), (['-'], .stdZeroDay)] ]
      ⟨0, .July, 2⟩ (by simp) (by decide)
    unfold parseDate
    rw [show formats = [] ++ [([], Std.stdNumMonth), (['/'], Std.stdDay)] :: _ from rfl, h]
    simp [Date, dateCarry, daysIn]
  · intro now
    exact (parseDateLoop_error_iff now _ formats .ErrInvalidDate).mpr ⟨rfl, by decide⟩

theorem C14_parse_date_order_witness :
    timeParse [([], .stdNumMonth), (['/'], .stdDay)] "7/15/24".toList = none ∧
    timeParse [([], .stdNumMonth), (['/'], .stdDay), (['/'], .stdYear)] "7/15/24".toList =
      some ⟨2024, .July, 15⟩ ∧
    parseDate ⟨1999, .January, 1⟩ "7/15/24" = .ok ⟨2024, .July, 15⟩ := by
  have h := C14_parse_date_order.2.1 ⟨1999, .January, 1⟩ "7/15/24"
    [[([], .stdNumMonth), (['/'], .stdDay)]]
    [([], .stdNumMonth), (['/'], .stdDay), (['/'], .stdYear)]
    [ [([], .stdNumMonth), (['/'], .stdDay), (['/'], .stdLongYear)],
      [([], .stdLongYear), (['-'], .stdZeroMonth), (['-'], .stdZeroDay)] ]
    ⟨2024, .July, 15⟩ rfl (by decide) (by decide)
  exact ⟨by decide, by decide, h⟩

/-- A month or day element leaves the year collected so far unchanged. -/
theorem parseChunk_year (f f1 : ParseFields) (value value1 pre : List Char) (std : Std)
    (hstd : std = .stdNumMonth ∨ std = .stdDay)
    (h : parseChunk f value pre std = some (f1, value1)) : f1.year = f.year := by
  unfold parseChunk at h
  cases hs : skip value pre with
  | none => rw [hs] at h; exact absurd h (by simp)
  | some v =>
    rw [hs] at h
    rcases hstd with hstd | hstd <;> subst hstd <;> simp only at h
    · cases hg : getnum v (decide (Std.stdNumMonth = Std.stdZeroMonth)) with
      | none => rw [hg] at h; exact absurd h (by simp)
      | some r =>
        obtain ⟨month, rest⟩ := r
        rw [hg] at h
        simp only at h
        split at h
        · exact absurd h (by simp)
        · simp only [Option.some.injEq, Prod.mk.injEq] at h
          rw [← h.1]
    · cases hg : getnum v (decide (Std.stdDay = Std.stdZeroDay)) with
      | none => rw [hg] at h; exact absurd h (by simp)
      | some r =>
        obtain ⟨day, rest⟩ := r
        rw [hg] at h
        simp only [Option.some.injEq, Prod.mk.injEq] at h
        rw [← h.1]

theorem Date_of_le (year : Int) (month : Month) (day : Nat) (h1 : 1 ≤ day)
    (h2 : day ≤ daysIn month year) : Date year month day = ⟨year, month, day⟩ := by
  unfold Date
  obtain ⟨k, rfl⟩ : ∃ k, day = k + 1 := ⟨day - 1, by omega⟩
  simp [dateCarry, h2]

/-- A date the layout month/day gives has year 0, a day from 1 to the length of
the month in a leap year. -/
theorem timeParse_month_day (s : List Char) (t : Time)
    (h : timeParse [([], .stdNumMonth), (['/'], .stdDay)] s = some t) :
    t.year = 0 ∧ 1 ≤ t.day ∧ t.day ≤ daysIn t.month 0 := by
  unfold timeParse at h
  cases hp : parseChunks ⟨0, -1, -1⟩ s [([], .stdNumMonth), (['/'], .stdDay)] with
  | none => rw [hp] at h; exact absurd h (by simp)
  | some r =>
    obtain ⟨f, rest⟩ := r
    rw [hp] at h
    have hyear : f.year = 0 := by
      simp only [parseChunks] at hp
      cases h1 : parseChunk ⟨0, -1, -1⟩ s [] .stdNumMonth with
      | none => rw [h1] at hp; exact absurd hp (by simp)
      | some r1 =>
        obtain ⟨f1, v1⟩ := r1
        rw [h1] at hp
        simp only at hp
        cases h2 : parseChunk f1 v1 ['/'] .stdDay with
        | none => rw [h2] at hp; exact absurd hp (by simp)
        | some r2 =>
          obtain ⟨f2, v2⟩ := r2
          rw [h2] at hp
          simp only [Option.some.injEq, Prod.mk.injEq] at hp
          rw [← hp.1, parseChunk_year f1 f2 v1 v2 _ _ (Or.inr rfl) h2,
            parseChunk_year _ f1 s v1 _ _ (Or.inl rfl) h1]
    simp only at h
    by_cases hrest : rest.length ≠ 0
    · rw [if_pos hrest] at h; exact absurd h (by simp)
    · rw [if_neg hrest] at h
      generalize (if f.day < 0 then 1 else f.day) = day at h
      cases hm : Month.ofInt (if f.month < 0 then 1 else f.month) with
      | none => rw [hm] at h; exact absurd h (by simp)
      | some m =>
        rw [hm] at h
        simp only at h
        by_cases hday : day < 1 ∨ day > (daysIn m f.year : Int)
        · rw [if_pos hday] at h; exact absurd h (by simp)
        · rw [if_neg hday] at h
          simp only [Option.some.injEq] at h
          rw [hyear] at h hday
          have hd1 : 1 ≤ day.toNat := by omega
          have hd2 : day.toNat ≤ daysIn m 0 := by omega
          rw [Date_of_le 0 m _ hd1 hd2] at h
          rw [← h]
          exact ⟨rfl, hd1, hd2⟩

/-- The month/day texts for which C15 holds: `parseDate` returns the year of
`now` with the month and day of the text for every accepted month/day text,
except for 29 February when the year of `now` is not a leap year. -/
theorem parseDate_month_day (now : Time) (dateStr : String) (t : Time)
    (h : timeParse [([], .stdNumMonth), (['/'], .stdDay)] dateStr.toList = some t)
    (hfeb : ¬ (t.month = .February ∧ t.day = 29 ∧ isLeap now.year = false)) :
    parseDate now dateStr = .ok ⟨now.year, t.month, t.day⟩ := by
  obtain ⟨hy, hd1, hd2⟩ := timeParse_month_day _ t h
  have hp := parseDateLoop_first now dateStr.toList [] _
    [ [([], .stdNumMonth), (['/'], .stdDay), (['/'], .stdYear)],
      [([], .stdNumMonth), (['/'], .stdDay), (['/'], .stdLongYear)],
      [([], .stdLongYear), (['-'], .stdZeroMonth), (['-'], .stdZeroDay)] ] t (by simp) h
  unfold parseDate
  rw [show formats = [] ++ [([], Std.stdNumMonth), (['/'], Std.stdDay)] :: _ from rfl, hp]
  simp only [hy, if_true]
  have hle : t.day ≤ daysIn t.month now.year := by
    have h0 : isLeap 0 = true := by decide
    unfold daysIn at hd2 ⊢
    cases hm : t.month <;> simp only [hm, h0, if_true] at hd2 ⊢ <;> try exact hd2
    by_cases hl : isLeap now.year = true
    · simp only [hl, if_true]; exact hd2
    · simp only [hl, Bool.false_eq_true, if_false]
      have : isLeap now.year = false := by simpa using hl
      have : t.day ≠ 29 := fun h29 => hfeb ⟨hm, h29, this⟩
      omega
  rw [Date_of_le _ _ _ hd1 hle]

/-- Claim C15, the failing input. With 2023 as current year the date text
"2/29" is accepted, and the date returned is 1 March 2023: the month and the day
are not those of the text, and MonthYear() is "March 2023". -/
theorem C15_feb29_in_common_year :
    isLeap 2023 = false ∧
    timeParse [([], .stdNumMonth), (['/'], .stdDay)] "2/29".toList =
      some ⟨0, .February, 29⟩ ∧
    parseDate ⟨2023, .March, 5⟩ "2/29" = .ok ⟨2023, .March, 1⟩ ∧
    NewTransaction ⟨2023, .March, 5⟩ "1" "2/29" "+5" =
      .ok { ID := 1, Date := ⟨2023, .March, 1⟩, Amount := ⟨5, 0⟩, Type_ := .Credit } ∧
    (Transaction.mk 1 ⟨2023, .March, 1⟩ ⟨5, 0⟩ .Credit).MonthYear = "March 2023" :=
  ⟨by decide, by decide, by decide, by decide, by decide⟩

/-! ## ProcessFile -/

theorem processLoop_eq (now : Time) (ctx : Nat → Option ContextError) (k : Nat)
    (reader : List ReadResult) (transactions : List Transaction) :
    processLoop now ctx k reader transactions =
      match ctx k with
      | some e => ⟨[], some (.context e), reader⟩
      | none =>
        match reader with
        | [] => ⟨transactions, none, []⟩
        | r :: reader =>
          match acceptedRow now r with
          | none => processLoop now ctx (k + 1) reader transactions
          | some transaction =>
            processLoop now ctx (k + 1) reader (transactions ++ [transaction]) := by
  cases reader with
  | nil => rw [processLoop]
  | cons r reader =>
    have hcons : processLoop now ctx k (r :: reader) transactions =
        match ctx k with
        | some e => ⟨[], some (.context e), r :: reader⟩
        | none =>
          match r with
          | .err _ => processLoop now ctx (k + 1) reader transactions
          | .record record =>
            if record.length ≠ 3 then processLoop now ctx (k + 1) reader transactions
            else
              match recordTransaction now record with
              | none => processLoop now ctx (k + 1) reader transactions
              | some transaction =>
                processLoop now ctx (k + 1) reader (transactions ++ [transaction]) := rfl
    rw [hcons]
    cases ctx k with
    | some e => rfl
    | none =>
      cases r with
      | err e => rfl
      | record record =>
        simp only [acceptedRow]
        by_cases hl : record.length ≠ 3
        · rw [if_pos hl]
          have : recordTransaction now record = none := by
            unfold recordTransaction
            split
            · exact absurd rfl hl
            · rfl
          rw [this]
        · rw [if_neg hl]

/-- Without cancellation the loop reads to the end of the file and adds, in
order, the transactions of the rows it accepts. -/
theorem processLoop_complete (now : Time) (ctx : Nat → Option ContextError)
    (hctx : ∀ k, ctx k = none) (reader : List ReadResult) (k : Nat)
    (transactions : List Transaction) :
    processLoop now ctx k reader transactions =
      ⟨transactions ++ reader.filterMap (acceptedRow now), none, []⟩ := by
  induction reader generalizing k transactions with
  | nil => rw [processLoop_eq, hctx k]; simp
  | cons r reader ih =>
    rw [processLoop_eq, hctx k]
    simp only [List.filterMap_cons]
    cases acceptedRow now r with
    | none => simp only; rw [ih]
    | some t => simp only; rw [ih]; simp

/-- The loop stops at the first check that finds the context cancelled: the
records from that point on stay unread. -/
theorem processLoop_cancelled (now : Time) (ctx : Nat → Option ContextError)
    (e : ContextError) (n : Nat) (reader : List ReadResult) (k : Nat)
    (transactions : List Transaction)
    (hbefore : ∀ j, k ≤ j → j < k + n → ctx j = none) (hat : ctx (k + n) = some e)
    (hlen : n ≤ reader.length) :
    processLoop now ctx k reader transactions =
      ⟨[], some (.context e), reader.drop n⟩ := by
  induction n generalizing reader k transactions with
  | zero =>
    rw [processLoop_eq]
    simp only [Nat.add_zero] at hat
    rw [hat]; rfl
  | succ n ih =>
    cases reader with
    | nil => simp at hlen
    | cons r reader =>
      rw [processLoop_eq, hbefore k (le_refl _) (by omega)]
      have hb : ∀ j, k + 1 ≤ j → j < k + 1 + n → ctx j = none :=
        fun j h1 h2 => hbefore j (by omega) (by omega)
      have ha : ctx (k + 1 + n) = some e := by
        rw [show k + 1 + n = k + (n + 1) by omega]; exact hat
      have hl : n ≤ reader.length := by simpa using hlen
      simp only [List.drop_succ_cons]
      cases acceptedRow now r with
      | none => exact ih reader (k + 1) _ hb ha hl
      | some t => exact ih reader (k + 1) _ hb ha hl

/-- Claim C16. For a source whose header is valid and a context that is never
cancelled, ProcessFile returns a nil error and exactly the transactions
`NewTransaction` makes of the three-field data rows, successes kept in file
order: a row that fails tokenization, has not three fields or is rejected by
`NewTransaction` is skipped, the valid rows before and after a malformed row are
all returned, and a body with no valid row gives an empty result and no error. -/
theorem C16_skip_invalid_rows (now : Time) (ctx : Nat → Option ContextError)
    (header : List String) (reader : List ReadResult)
    (hheader : validateHeader header expectedHeaders = true)
    (hctx : ∀ k, ctx k = none) :
    ProcessFile now ctx (.ok (.record header :: reader)) =
      ⟨reader.filterMap (acceptedRow now), none, []⟩ ∧
    (∀ id date amount : String,
      acceptedRow now (.record [id, date, amount]) =
        match NewTransaction now id date amount with
        | .ok transaction => some transaction
        | .error _ => none) ∧
    (∀ (before : List ReadResult) (bad : ReadResult) (after : List ReadResult),
      reader = before ++ bad :: after → acceptedRow now bad = none →
      (ProcessFile now ctx (.ok (.record header :: reader))).transactions =
        before.filterMap (acceptedRow now) ++ after.filterMap (acceptedRow now)) ∧
    ((∀ r ∈ reader, acceptedRow now r = none) →
      (ProcessFile now ctx (.ok (.record header :: reader))).transactions = [] ∧
      (ProcessFile now ctx (.ok (.record header :: reader))).err = none) := by
  have hmain : ProcessFile now ctx (.ok (.record header :: reader)) =
      ⟨reader.filterMap (acceptedRow now), none, []⟩ := by
    unfold ProcessFile
    simp only [hheader, Bool.not_true, Bool.false_eq_true, if_false]
    rw [processLoop_complete now ctx hctx]
    simp
  refine ⟨hmain, fun _ _ _ => rfl, ?_, ?_⟩
  · intro before bad after hr hbad
    rw [hmain, hr]
    simp [List.filterMap_append, List.filterMap_cons, hbad]
  · intro hall
    rw [hmain]
    refine ⟨?_, rfl⟩
    show reader.filterMap (acceptedRow now) = []
    rw [List.filterMap_eq_nil_iff]
    exact hall

theorem C16_skip_invalid_rows_witness :
    validateHeader ["Id", "Date", "Transaction"] expectedHeaders = true ∧
    ProcessFile exampleNow (fun _ => none)
        (.ok [ .record ["Id", "Date", "Transaction"],
               .record ["1", "7/15", "+60.5"],
               .record ["x", "7/15", "+60.5"],
               .err (.external "record on line 4: wrong number of fields"),
               .record ["2", "8/2", "-20.46"] ]) =
      ⟨[ ⟨1, ⟨2024, .July, 15⟩, ⟨605, -1⟩, .Credit⟩,
         ⟨2, ⟨2024, .August, 2⟩, ⟨2046, -2⟩, .Debit⟩ ], none, []⟩ := by
  have h := (C16_skip_invalid_rows exampleNow (fun _ => none)
    ["Id", "Date", "Transaction"]
    [ .record ["1", "7/15", "+60.5"],
      .record ["x", "7/15", "+60.5"],
      .err (.external "record on line 4: wrong number of fields"),
      .record ["2", "8/2", "-20.46"] ] (by decide) (fun _ => rfl)).1
  refine ⟨by decide, ?_⟩
  rw [h]
  decide

/-- Claim C17, as stated, fails: for the header "ID,Date,Transaction" ProcessFile
returns no rows and an error, but the error is the result of `fmt.Errorf` with no
`%w`, which is not ErrInvalidFileFormat and wraps nothing. -/
theorem C17_counterexample :
    validateHeader ["ID", "Date", "Transaction"] expectedHeaders = false ∧
    (ProcessFile exampleNow (fun _ => none)
        (.ok [.record ["ID", "Date", "Transaction"],
              .record ["1", "7/15", "+60.5"]])).transactions = [] ∧
    (ProcessFile exampleNow (fun _ => none)
        (.ok [.record ["ID", "Date", "Transaction"],
              .record ["1", "7/15", "+60.5"]])).err =
      some (.errorf "invalid CSV header in %s, expected %v, got %v") ∧
    GoError.Is (.errorf "invalid CSV header in %s, expected %v, got %v")
      (.sentinel .ErrInvalidFileFormat) = false :=
  ⟨by decide, by decide, by decide, by decide⟩

/-- Claim C17, amended. For every source whose header record does not match the
expected columns, ProcessFile returns no rows (nil), reads no data record, and
returns a non-nil error that `errors.Is` finds to be no domain error, so not
ErrInvalidFileFormat. For a header record of three fields it is the message
error "invalid CSV header in ...", which wraps nothing (`errors.Is` is false for
every domain, context, end-of-file and library error); for a header record with
another number of fields the reader, set to three fields per record, fails, and
the error is "reading header from ...: %w" wrapping the ParseError of
`csv.ErrFieldCount`. -/
theorem C17_invalid_header (now : Time) (ctx : Nat → Option ContextError)
    (header : List String) (reader : List ReadResult)
    (hheader : validateHeader header expectedHeaders = false) :
    (ProcessFile now ctx (.ok (readRecord 3 header :: reader))).transactions = [] ∧
    (ProcessFile now ctx (.ok (readRecord 3 header :: reader))).unread = reader ∧
    (ProcessFile now ctx (.ok (readRecord 3 header :: reader))).err =
      some (if header.length = 3 then .errorf "invalid CSV header in %s, expected %v, got %v"
        else .wrap "reading header from %s: %w" (ParseError ErrFieldCount)) ∧
    (∀ err, (ProcessFile now ctx (.ok (readRecord 3 header :: reader))).err = some err →
      (∀ e : DomainError, err.Is (.sentinel e) = false) ∧
      (header.length = 3 →
        (∀ e : ContextError, err.Is (.context e) = false) ∧ err.Is .EOF = false ∧
        (∀ description : String, err.Is (.external description) = false)) ∧
      (header.length ≠ 3 → err.Is ErrFieldCount = true)) := by
  by_cases hlen : header.length = 3
  · have h : ProcessFile now ctx (.ok (readRecord 3 header :: reader)) =
        ⟨[], some (.errorf "invalid CSV header in %s, expected %v, got %v"), reader⟩ := by
      unfold ProcessFile readRecord
      simp only [hlen, ne_eq, not_true_eq_false, if_false, hheader, Bool.not_false, if_true,
        Nat.ofNat_pos]
    rw [h, if_pos hlen]
    refine ⟨rfl, rfl, rfl, ?_⟩
    intro err herr
    simp only [Option.some.injEq] at herr
    subst herr
    exact ⟨fun _ => rfl, fun _ => ⟨fun _ => rfl, rfl, fun _ => rfl⟩, fun hne => absurd hlen hne⟩
  · have h : ProcessFile now ctx (.ok (readRecord 3 header :: reader)) =
        ⟨[], some (.wrap "reading header from %s: %w" (ParseError ErrFieldCount)), reader⟩ := by
      unfold ProcessFile readRecord
      simp only [hlen, ne_eq, not_false_eq_true, if_true, Nat.ofNat_pos]
    rw [h, if_neg hlen]
    refine ⟨rfl, rfl, rfl, ?_⟩
    intro err herr
    simp only [Option.some.injEq] at herr
    subst herr
    exact ⟨fun e => by cases e <;> rfl, fun h3 => absurd h3 hlen, fun _ => rfl⟩

theorem C17_invalid_header_witness :
    validateHeader ["Id", "Amount", "Date"] expectedHeaders = false ∧
    (ProcessFile exampleNow (fun _ => none)
        (.ok [readRecord 3 ["Id", "Amount", "Date"],
              readRecord 3 ["1", "+60.5", "7/15"]])).transactions = [] ∧
    (ProcessFile exampleNow (fun _ => none)
        (.ok [readRecord 3 ["Id", "Amount", "Date"],
              readRecord 3 ["1", "+60.5", "7/15"]])).err =
      some (.errorf "invalid CSV header in %s, expected %v, got %v") ∧
    validateHeader ["Id", "Date"] expectedHeaders = false ∧
    (ProcessFile exampleNow (fun _ => none)
        (.ok [readRecord 3 ["Id", "Date"],
              readRecord 3 ["1", "7/15", "+60.5"]])).transactions = [] ∧
    (ProcessFile exampleNow (fun _ => none)
        (.ok [readRecord 3 ["Id", "Date"],
              readRecord 3 ["1", "7/15", "+60.5"]])).err =
      some (.wrap "reading header from %s: %w" (ParseError ErrFieldCount)) := by
  have h := C17_invalid_header exampleNow (fun _ => none) ["Id", "Amount", "Date"]
    [readRecord 3 ["1", "+60.5", "7/15"]] (by decide)
  have h2 := C17_invalid_header exampleNow (fun _ => none) ["Id", "Date"]
    [readRecord 3 ["1", "7/15", "+60.5"]] (by decide)
  exact ⟨by decide, h.1, h.2.2.1, by decide, h2.1, h2.2.2.1⟩

/-- Claim C18, as stated, fails: the header " Id", "Date ", "Transaction", with
white space around two fields, is not the three expected strings, and
`validateHeader` accepts it. -/
theorem C18_counterexample :
    validateHeader [" Id", "Date ", "Transaction"] ["Id", "Date", "Transaction"] = true ∧
    [" Id", "Date ", "Transaction"] ≠ ["Id", "Date", "Transaction"] :=
  ⟨by decide, by decide⟩

/-- Claim C18, amended. `validateHeader(header, ["Id", "Date", "Transaction"])`
returns true if and only if the header has exactly three fields which, once
their surrounding white space is trimmed, are "Id", "Date" and "Transaction" in
that order; a field in another case or with other extra characters is
rejected. -/
theorem C18_validate_header :
    (∀ header : List String,
      validateHeader header ["Id", "Date", "Transaction"] = true ↔
        ∃ a b c : String, header = [a, b, c] ∧
          String.mk (TrimSpace a.toList) = "Id" ∧
          String.mk (TrimSpace b.toList) = "Date" ∧
          String.mk (TrimSpace c.toList) = "Transaction") ∧
    expectedHeaders = ["Id", "Date", "Transaction"] ∧
    validateHeader ["Id", "Date", "Transaction"] ["Id", "Date", "Transaction"] = true ∧
    validateHeader ["id", "Date", "Transaction"] ["Id", "Date", "Transaction"] = false ∧
    validateHeader ["Id", "Date", "Transactions"] ["Id", "Date", "Transaction"] = false ∧
    validateHeader ["Date", "Id", "Transaction"] ["Id", "Date", "Transaction"] = false ∧
    validateHeader ["Id", "Date", "Transaction", ""] ["Id", "Date", "Transaction"] = false := by
  refine ⟨?_, rfl, by decide, by decide, by decide, by decide, by decide⟩
  intro header
  constructor
  · intro h
    unfold validateHeader at h
    by_cases hl : header.length ≠ ["Id", "Date", "Transaction"].length
    · rw [if_pos hl] at h; exact absurd h (by simp)
    · rw [if_neg hl] at h
      match header, hl with
      | [a, b, c], _ =>
        simp only [List.zip_cons_cons, List.zip_nil_right, List.all_cons, List.all_nil,
          Bool.and_true, Bool.and_eq_true, decide_eq_true_eq] at h
        exact ⟨a, b, c, rfl, h.1, h.2.1, h.2.2⟩
      | [], hl => exact absurd (by simp) hl
      | [_], hl => exact absurd (by simp) hl
      | [_, _], hl => exact absurd (by simp) hl
      | _ :: _ :: _ :: _ :: _, hl => exact absurd (by simp) hl
  · rintro ⟨a, b, c, rfl, ha, hb, hc⟩
    unfold validateHeader
    simp only [List.length_cons, List.length_nil, ne_eq, not_true_eq_false, if_false,
      List.zip_cons_cons, List.zip_nil_right, List.all_cons, List.all_nil, Bool.and_true,
      Bool.and_eq_true, decide_eq_true_eq]
    exact ⟨ha, hb, hc⟩

/-- The loop ends without error when no check up to the end of the file finds
the context cancelled, whatever the records are. -/
theorem processLoop_no_error (now : Time) (ctx : Nat → Option ContextError)
    (reader : List ReadResult) (k : Nat) (transactions : List Transaction)
    (hctx : ∀ j, k ≤ j → j ≤ k + reader.length → ctx j = none) :
    processLoop now ctx k reader transactions =
      ⟨transactions ++ reader.filterMap (acceptedRow now), none, []⟩ := by
  induction reader generalizing k transactions with
  | nil => rw [processLoop_eq, hctx k (le_refl _) (by simp)]; simp
  | cons r reader ih =>
    rw [processLoop_eq, hctx k (le_refl _) (by simp)]
    have hnext : ∀ j, k + 1 ≤ j → j ≤ k + 1 + reader.length → ctx j = none :=
      fun j h1 h2 => hctx j (by omega) (by simp only [List.length_cons]; omega)
    simp only [List.filterMap_cons]
    cases acceptedRow now r with
    | none => simp only; rw [ih _ _ hnext]
    | some t => simp only; rw [ih _ _ hnext]; simp

/-- Claim C19. In ProcessFile, once the header is read and accepted, the context
is checked before every read of a data record. If the check number `n` (counted
from 0) is the first to find the context cancelled, exactly the `n` records
before it have been read and no further one, and ProcessFile returns the error
of the context with no transactions, even if rows had been accepted. If no check
finds the context cancelled the error is nil, whatever the records are, so a
record-level failure never produces an error. -/
theorem C19_cancellation (now : Time) (ctx : Nat → Option ContextError)
    (header : List String) (reader : List ReadResult)
    (hheader : validateHeader header expectedHeaders = true) :
    (∀ (n : Nat) (e : ContextError),
      (∀ j, j < n → ctx j = none) → ctx n = some e → n ≤ reader.length →
      ProcessFile now ctx (.ok (.record header :: reader)) =
        ⟨[], some (.context e), reader.drop n⟩) ∧
    ((∀ j, j ≤ reader.length → ctx j = none) →
      ProcessFile now ctx (.ok (.record header :: reader)) =
        ⟨reader.filterMap (acceptedRow now), none, []⟩) ∧
    (∀ e : GoError, (ProcessFile now ctx (.ok (.record header :: reader))).err = some e →
      ∃ (n : Nat) (c : ContextError), n ≤ reader.length ∧ ctx n = some c ∧ e = .context c) := by
  have hpf : ProcessFile now ctx (.ok (.record header :: reader)) =
      processLoop now ctx 0 reader [] := by
    unfold ProcessFile
    simp only [hheader, Bool.not_true, Bool.false_eq_true, if_false]
  have hcancel : ∀ (n : Nat) (e : ContextError),
      (∀ j, j < n → ctx j = none) → ctx n = some e → n ≤ reader.length →
      ProcessFile now ctx (.ok (.record header :: reader)) =
        ⟨[], some (.context e), reader.drop n⟩ := by
    intro n e hbefore hat hlen
    rw [hpf]
    exact processLoop_cancelled now ctx e n reader 0 []
      (fun j _ h2 => hbefore j (by omega)) (by simpa using hat) hlen
  have hnone : (∀ j, j ≤ reader.length → ctx j = none) →
      ProcessFile now ctx (.ok (.record header :: reader)) =
        ⟨reader.filterMap (acceptedRow now), none, []⟩ := by
    intro hctx
    rw [hpf, processLoop_no_error now ctx reader 0 [] (fun j _ h2 => hctx j (by omega))]
    simp
  refine ⟨hcancel, hnone, ?_⟩
  intro e he
  by_cases hex : ∃ n, n ≤ reader.length ∧ ctx n ≠ none
  · classical
    let n := Nat.find hex
    have hn : n ≤ reader.length ∧ ctx n ≠ none := Nat.find_spec hex
    have hmin : ∀ j, j < n → ctx j = none := by
      intro j hj
      by_contra hc
      exact Nat.find_min hex hj ⟨by omega, hc⟩
    cases hcn : ctx n with
    | none => exact absurd hcn hn.2
    | some c =>
      rw [hcancel n c hmin hcn hn.1] at he
      simp only [Option.some.injEq] at he
      exact ⟨n, c, hn.1, hcn, he.symm⟩
  · have hall : ∀ j, j ≤ reader.length → ctx j = none := by
      intro j hj
      by_contra hc
      exact hex ⟨j, hj, hc⟩
    rw [hnone hall] at he
    exact absurd he (by simp)

theorem C19_cancellation_witness :
    validateHeader ["Id", "Date", "Transaction"] expectedHeaders = true ∧
    ProcessFile exampleNow (fun k => if k < 2 then none else some .Canceled)
        (.ok [ .record ["Id", "Date", "Transaction"],
               .record ["1", "7/15", "+60.5"],
               .record ["2", "8/2", "-20.46"],
               .record ["3", "8/13", "+10"] ]) =
      ⟨[], some (.context .Canceled), [.record ["3", "8/13", "+10"]]⟩ :=
  ⟨by decide,
    (C19_cancellation exampleNow (fun k => if k < 2 then none else some .Canceled)
      ["Id", "Date", "Transaction"]
      [ .record ["1", "7/15", "+60.5"],
        .record ["2", "8/2", "-20.46"],
        .record ["3", "8/13", "+10"] ] (by decide)).1 2 .Canceled
      (fun j hj => by simp [hj]) (by decide) (by decide)⟩

/-! ## ProcessTransactionFile -/

/-- Claim C20. For every file for which ProcessFile returns zero transactions
and no error, ProcessTransactionFile returns a non-nil error, the message error
"no transactions found in file ...", and the only call it makes is the one of
ProcessFile: neither EmailService.SendSummary nor DataStore.SaveTransactions is
called. -/
theorem C20_empty_result (p : TransactionProcessor) (filePath recipientEmail : String)
    (transactions : List Transaction)
    (hfile : p.fileProcessor filePath = (transactions, none))
    (hzero : transactions.length = 0) :
    (ProcessTransactionFile p filePath recipientEmail).1 =
      some (.errorf "no transactions found in file %s") ∧
    (ProcessTransactionFile p filePath recipientEmail).2 = [Call.ProcessFile filePath] ∧
    (∀ (recipient : String) (summary : Summary),
      Call.SendSummary recipient summary ∉ (ProcessTransactionFile p filePath recipientEmail).2) ∧
    (∀ saved : List Transaction,
      Call.SaveTransactions saved ∉ (ProcessTransactionFile p filePath recipientEmail).2) := by
  have h : ProcessTransactionFile p filePath recipientEmail =
      (some (.errorf "no transactions found in file %s"), [Call.ProcessFile filePath]) := by
    unfold ProcessTransactionFile
    rw [hfile]
    simp only [hzero, if_true]
  rw [h]
  exact ⟨rfl, rfl, fun _ _ => by simp, fun _ => by simp⟩

theorem C20_empty_result_witness :
    emptyFileProcessor.fileProcessor "empty.csv" = ([], none) ∧
    ProcessTransactionFile emptyFileProcessor "empty.csv" "user@example.com" =
      (some (.errorf "no transactions found in file %s"), [Call.ProcessFile "empty.csv"]) := by
  have h := C20_empty_result emptyFileProcessor "empty.csv" "user@example.com" [] rfl rfl
  exact ⟨rfl, Prod.ext h.1 h.2.1⟩

/-! ## ProcessTransactionFile with transactions -/

/-- ProcessTransactionFile on a file that gives transactions and no error: the
summary is calculated, SaveTransactions is called when there is a DataStore, and
SendSummary is called; the error returned is the one of SendSummary, wrapped. -/
theorem ProcessTransactionFile_nonempty (p : TransactionProcessor)
    (filePath recipientEmail : String) (transactions : List Transaction)
    (hfile : p.fileProcessor filePath = (transactions, none)) (hne : transactions ≠ []) :
    ProcessTransactionFile p filePath recipientEmail =
      ((p.emailService recipientEmail (p.calculator transactions)).map
          (GoError.wrap "sending email to %s: %w"),
        [Call.ProcessFile filePath, Call.Calculate transactions] ++
          (match p.dataStore with
            | some _ => [Call.SaveTransactions transactions]
            | none => []) ++
          [Call.SendSummary recipientEmail (p.calculator transactions)]) := by
  have hlen : ¬ transactions.length = 0 := fun h => hne (List.length_eq_zero.mp h)
  unfold ProcessTransactionFile
  rw [hfile]
  simp only [hlen, if_false]
  cases hds : p.dataStore <;> cases hem : p.emailService recipientEmail (p.calculator transactions) <;>
    simp

/-- Claim C21. For every non-empty list of ingested transactions and every
DataStore, whatever SaveTransactions returns (an error included),
ProcessTransactionFile calls SaveTransactions and then SendSummary, SendSummary
exactly once; the error it returns is the one of SendSummary wrapped, so it
returns nil when the send succeeds: the persistence error is never reported. -/
theorem C21_persistence_not_fatal (p : TransactionProcessor)
    (filePath recipientEmail : String) (transactions : List Transaction)
    (save : List Transaction → Option GoError)
    (hfile : p.fileProcessor filePath = (transactions, none)) (hne : transactions ≠ [])
    (hstore : p.dataStore = some save) :
    (ProcessTransactionFile p filePath recipientEmail).2 =
      [ Call.ProcessFile filePath, Call.Calculate transactions,
        Call.SaveTransactions transactions,
        Call.SendSummary recipientEmail (p.calculator transactions) ] ∧
    countSendSummary (ProcessTransactionFile p filePath recipientEmail).2 = 1 ∧
    (ProcessTransactionFile p filePath recipientEmail).1 =
      (p.emailService recipientEmail (p.calculator transactions)).map
        (GoError.wrap "sending email to %s: %w") ∧
    (p.emailService recipientEmail (p.calculator transactions) = none →
      (ProcessTransactionFile p filePath recipientEmail).1 = none) := by
  rw [ProcessTransactionFile_nonempty p filePath recipientEmail transactions hfile hne, hstore]
  refine ⟨rfl, rfl, rfl, ?_⟩
  intro h
  simp [h]

theorem C21_persistence_not_fatal_witness :
    failingStoreProcessor.dataStore.map (fun save => save testTransactions) =
      some (some (.sentinel .ErrDatabaseConnection)) ∧
    ProcessTransactionFile failingStoreProcessor "txns.csv" "user@example.com" =
      (none,
        [ Call.ProcessFile "txns.csv", Call.Calculate testTransactions,
          Call.SaveTransactions testTransactions,
          Call.SendSummary "user@example.com" testSummary ]) := by
  have h := C21_persistence_not_fatal failingStoreProcessor "txns.csv" "user@example.com"
    testTransactions (fun _ => some (.sentinel .ErrDatabaseConnection)) rfl (by decide) rfl
  exact ⟨rfl, Prod.ext (h.2.2.2 rfl) h.1⟩

/-- Claim C22. For every non-empty list of ingested transactions, with or
without a DataStore and whatever SaveTransactions returns, if SendSummary
returns an error `e`, ProcessTransactionFile returns the non-nil error
"sending email to ...: %w" wrapping `e`: every target `errors.Is` finds in `e`
it finds in the error returned. In particular, when SendSummary is the SMTP one
and `smtp.SendMail` fails, the error returned is recognised as
ErrEmailDeliveryFailed by `errors.Is`. -/
theorem C22_delivery_fatal (p : TransactionProcessor)
    (filePath recipientEmail : String) (transactions : List Transaction) (e : GoError)
    (hfile : p.fileProcessor filePath = (transactions, none)) (hne : transactions ≠ [])
    (hsend : p.emailService recipientEmail (p.calculator transactions) = some e) :
    (ProcessTransactionFile p filePath recipientEmail).1 =
      some (.wrap "sending email to %s: %w" e) ∧
    (∀ target : GoError, e.Is target = true →
      (GoError.wrap "sending email to %s: %w" e).Is target = true) ∧
    (∀ (renderTemplate : Summary → Except GoError String)
        (sendMail : String → String → Option GoError) (htmlBody : String) (failure : GoError),
      p.emailService = SendSummary renderTemplate sendMail →
      renderTemplate (p.calculator transactions) = .ok htmlBody →
      sendMail recipientEmail htmlBody = some failure →
      e.Is (.sentinel .ErrEmailDeliveryFailed) = true) := by
  rw [ProcessTransactionFile_nonempty p filePath recipientEmail transactions hfile hne, hsend]
  refine ⟨rfl, fun target h => by simpa [GoError.Is] using h, ?_⟩
  intro renderTemplate sendMail htmlBody failure hsvc hrender hmail
  rw [hsvc] at hsend
  unfold SendSummary at hsend
  rw [hrender] at hsend
  simp only [hmail, sendEmail, Option.some.injEq] at hsend
  rw [← hsend]
  rfl

theorem C22_delivery_fatal_witness :
    (ProcessTransactionFile failingMailProcessor "txns.csv" "user@example.com").1 =
      some (.wrap "sending email to %s: %w"
        (.wrap "sending email to %s: %w" (.sentinel .ErrEmailDeliveryFailed))) ∧
    GoError.Is (.wrap "sending email to %s: %w"
        (.wrap "sending email to %s: %w" (.sentinel .ErrEmailDeliveryFailed)))
      (.sentinel .ErrEmailDeliveryFailed) = true := by
  have h := C22_delivery_fatal failingMailProcessor "txns.csv" "user@example.com"
    testTransactions (.wrap "sending email to %s: %w" (.sentinel .ErrEmailDeliveryFailed))
    rfl (by decide) rfl
  exact ⟨h.1, h.2.1 _ (h.2.2 (fun _ => .ok "<html></html>")
    (fun _ _ => some (.external "dial tcp: refused")) "<html></html>"
    (.external "dial tcp: refused") rfl rfl rfl)⟩

/-- Claim C23. If ProcessFile returns an error `e` (bad header, open or read
failure), ProcessTransactionFile returns the non-nil error
"processing file ...: %w" wrapping `e` (every target `errors.Is` finds in `e` it
finds in the error returned), and the call of ProcessFile is the only call it
makes: the calculator, SaveTransactions and SendSummary are not called. -/
theorem C23_ingestion_error (p : TransactionProcessor)
    (filePath recipientEmail : String) (transactions : List Transaction) (e : GoError)
    (hfile : p.fileProcessor filePath = (transactions, some e)) :
    ProcessTransactionFile p filePath recipientEmail =
      (some (.wrap "processing file %s: %w" e), [Call.ProcessFile filePath]) ∧
    (∀ target : GoError, e.Is target = true →
      (GoError.wrap "processing file %s: %w" e).Is target = true) ∧
    (∀ c ∈ (ProcessTransactionFile p filePath recipientEmail).2, c = Call.ProcessFile filePath) := by
  have h : ProcessTransactionFile p filePath recipientEmail =
      (some (.wrap "processing file %s: %w" e), [Call.ProcessFile filePath]) := by
    unfold ProcessTransactionFile
    rw [hfile]
  rw [h]
  exact ⟨rfl, fun target ht => by simpa [GoError.Is] using ht, fun c hc => by simpa using hc⟩

theorem C23_ingestion_error_witness :
    ProcessTransactionFile failingFileProcessor "missing.csv" "user@example.com" =
      (some (.wrap "processing file %s: %w"
          (.wrap "opening file %s: %w" (.external "no such file or directory"))),
        [Call.ProcessFile "missing.csv"]) ∧
    GoError.Is (.wrap "processing file %s: %w"
        (.wrap "opening file %s: %w" (.external "no such file or directory")))
      (.external "no such file or directory") = true := by
  have h := C23_ingestion_error failingFileProcessor "missing.csv" "user@example.com" []
    (.wrap "opening file %s: %w" (.external "no such file or directory")) rfl
  exact ⟨h.1, h.2.1 _ (by decide)⟩

/-! ## WatchAndProcess -/

theorem watchLoop_files (p : TransactionProcessor) (recipientEmail : String)
    (files : List String) (rest : List WatchEvent) (calls : List Call) :
    watchLoop p recipientEmail (files.map WatchEvent.file ++ rest) calls =
      watchLoop p recipientEmail rest (calls ++ processedCalls p recipientEmail files) := by
  induction files generalizing calls with
  | nil => simp [processedCalls]
  | cons f files ih =>
    have hstep : watchLoop p recipientEmail
        (List.map WatchEvent.file (f :: files) ++ rest) calls =
        watchLoop p recipientEmail (List.map WatchEvent.file files ++ rest)
          (calls ++ (ProcessTransactionFile p f recipientEmail).2) := rfl
    rw [hstep, ih, List.append_assoc]
    rfl

theorem watchLoop_returned (p : TransactionProcessor) (recipientEmail : String)
    (events : List WatchEvent) (calls : List Call) (err : GoError)
    (h : (watchLoop p recipientEmail events calls).1 = .returned err) :
    ∃ e, err = .context e ∧ WatchEvent.done e ∈ events := by
  induction events generalizing calls with
  | nil => simp [watchLoop] at h
  | cons ev events ih =>
    cases ev with
    | done e =>
      simp only [watchLoop, WatchOutcome.returned.injEq] at h
      exact ⟨e, h.symm, List.mem_cons_self _ _⟩
    | file f =>
      simp only [watchLoop] at h
      obtain ⟨e, he, hm⟩ := ih _ h
      exact ⟨e, he, List.mem_cons_of_mem _ hm⟩

/-- Claim C24. Once the watcher has started, for every processor (whether
ProcessTransactionFile fails for some, or all, of the files): after each
notification WatchAndProcess runs ProcessTransactionFile and goes on to the
next one; as long as no `select` takes the case of the cancelled context it has
not returned; when one does, it returns the error of the context; and whenever
it has returned, the error is the one of a cancelled context. -/
theorem C24_watch_loop (p : TransactionProcessor) (recipientEmail : String) :
    (∀ files : List String,
      WatchAndProcess p recipientEmail (.ok (files.map WatchEvent.file)) =
        (.running, processedCalls p recipientEmail files)) ∧
    (∀ (files : List String) (e : ContextError) (rest : List WatchEvent),
      WatchAndProcess p recipientEmail (.ok (files.map WatchEvent.file ++ .done e :: rest)) =
        (.returned (.context e), processedCalls p recipientEmail files)) ∧
    (∀ (events : List WatchEvent) (err : GoError),
      (WatchAndProcess p recipientEmail (.ok events)).1 = .returned err →
        ∃ e, err = .context e ∧ WatchEvent.done e ∈ events) ∧
    (∀ (filePath : String) (files : List String),
      processedCalls p recipientEmail (filePath :: files) =
        (ProcessTransactionFile p filePath recipientEmail).2 ++
          processedCalls p recipientEmail files) := by
  refine ⟨?_, ?_, ?_, fun _ _ => rfl⟩
  · intro files
    have h := watchLoop_files p recipientEmail files [] []
    simp only [List.append_nil, List.nil_append] at h
    unfold WatchAndProcess
    simp only [h, watchLoop]
  · intro files e rest
    have h := watchLoop_files p recipientEmail files (.done e :: rest) []
    unfold WatchAndProcess
    simp only [h, watchLoop, List.nil_append]
  · intro events err h
    exact watchLoop_returned p recipientEmail events [] err h

theorem C24_watch_loop_witness :
    (ProcessTransactionFile failingFileProcessor "a.csv" "user@example.com").1 ≠ none ∧
    WatchAndProcess failingFileProcessor "user@example.com"
        (.ok [.file "a.csv", .file "b.csv"]) =
      (.running, [Call.ProcessFile "a.csv", Call.ProcessFile "b.csv"]) ∧
    WatchAndProcess failingFileProcessor "user@example.com"
        (.ok [.file "a.csv", .file "b.csv", .done .Canceled]) =
      (.returned (.context .Canceled), [Call.ProcessFile "a.csv", Call.ProcessFile "b.csv"]) := by
  have h := C24_watch_loop failingFileProcessor "user@example.com"
  exact ⟨by decide, h.1 ["a.csv", "b.csv"], h.2.1 ["a.csv", "b.csv"] .Canceled []⟩

/-! ## The end-to-end example and the year of a date -/

theorem parseDateLoop_now (now now1 : Time) (hyear : now.year = now1.year) (s : List Char)
    (fs : List (List (List Char × Std))) :
    parseDateLoop now s fs = parseDateLoop now1 s fs := by
  induction fs with
  | nil => rfl
  | cons f fs ih =>
    unfold parseDateLoop
    rw [ih, hyear]

/-- Only the year of `time.Now()` enters `NewTransaction`. -/
theorem NewTransaction_now (now now1 : Time) (hyear : now.year = now1.year)
    (id date amount : String) :
    NewTransaction now id date amount = NewTransaction now1 id date amount := by
  unfold NewTransaction parseDate
  rw [parseDateLoop_now now now1 hyear]

theorem parseRows_now (now now1 : Time) (hyear : now.year = now1.year)
    (rows : List (String × String × String)) :
    parseRows now rows = parseRows now1 rows := by
  unfold parseRows recordTransaction
  simp only [NewTransaction_now now now1 hyear]

/-- Claim C25, as stated, fails. Run in 2025, the five rows give a summary with
no entry "July 2024" (the three July rows are counted under "July 2025"); and in
2024, where the labels are those of the claim, AverageCredit is
28.5833333333333333, which is not the number 85.75/3. -/
theorem C25_counterexample :
    (NewSummary (parseRows ⟨2025, .March, 5⟩ exampleRows)).map
        (fun s => mapLookup s.MonthlyTransactions "July 2024") = some none ∧
    (NewSummary (parseRows ⟨2025, .March, 5⟩ exampleRows)).map
        (fun s => s.MonthlyTransactions) = some [("July 2025", 3), ("August 2025", 2)] ∧
    (NewSummary (parseRows ⟨2024, .March, 5⟩ exampleRows)).map
        (fun s => s.AverageCredit) = some ⟨285833333333333333, -16⟩ ∧
    (Decimal.mk 285833333333333333 (-16)).toRat ≠ (8575 / 100 : ℚ) / 3 := by
  refine ⟨by decide, by decide, by decide, ?_⟩
  simp only [Decimal.toRat]
  norm_num

theorem monthLabel_ne (year : Int) : monthLabel .July year ≠ monthLabel .August year := by
  intro h
  have := (FormatJanuary2006_inj _ _).mp h
  exact absurd this.1 (by simp)

/-- In every current year the five rows are accepted, with their dates in that
year. -/
theorem parseRows_example (now : Time) :
    parseRows now exampleRows = exampleTransactions now.year := by
  have hd : ∀ (s : String) (m : Month) (d : Nat),
      timeParse [([], .stdNumMonth), (['/'], .stdDay)] s.toList = some ⟨0, m, d⟩ →
      m ≠ .February → parseDate now s = .ok ⟨now.year, m, d⟩ := by
    intro s m d h hm
    exact parseDate_month_day now s ⟨0, m, d⟩ h (fun hf => hm hf.1)
  have h1 := hd "7/15" .July 15 (by decide) (by decide)
  have h2 := hd "7/28" .July 28 (by decide) (by decide)
  have h3 := hd "8/2" .August 2 (by decide) (by decide)
  have h4 := hd "8/13" .August 13 (by decide) (by decide)
  have h5 := hd "7/18" .July 18 (by decide) (by decide)
  have a1 : Atoi "1" = some 1 := by decide
  have a2 : Atoi "2" = some 2 := by decide
  have a3 : Atoi "3" = some 3 := by decide
  have a4 : Atoi "4" = some 4 := by decide
  have a5 : Atoi "5" = some 5 := by decide
  have p1 : parseAmount "+60.5" = .ok (⟨605, -1⟩, .Credit) := by decide
  have p2 : parseAmount "-10.3" = .ok (⟨103, -1⟩, .Debit) := by decide
  have p3 : parseAmount "-20.46" = .ok (⟨2046, -2⟩, .Debit) := by decide
  have p4 : parseAmount "+10" = .ok (⟨10, 0⟩, .Credit) := by decide
  have p5 : parseAmount "+15.25" = .ok (⟨1525, -2⟩, .Credit) := by decide
  simp only [parseRows, exampleRows, exampleTransactions, List.filterMap_cons,
    List.filterMap_nil, recordTransaction, NewTransaction, h1, h2, h3, h4, h5, a1, a2, a3, a4,
    a5, p1, p2, p3, p4, p5]

/-- The state of the loop of `NewSummary` after the five transactions of the
example, whatever their year. -/
theorem summaryLoop_example (year : Int) :
    summaryLoop (exampleTransactions year) =
      { summary :=
          { TotalBalance := ⟨5499, -2⟩
            MonthlyTransactions := [(monthLabel .July year, 3), (monthLabel .August year, 2)]
            MonthlyCredits :=
              [(monthLabel .July year, ⟨7575, -2⟩), (monthLabel .August year, ⟨10, 0⟩)]
            MonthlyDebits :=
              [(monthLabel .July year, ⟨103, -1⟩), (monthLabel .August year, ⟨2046, -2⟩)]
            AverageCredit := Decimal.Zero
            AverageDebit := Decimal.Zero }
        totalCredits := ⟨8575, -2⟩
        totalDebits := ⟨3076, -2⟩
        creditCount := 3
        debitCount := 2 } := by
  have hne := monthLabel_ne year
  have hne1 : monthLabel .August year ≠ monthLabel .July year := fun h => hne h.symm
  have hJ : ∀ (id : Int) (d : Nat) (a : Decimal) (ty : TransactionType),
      Transaction.MonthYear ⟨id, ⟨year, .July, d⟩, a, ty⟩ = monthLabel .July year :=
    fun _ _ _ _ => rfl
  have hA : ∀ (id : Int) (d : Nat) (a : Decimal) (ty : TransactionType),
      Transaction.MonthYear ⟨id, ⟨year, .August, d⟩, a, ty⟩ = monthLabel .August year :=
    fun _ _ _ _ => rfl
  generalize monthLabel .July year = J at *
  generalize monthLabel .August year = A at *
  unfold summaryLoop exampleTransactions
  simp only [List.foldl]
  have c1 := fun s => summaryStep_credit s ⟨1, ⟨year, .July, 15⟩, ⟨605, -1⟩, .Credit⟩ rfl
  have c2 := fun s => summaryStep_debit s ⟨2, ⟨year, .July, 28⟩, ⟨103, -1⟩, .Debit⟩ rfl
  have c3 := fun s => summaryStep_debit s ⟨3, ⟨year, .August, 2⟩, ⟨2046, -2⟩, .Debit⟩ rfl
  have c4 := fun s => summaryStep_credit s ⟨4, ⟨year, .August, 13⟩, ⟨10, 0⟩, .Credit⟩ rfl
  have c5 := fun s => summaryStep_credit s ⟨5, ⟨year, .July, 18⟩, ⟨1525, -2⟩, .Credit⟩ rfl
  rw [c1, c2, c3, c4, c5]
  simp only [hJ, hA, emptySummary, mapAssign, mapIndex, mapLookup, hne, hne1, if_true, if_false,
    Option.getD]
  simp only [SummaryLoop.mk.injEq, Summary.mk.injEq, List.cons.injEq, Prod.mk.injEq, true_and,
    and_true]
  decide

/-- Claim C25, amended. In every current year Y, parsing the five rows with
`NewTransaction` gives five transactions dated in Y, and `NewSummary` of them has
TotalBalance 54.99, MonthlyTransactions with 3 for the label of July Y and 2 for
the label of August Y (the month name, a space and Y as `Format` writes it, two
different labels) and nothing else, AverageCredit 28.5833333333333333, the value
of `decimal` 85.75 `.Div` 3 (85.75/3 rounded to 16 places, not 85.75/3), and
AverageDebit 15.38 = 30.76/2. When the current year is 2024 the transactions are
those of `TestNewSummary` and the labels are "July 2024" and "August 2024". -/
theorem C25_end_to_end (now : Time) :
    parseRows now exampleRows = exampleTransactions now.year ∧
    NewSummary (parseRows now exampleRows) = some
      { TotalBalance := ⟨5499, -2⟩
        MonthlyTransactions :=
          [(monthLabel .July now.year, 3), (monthLabel .August now.year, 2)]
        MonthlyCredits :=
          [(monthLabel .July now.year, ⟨7575, -2⟩), (monthLabel .August now.year, ⟨10, 0⟩)]
        MonthlyDebits :=
          [(monthLabel .July now.year, ⟨103, -1⟩), (monthLabel .August now.year, ⟨2046, -2⟩)]
        AverageCredit := ⟨285833333333333333, -16⟩
        AverageDebit := ⟨153800000000000000, -16⟩ } ∧
    monthLabel .July now.year = "July " ++ String.mk (appendInt now.year 4) ∧
    monthLabel .August now.year = "August " ++ String.mk (appendInt now.year 4) ∧
    monthLabel .July now.year ≠ monthLabel .August now.year ∧
    (0 ≤ now.year → now.year ≤ 9999 →
      (appendInt now.year 4).length = 4 ∧
      (∀ c ∈ appendInt now.year 4, isDigitChar c = true) ∧
      digitsValue (appendInt now.year 4) = now.year.natAbs) ∧
    (now.year = 2024 →
      parseRows now exampleRows = testTransactions ∧
      NewSummary (parseRows now exampleRows) = some testSummary) ∧
    testSummary.TotalBalance.toRat = 5499 / 100 ∧
    testSummary.MonthlyTransactions = [("July 2024", 3), ("August 2024", 2)] ∧
    (Decimal.mk 8575 (-2)).Div (Decimal.NewFromInt 3) = some testSummary.AverageCredit ∧
    testSummary.AverageCredit = ⟨285833333333333333, -16⟩ ∧
    |testSummary.AverageCredit.toRat - (8575 / 100 : ℚ) / 3| ≤ 1 / 2 * (10 : ℚ) ^ (-16 : ℤ) ∧
    (Decimal.mk 3076 (-2)).Div (Decimal.NewFromInt 2) = some testSummary.AverageDebit ∧
    testSummary.AverageDebit.toRat = (3076 / 100 : ℚ) / 2 := by
  have hrows := parseRows_example now
  have hsum : NewSummary (parseRows now exampleRows) = some
      { TotalBalance := ⟨5499, -2⟩
        MonthlyTransactions :=
          [(monthLabel .July now.year, 3), (monthLabel .August now.year, 2)]
        MonthlyCredits :=
          [(monthLabel .July now.year, ⟨7575, -2⟩), (monthLabel .August now.year, ⟨10, 0⟩)]
        MonthlyDebits :=
          [(monthLabel .July now.year, ⟨103, -1⟩), (monthLabel .August now.year, ⟨2046, -2⟩)]
        AverageCredit := ⟨285833333333333333, -16⟩
        AverageDebit := ⟨153800000000000000, -16⟩ } := by
    rw [hrows, NewSummary_eq, summaryLoop_example]
    have e1 : averageOf ⟨8575, -2⟩ 3 = ⟨285833333333333333, -16⟩ := by decide
    have e2 : averageOf ⟨3076, -2⟩ 2 = ⟨153800000000000000, -16⟩ := by decide
    simp only [e1, e2]
  refine ⟨hrows, hsum, rfl, rfl, monthLabel_ne now.year,
    appendInt_four_digits now.year, ?_, ?_, rfl, by decide, rfl, ?_, by decide, ?_⟩
  · intro hyear
    have h2024 : parseRows now exampleRows = testTransactions := by
      rw [parseRows_now now exampleNow (by rw [hyear]; rfl)]
      decide
    exact ⟨h2024, by rw [h2024]; decide⟩
  · simp only [testSummary, Decimal.toRat]; norm_num
  · simp only [testSummary, Decimal.toRat]; norm_num [abs_le]
  · simp only [testSummary, Decimal.toRat]; norm_num

theorem C25_end_to_end_witness :
    parseRows ⟨2024, .November, 30⟩ exampleRows = testTransactions ∧
    NewSummary (parseRows ⟨2024, .November, 30⟩ exampleRows) = some testSummary ∧
    (NewSummary (parseRows ⟨2031, .March, 5⟩ exampleRows)).map
        (fun s => s.MonthlyTransactions) = some [("July 2031", 3), ("August 2031", 2)] :=
  ⟨((C25_end_to_end ⟨2024, .November, 30⟩).2.2.2.2.2.2.1 rfl).1,
    ((C25_end_to_end ⟨2024, .November, 30⟩).2.2.2.2.2.2.1 rfl).2,
    by rw [(C25_end_to_end ⟨2031, .March, 5⟩).2.1]; decide⟩

/-- A date whose parsed year is not 0 is returned as parsed, whatever the
current year. -/
theorem parseDate_explicit_year (now : Time) (dateStr : String)
    (pre : List (List (List Char × Std))) (f : List (List Char × Std))
    (post : List (List (List Char × Std))) (t : Time)
    (hformats : formats = pre ++ f :: post)
    (hpre : ∀ g ∈ pre, timeParse g dateStr.toList = none)
    (hf : timeParse f dateStr.toList = some t) (hyear : t.year ≠ 0) :
    parseDate now dateStr = .ok t := by
  unfold parseDate
  rw [hformats, parseDateLoop_first now _ pre f post t hpre hf, if_neg hyear]

/-- Claim C26, the failing input. The date texts "0000-01-02" and "1/2/0000"
carry the explicit year 0 and are accepted through the ISO and the month/day/
4-digit-year layouts, which read year 0; `parseDate` returns them in the
current year, 2024 or 2025 according to `time.Now()`. -/
theorem C26_explicit_year_zero :
    timeParse [([], .stdLongYear), (['-'], .stdZeroMonth), (['-'], .stdZeroDay)]
        "0000-01-02".toList = some ⟨0, .January, 2⟩ ∧
    timeParse [([], .stdNumMonth), (['/'], .stdDay), (['/'], .stdLongYear)]
        "1/2/0000".toList = some ⟨0, .January, 2⟩ ∧
    parseDate ⟨2024, .March, 5⟩ "0000-01-02" = .ok ⟨2024, .January, 2⟩ ∧
    parseDate ⟨2025, .March, 5⟩ "0000-01-02" = .ok ⟨2025, .January, 2⟩ ∧
    parseDate ⟨2024, .March, 5⟩ "1/2/0000" = .ok ⟨2024, .January, 2⟩ ∧
    parseDate ⟨2025, .March, 5⟩ "1/2/0000" = .ok ⟨2025, .January, 2⟩ ∧
    parseDate ⟨2025, .March, 5⟩ "0001-01-02" = .ok ⟨1, .January, 2⟩ :=
  ⟨by decide, by decide, by decide, by decide, by decide, by decide, by decide⟩

/-! ## Consistency of the summary -/

theorem mem_mapKeys_mapAssign {V : Type} (m : List (String × V)) (k k1 : String) (v : V) :
    k1 ∈ mapKeys (mapAssign m k v) ↔ k1 ∈ mapKeys m ∨ k1 = k := by
  induction m with
  | nil => simp [mapAssign, mapKeys]
  | cons p rest ih =>
    obtain ⟨k0, v0⟩ := p
    unfold mapKeys at ih ⊢
    simp only [mapAssign]
    by_cases h : k0 = k
    · subst h
      simp only [if_true, List.map_cons, List.mem_cons]
      tauto
    · simp only [h, if_false, List.map_cons, List.mem_cons, ih]
      tauto

theorem mapKeys_mapAssign_nodup {V : Type} (m : List (String × V)) (k : String) (v : V)
    (h : (mapKeys m).Nodup) : (mapKeys (mapAssign m k v)).Nodup := by
  induction m with
  | nil => simp [mapAssign, mapKeys]
  | cons p rest ih =>
    obtain ⟨k0, v0⟩ := p
    have hcons : mapKeys ((k0, v0) :: rest) = k0 :: mapKeys rest := rfl
    rw [hcons, List.nodup_cons] at h
    simp only [mapAssign]
    by_cases hk : k0 = k
    · subst hk
      simp only [if_true]
      show (k0 :: mapKeys rest).Nodup
      exact List.nodup_cons.mpr h
    · simp only [hk, if_false]
      show (k0 :: mapKeys (mapAssign rest k v)).Nodup
      refine List.nodup_cons.mpr ⟨?_, ih h.2⟩
      intro hm
      rcases (mem_mapKeys_mapAssign rest k k0 v).mp hm with hm | hm
      · exact h.1 hm
      · exact hk hm

theorem entrySum_accumulate (m : List (String × Decimal)) (k : String) (a : Decimal) :
    entrySum (mapAssign m k ((mapIndex Decimal.zeroValue m k).Add a)) =
      entrySum m + a.toRat := by
  induction m with
  | nil =>
    simp [mapAssign, mapIndex, mapLookup, entrySum, Decimal.toRat_Add, Decimal.toRat_zeroValue]
  | cons p rest ih =>
    obtain ⟨k0, v0⟩ := p
    by_cases h : k0 = k
    · subst h
      simp [mapAssign, mapIndex, mapLookup, entrySum, Decimal.toRat_Add]; ring
    · have hi : mapIndex Decimal.zeroValue ((k0, v0) :: rest) k =
          mapIndex Decimal.zeroValue rest k := by
        simp [mapIndex, mapLookup, h]
      rw [hi]
      simp only [mapAssign, h, if_false]
      have e1 : ∀ (x : String × Decimal) (l : List (String × Decimal)),
          entrySum (x :: l) = x.2.toRat + entrySum l := fun x l => by simp [entrySum]
      rw [e1, e1, ih]; ring

/-- With one entry for each key, the sum over the keys is the sum of the entries. -/
theorem mapSum_eq_entrySum (m : List (String × Decimal)) (h : (mapKeys m).Nodup) :
    mapSum m = entrySum m := by
  induction m with
  | nil => rfl
  | cons p rest ih =>
    obtain ⟨k0, v0⟩ := p
    have hcons : mapKeys ((k0, v0) :: rest) = k0 :: mapKeys rest := rfl
    rw [hcons, List.nodup_cons] at h
    unfold mapSum entrySum at ih ⊢
    rw [hcons]
    simp only [List.map_cons, List.sum_cons]
    have h0 : mapIndex Decimal.zeroValue ((k0, v0) :: rest) k0 = v0 := by
      simp [mapIndex, mapLookup]
    have hrest : (mapKeys rest).map
          (fun k => (mapIndex Decimal.zeroValue ((k0, v0) :: rest) k).toRat) =
        (mapKeys rest).map (fun k => (mapIndex Decimal.zeroValue rest k).toRat) := by
      apply List.map_congr_left
      intro k hk
      have hne : k0 ≠ k := fun he => h.1 (he ▸ hk)
      simp [mapIndex, mapLookup, hne]
    rw [h0, hrest, ih h.2]

/-- The facts on the maps that every iteration of the loop keeps. -/
theorem loop_maps (l : List Transaction) (s : SummaryLoop)
    (hc : ∀ k ∈ mapKeys s.summary.MonthlyCredits, k ∈ mapKeys s.summary.MonthlyTransactions)
    (hd : ∀ k ∈ mapKeys s.summary.MonthlyDebits, k ∈ mapKeys s.summary.MonthlyTransactions)
    (nt : (mapKeys s.summary.MonthlyTransactions).Nodup)
    (nc : (mapKeys s.summary.MonthlyCredits).Nodup)
    (nd : (mapKeys s.summary.MonthlyDebits).Nodup) :
    (∀ k ∈ mapKeys (l.foldl summaryStep s).summary.MonthlyCredits,
      k ∈ mapKeys (l.foldl summaryStep s).summary.MonthlyTransactions) ∧
    (∀ k ∈ mapKeys (l.foldl summaryStep s).summary.MonthlyDebits,
      k ∈ mapKeys (l.foldl summaryStep s).summary.MonthlyTransactions) ∧
    (mapKeys (l.foldl summaryStep s).summary.MonthlyTransactions).Nodup ∧
    (mapKeys (l.foldl summaryStep s).summary.MonthlyCredits).Nodup ∧
    (mapKeys (l.foldl summaryStep s).summary.MonthlyDebits).Nodup ∧
    entrySum (l.foldl summaryStep s).summary.MonthlyCredits =
      entrySum s.summary.MonthlyCredits + sumAmounts (creditsOf l) ∧
    entrySum (l.foldl summaryStep s).summary.MonthlyDebits =
      entrySum s.summary.MonthlyDebits + sumAmounts (debitsOf l) := by
  induction l generalizing s with
  | nil =>
    refine ⟨hc, hd, nt, nc, nd, ?_, ?_⟩ <;> simp [creditsOf, debitsOf, sumAmounts]
  | cons t l ih =>
    rw [List.foldl_cons, creditsOf_cons, debitsOf_cons]
    by_cases h : t.IsCredit = true
    · have hstep := summaryStep_credit s t h
      obtain ⟨i1, i2, i3, i4, i5, i6, i7⟩ := ih (summaryStep s t)
        (by
          rw [hstep]; intro k hk
          rw [mem_mapKeys_mapAssign] at hk ⊢
          rcases hk with hk | hk
          · exact Or.inl (hc k hk)
          · exact Or.inr hk)
        (by
          rw [hstep]; intro k hk
          rw [mem_mapKeys_mapAssign]
          exact Or.inl (hd k hk))
        (by rw [hstep]; exact mapKeys_mapAssign_nodup _ _ _ nt)
        (by rw [hstep]; exact mapKeys_mapAssign_nodup _ _ _ nc)
        (by rw [hstep]; exact nd)
      refine ⟨i1, i2, i3, i4, i5, ?_, ?_⟩
      · rw [i6, hstep]
        simp only [h, if_true, sumAmounts_cons, entrySum_accumulate]; ring
      · rw [i7, hstep]
        simp only [h, if_true]
    · have h1 : t.IsCredit = false := by simpa using h
      have hstep := summaryStep_debit s t h1
      obtain ⟨i1, i2, i3, i4, i5, i6, i7⟩ := ih (summaryStep s t)
        (by
          rw [hstep]; intro k hk
          rw [mem_mapKeys_mapAssign]
          exact Or.inl (hc k hk))
        (by
          rw [hstep]; intro k hk
          rw [mem_mapKeys_mapAssign] at hk ⊢
          rcases hk with hk | hk
          · exact Or.inl (hd k hk)
          · exact Or.inr hk)
        (by rw [hstep]; exact mapKeys_mapAssign_nodup _ _ _ nt)
        (by rw [hstep]; exact nc)
        (by rw [hstep]; exact mapKeys_mapAssign_nodup _ _ _ nd)
      refine ⟨i1, i2, i3, i4, i5, ?_, ?_⟩
      · rw [i6, hstep]
        simp only [h1, Bool.false_eq_true, if_false]
      · rw [i7, hstep]
        simp only [h1, Bool.false_eq_true, if_false, sumAmounts_cons, entrySum_accumulate]; ring

/-- Claim C27. For every list of transactions `NewSummary` returns a summary that
is consistent: TotalBalance is exactly the sum over the month labels of
MonthlyCredits[label] minus the sum over the month labels of
MonthlyDebits[label]; every key of MonthlyCredits and every key of MonthlyDebits
is a key of MonthlyTransactions; and each of the three maps has one entry for
each of its keys. -/
theorem C27_summary_consistent (txs : List Transaction) :
    ∃ s, NewSummary txs = some s ∧
      s.TotalBalance.toRat = mapSum s.MonthlyCredits - mapSum s.MonthlyDebits ∧
      (∀ k ∈ mapKeys s.MonthlyCredits, k ∈ mapKeys s.MonthlyTransactions) ∧
      (∀ k ∈ mapKeys s.MonthlyDebits, k ∈ mapKeys s.MonthlyTransactions) ∧
      (mapKeys s.MonthlyTransactions).Nodup ∧ (mapKeys s.MonthlyCredits).Nodup ∧
      (mapKeys s.MonthlyDebits).Nodup := by
  obtain ⟨i1, i2, i3, i4, i5, i6, i7⟩ := loop_maps txs
    { summary := emptySummary, totalCredits := Decimal.zeroValue,
      totalDebits := Decimal.zeroValue, creditCount := 0, debitCount := 0 }
    (by simp [emptySummary, mapKeys]) (by simp [emptySummary, mapKeys])
    (by simp [emptySummary, mapKeys]) (by simp [emptySummary, mapKeys])
    (by simp [emptySummary, mapKeys])
  refine ⟨_, NewSummary_eq txs, ?_, i1, i2, i3, i4, i5⟩
  show (summaryLoop txs).summary.TotalBalance.toRat =
    mapSum (summaryLoop txs).summary.MonthlyCredits -
      mapSum (summaryLoop txs).summary.MonthlyDebits
  unfold summaryLoop
  rw [mapSum_eq_entrySum _ i4, mapSum_eq_entrySum _ i5, i6, i7, loop_TotalBalance]
  simp [emptySummary, entrySum, Decimal.toRat_Zero]

/-! ## The order of the validations of NewTransaction -/

/-- Claim C28. `NewTransaction` validates id, date and amount in that order and
reports the first failure only: an id text `strconv.Atoi` rejects gives
ErrInvalidTransactionID whatever the date and amount; a valid id with a date
`parseDate` rejects gives ErrInvalidDate whatever the amount; ErrInvalidAmount
is returned only when the id and the date are both valid; and every call returns
either a transaction, or no transaction and exactly one of these three errors. -/
theorem C28_validation_order (now : Time) (id date amount : String) :
    (Atoi id = none →
      NewTransaction now id date amount = .error .ErrInvalidTransactionID) ∧
    (∀ (i : Int) (e : DomainError), Atoi id = some i → parseDate now date = .error e →
      NewTransaction now id date amount = .error .ErrInvalidDate) ∧
    (NewTransaction now id date amount = .error .ErrInvalidAmount →
      ∃ (i : Int) (d : Time) (e : DomainError), Atoi id = some i ∧
        parseDate now date = .ok d ∧ parseAmount amount = .error e) ∧
    ((∃ t, NewTransaction now id date amount = .ok t) ∨
      NewTransaction now id date amount = .error .ErrInvalidTransactionID ∨
      NewTransaction now id date amount = .error .ErrInvalidDate ∨
      NewTransaction now id date amount = .error .ErrInvalidAmount) := by
  unfold NewTransaction
  cases hid : Atoi id with
  | none => simp
  | some i =>
    cases hd : parseDate now date with
    | error e => simp
    | ok d =>
      cases hp : parseAmount amount with
      | error e => simp
      | ok r => simp

theorem C28_validation_order_witness :
    NewTransaction exampleNow "x" "invalid-date" "60.5" = .error .ErrInvalidTransactionID ∧
    NewTransaction exampleNow "1" "invalid-date" "60.5" = .error .ErrInvalidDate ∧
    NewTransaction exampleNow "1" "7/15" "60.5" = .error .ErrInvalidAmount ∧
    (∃ (i : Int) (d : Time) (e : DomainError), Atoi "1" = some i ∧
      parseDate exampleNow "7/15" = .ok d ∧ parseAmount "60.5" = .error e) :=
  ⟨(C28_validation_order exampleNow "x" "invalid-date" "60.5").1 (by decide),
    (C28_validation_order exampleNow "1" "invalid-date" "60.5").2.1 1 .ErrInvalidDate
      (by decide) (by decide),
    by decide,
    (C28_validation_order exampleNow "1" "7/15" "60.5").2.2.1 (by decide)⟩
